import Mathlib

/-!
# Message unit of the DTU: a shallow embedding of `src/mem/dtu/msg_unit.cc`

The register file (`regfile.hh`) and the class declaration (`msg_unit.hh`, the `dtu.hh` that
belongs to this `msg_unit.cc`) are not among the sources.  Their data types are modelled from
the data model of the specification (section 3) and from the way `msg_unit.cc` uses them; every
function of `msg_unit.cc` is translated statement by statement.

Conventions:

* An `assert` that fails stops the simulator; a function that contains assertions returns
  `Option`, and `none` stands for a failed assertion.
* The calls into the rest of the DTU (`scheduleFinishOp`, `startTransfer`, `sendNocResponse`,
  `setEvent`, `setIrq`, `wakeupCore`, `handlePFResp`) are recorded in the state, in call order.
* Register fields are natural numbers.  The credit fields are six bits wide (`UNLIM = 0x3F` is
  their largest value); theorems that need it carry the range as a hypothesis.
* Debug output and the byte statistics (`sentBytes`, `repliedBytes`, `receivedBytes`) are left
  out; the drop counter `noSpace` is kept.
-/

namespace Dtu

/-! ## Constants and plain data -/

/-- Modelled from the spec: the closed error enumeration of section 6 (the header that declares
`Dtu::Error` is not among the sources). -/
inductive Error
  | NONE | MISS_CREDITS | NO_RING_SPACE | INV_EP | ABORT | PAGEFAULT | NO_PERM | INV_MSG
  | OUT_OF_BOUNDS | RECV_GONE | FOREIGN_EP | SEND_REPLY | NO_MEP | UNKNOWN_CMD
  deriving DecidableEq, Repr

/-- Modelled from the spec: the event kinds raised by the message unit (`EventType`). -/
inductive EventType
  | MSG_RECV | CRD_RECV
  deriving DecidableEq, Repr

/-- The credit sentinel `CREDITS_UNLIM = 0x3F` (`tcu.hh`, and section 3 of the spec). -/
def CREDITS_UNLIM : Nat := 0x3F

/-- Message flag `REPLY_FLAG = 1 << 0` (`tcu.hh`). -/
def REPLY_FLAG : Nat := 1

/-- Modelled from the spec: message flag `GRANT_CREDITS`, the second flag of the header. -/
def GRANT_CREDITS_FLAG : Nat := 2

/-- Modelled from the spec: message flag `REPLY_ENABLED`, the third flag of the header. -/
def REPLY_ENABLED : Nat := 4

/-- Modelled from the spec: message flag `PAGEFAULT`, the fourth flag of the header. -/
def PAGEFAULT : Nat := 8

/-- Modelled from the spec: `SendEp::FL_REPLY`, the flag that marks a reply send endpoint. -/
def FL_REPLY : Nat := 1

/-- Modelled from the spec: `SendEp::FL_PF`, the pagefault flag of a reply send endpoint. -/
def FL_PF : Nat := 2

/-- Modelled from the spec: `RecvEp::MAX_MSGS`, the value `msgToIdx` returns for an address
that belongs to no slot (the width of the occupancy words). -/
def MAX_MSGS : Nat := 32

/-- Modelled from the spec: the width in bits of the unsigned field `RecvEp::msgCount`
(`regfile.hh`). -/
def MSG_COUNT_BITS : Nat := 8

/-- The statement `ep.msgCount--` on the unsigned count of `MSG_COUNT_BITS` bits: it takes one
off, and the count 0 wraps to the largest value. -/
def decMsgCount (n : Nat) : Nat := if n = 0 then 2 ^ MSG_COUNT_BITS - 1 else n - 1

/-- Opcode `SEND` of the command register (`tcu.hh`). -/
def SEND : Nat := 1

/-- Opcode `REPLY` of the command register (`tcu.hh`). -/
def REPLY : Nat := 2

/-- Transfer flag `XferUnit::MESSAGE`. -/
def XFER_MESSAGE : Nat := 1

/-- Transfer flag `XferUnit::MSGRECV`. -/
def XFER_MSGRECV : Nat := 2

/-- Transfer flag `XferUnit::NOPF`. -/
def XFER_NOPF : Nat := 4

/-- Transfer flag `XferUnit::PRIV`. -/
def XFER_PRIV : Nat := 16

/-- Modelled from the spec: the bit `Dtu::NocFlags::PRIV` of the flags of a NoC packet. -/
def NOC_PRIV : Nat := 2

/-- Modelled from the spec: `sizeof(MessageHeader)` for the packed header of section 3
(1 + 1 + 2 + 2 + 2 + 8 + 8 + 1 bytes). -/
def sizeofMessageHeader : Nat := 25

/-- Modelled from the spec: a send endpoint (`SendEp` of `regfile.hh`), with the fields that
`msg_unit.cc` reads and writes.  The endpoint is valid when `maxMsgSize` is not zero. -/
structure SendEp where
  flags : Nat
  targetCore : Nat
  targetEp : Nat
  crdEp : Nat
  maxcrd : Nat
  curcrd : Nat
  maxMsgSize : Nat
  label : Nat
  deriving DecidableEq

/-- Modelled from the spec: a receive endpoint (`RecvEp` of `regfile.hh`).  The two per-slot
bitsets are kept as the sets of the slot indices whose bit is set, so that the population
count of a bitset is the cardinality of the set. -/
structure RecvEp where
  rdPos : Nat
  wrPos : Nat
  bufAddr : Nat
  msgSize : Nat
  size : Nat
  replyEps : Nat
  occupied : Finset Nat
  unread : Finset Nat
  msgCount : Nat
  deriving DecidableEq

namespace RecvEp

/-- Modelled from the spec: `RecvEp::isOccupied`, the occupied bit of slot `i`. -/
def isOccupied (ep : RecvEp) (i : Nat) : Bool := decide (i ∈ ep.occupied)

/-- Modelled from the spec: `RecvEp::isUnread`, the unread bit of slot `i`. -/
def isUnread (ep : RecvEp) (i : Nat) : Bool := decide (i ∈ ep.unread)

/-- Modelled from the spec: `RecvEp::setOccupied`, sets or clears the occupied bit of slot `i`. -/
def setOccupied (ep : RecvEp) (i : Nat) (b : Bool) : RecvEp :=
  { ep with occupied := if b then insert i ep.occupied else ep.occupied.erase i }

/-- Modelled from the spec: `RecvEp::setUnread`, sets or clears the unread bit of slot `i`. -/
def setUnread (ep : RecvEp) (i : Nat) (b : Bool) : RecvEp :=
  { ep with unread := if b then insert i ep.unread else ep.unread.erase i }

/-- Modelled from the spec: `RecvEp::msgToIdx`, the slot that holds the message at address
`msg` (the inverse of the address `bufAddr + (i << msgSize)` that `fetchMessage` hands out), or
`MAX_MSGS` when the address lies outside the ring. -/
def msgToIdx (ep : RecvEp) (msg : Nat) : Nat :=
  if msg < ep.bufAddr then MAX_MSGS
  else
    let idx := (msg - ep.bufAddr) >>> ep.msgSize
    if idx < 1 <<< ep.size then idx else MAX_MSGS

end RecvEp

/-- Modelled from the spec: one typed endpoint slot of the register file (section 3).  Memory
endpoints are not touched by the message unit and carry no data here. -/
inductive Ep
  | invalid
  | send (e : SendEp)
  | recv (e : RecvEp)
  | mem
  deriving DecidableEq

/-- The message header that travels in front of the payload (section 3 of the spec; the fields
are the ones `startXfer` fills). -/
structure MessageHeader where
  flags : Nat
  senderCoreId : Nat
  senderEpId : Nat
  replyEpId : Nat
  length : Nat
  label : Nat
  replyLabel : Nat
  replySize : Nat
  deriving DecidableEq

/-- The member `MessageUnit::info`, filled by `startTransmission` and read by `startXfer`. -/
structure Info where
  targetCoreId : Nat
  targetEpId : Nat
  label : Nat
  replyLabel : Nat
  replyEpId : Nat
  replySize : Nat
  flags : Nat
  unlimcred : Bool
  ready : Bool
  deriving DecidableEq

/-- The fields of `Dtu::Command::Bits` that the message unit reads. -/
structure Command where
  opcode : Nat
  epid : Nat
  arg : Nat
  deriving DecidableEq

/-- The data register: address and size of the payload of the running command. -/
structure DataReg where
  addr : Nat
  size : Nat
  deriving DecidableEq

/-- A `SendTransferEvent` handed to `dtu.startTransfer`. -/
structure SendXfer where
  addr : Nat
  size : Nat
  flags : Nat
  targetCoreId : Nat
  targetEpId : Nat
  header : MessageHeader
  deriving DecidableEq

/-- A `ReceiveTransferEvent` handed to `dtu.startTransfer`. -/
structure RecvXfer where
  epId : Nat
  localAddr : Nat
  flags : Nat
  header : MessageHeader
  deriving DecidableEq

/-- The part of a NoC packet that `recvFromNoc` looks at: the offset of its NoC address (the
target endpoint), its size, the two properties that are asserted, and the header in front of
its data. -/
structure Packet where
  addrOffset : Nat
  size : Nat
  isWrite : Bool
  hasData : Bool
  header : MessageHeader
  deriving DecidableEq

/-- State of one DTU as far as the message unit is concerned: configuration, register file,
the members of `MessageUnit`, and the record of the calls made into the rest of the DTU. -/
structure State where
  coreId : Nat
  numEndpoints : Nat
  maxNocPacketSize : Nat
  eps : Nat → Ep
  dataReg : DataReg
  replyLabel : Nat
  irqOnMsg : Bool
  events : List EventType
  info : Info
  noSpace : Nat
  finishOps : List Error
  sendXfers : List SendXfer
  recvXfers : List RecvXfer
  nocResponses : Nat
  pfResponses : Nat
  irqs : Nat
  wakeups : Nat

/-! ## Register file accessors (modelled) -/

/-- The all-zero send endpoint, which is invalid (`maxMsgSize = 0`). -/
def SendEp.zero : SendEp := ⟨0, 0, 0, 0, 0, 0, 0, 0⟩

/-- The all-zero receive endpoint, which is invalid (`bufAddr = 0`). -/
def RecvEp.zero : RecvEp := ⟨0, 0, 0, 0, 0, 0, ∅, ∅, 0⟩

namespace State

/-- Modelled from the spec: `regs().getSendEp`; a slot that holds no send endpoint reads as the
invalid send endpoint. -/
def getSendEp (d : State) (epid : Nat) : SendEp :=
  match d.eps epid with
  | Ep.send e => e
  | _ => SendEp.zero

/-- Modelled from the spec: `regs().getRecvEp`; a slot that holds no receive endpoint reads as
the invalid receive endpoint. -/
def getRecvEp (d : State) (epid : Nat) : RecvEp :=
  match d.eps epid with
  | Ep.recv e => e
  | _ => RecvEp.zero

/-- Modelled from the spec: `regs().setSendEp`, writes a send endpoint into slot `epid`. -/
def setSendEp (d : State) (epid : Nat) (ep : SendEp) : State :=
  { d with eps := Function.update d.eps epid (Ep.send ep) }

/-- Modelled from the spec: `regs().setRecvEp`, writes a receive endpoint into slot `epid`. -/
def setRecvEp (d : State) (epid : Nat) (ep : RecvEp) : State :=
  { d with eps := Function.update d.eps epid (Ep.recv ep) }

/-- Modelled from the spec: `regs().invalidate`, turns slot `epid` into an invalid endpoint. -/
def invalidate (d : State) (epid : Nat) : State :=
  { d with eps := Function.update d.eps epid Ep.invalid }

/-- The call `dtu.scheduleFinishOp(Cycles(1), error)`: the command finishes with `error`. -/
def scheduleFinishOp (d : State) (error : Error) : State :=
  { d with finishOps := d.finishOps ++ [error] }

end State

/-! ## The functions of `msg_unit.cc` -/

namespace MessageUnit

open State

/-- One counting loop `for (i = lo; i < hi; ++i) if (p(i)) goto found;`: the first index in
`[lo, hi)` at which `p` holds, if there is one. -/
def scanLoop (p : Nat → Bool) (lo hi : Nat) : Option Nat :=
  (List.range' lo (hi - lo)).find? p

/-- The two loops of `allocSlot` and `fetchMessage`: scan `[start, cap)`, then `[0, start)`. -/
def scanRing (p : Nat → Bool) (start cap : Nat) : Option Nat :=
  match scanLoop p start cap with
  | some i => some i
  | none => scanLoop p 0 start

/-- Position of slot `i` in the scan order `start, start+1, ..., cap-1, 0, ..., start-1`. -/
def ringRank (start cap i : Nat) : Nat := (i + cap - start) % cap

/-- The function `MessageUnit::startXfer`: builds the header from `info` and the data register
and hands a `SendTransferEvent` to the transfer unit. -/
def startXfer (cmd : Command) (d : State) : Option State :=
  if !d.info.ready then none
  else
    let data := d.dataReg
    let flags0 := if cmd.opcode = REPLY then REPLY_FLAG ||| GRANT_CREDITS_FLAG else REPLY_ENABLED
    let header : MessageHeader :=
      { flags := flags0 ||| d.info.flags
        senderCoreId := d.coreId
        senderEpId := if d.info.unlimcred then d.numEndpoints else cmd.epid
        replyEpId := d.info.replyEpId
        length := data.size
        label := d.info.label
        replyLabel := d.info.replyLabel
        replySize := d.info.replySize }
    if ¬ (data.size + sizeofMessageHeader ≤ d.maxNocPacketSize) then none
    else
      let ev : SendXfer :=
        { addr := data.addr
          size := data.size
          flags := XFER_MESSAGE
          targetCoreId := d.info.targetCoreId
          targetEpId := d.info.targetEpId
          header := header }
      some { d with sendXfers := d.sendXfers ++ [ev], info := { d.info with ready := false } }

/-- The second half of `MessageUnit::startTransmission` (from "check if we have enough
credits"), run on the endpoint `epid` that the first half selected. -/
def payAndStart (cmd : Command) (epid : Nat) (d : State) : Option State :=
  let data := d.dataReg
  let ep := d.getSendEp epid
  if ep.maxMsgSize = 0 then some (d.scheduleFinishOp Error.INV_EP)
  else if ep.curcrd ≠ CREDITS_UNLIM ∧ ep.curcrd = 0 then
    some (d.scheduleFinishOp Error.MISS_CREDITS)
  else
    let ep := if ep.curcrd ≠ CREDITS_UNLIM then { ep with curcrd := ep.curcrd - 1 } else ep
    let d := if (d.getSendEp epid).curcrd ≠ CREDITS_UNLIM then d.setSendEp epid ep else d
    if ¬ (data.size + sizeofMessageHeader ≤ 1 <<< ep.maxMsgSize) then none
    else
      let info := { d.info with
        targetCoreId := ep.targetCore
        targetEpId := ep.targetEp
        label := ep.label
        replyLabel := d.replyLabel
        unlimcred := decide (ep.curcrd = CREDITS_UNLIM)
        ready := true }
      let info := if cmd.opcode = SEND then
          { info with replySize := (d.getRecvEp cmd.arg).msgSize, replyEpId := cmd.arg, flags := 0 }
        else info
      startXfer cmd { d with info := info }

/-- The function `MessageUnit::startTransmission`.  For a REPLY the reply endpoint is loaded
first; then the credits are checked and paid and the transfer is started. -/
def startTransmission (cmd : Command) (d : State) : Option State :=
  if cmd.opcode = REPLY then
    let ep := d.getRecvEp cmd.epid
    let msgidx := ep.msgToIdx cmd.arg
    if ep.replyEps = d.numEndpoints then some (d.scheduleFinishOp Error.INV_EP)
    else
      let epid := ep.replyEps + msgidx
      let sep := d.getSendEp epid
      if sep.maxMsgSize = 0 ∨ sep.flags &&& FL_REPLY = 0 then
        some (d.scheduleFinishOp Error.INV_EP)
      else
        let flags := REPLY_FLAG ||| GRANT_CREDITS_FLAG
        let flags := if sep.flags &&& FL_PF ≠ 0 then flags ||| PAGEFAULT else flags
        let info := { d.info with replyEpId := sep.crdEp, flags := flags, replySize := 0 }
        payAndStart cmd epid { d with info := info }
  else payAndStart cmd cmd.epid d

/-- The function `MessageUnit::ackMessage`. -/
def ackMessage (epId msgAddr : Nat) (d : State) : Error × State :=
  let ep := d.getRecvEp epId
  if ep.bufAddr = 0 then (Error.INV_EP, d)
  else
    let msgidx := ep.msgToIdx msgAddr
    if msgidx = MAX_MSGS ∨ !ep.isOccupied msgidx then (Error.INV_MSG, d)
    else
      let ep := ep.setOccupied msgidx false
      let ep := if ep.isUnread msgidx then
          { ep.setUnread msgidx false with msgCount := decMsgCount ep.msgCount }
        else ep
      let d := if ep.replyEps ≠ d.numEndpoints then d.invalidate (ep.replyEps + msgidx) else d
      (Error.NONE, d.setRecvEp epId ep)

/-- The function `MessageUnit::finishMsgReply`: acknowledges the message that was replied to
(the error of the reply is not looked at). -/
def finishMsgReply (_error : Error) (epid msgAddr : Nat) (d : State) : State :=
  (ackMessage epid msgAddr d).2

/-- The function `MessageUnit::finishMsgSend`. -/
def finishMsgSend (error : Error) (epid : Nat) (d : State) : Option State :=
  let ep := d.getSendEp epid
  if ep.maxMsgSize = 0 then some d
  else if ep.curcrd ≠ CREDITS_UNLIM ∧ error ≠ Error.NONE ∧ error ≠ Error.MISS_CREDITS then
    let ep := { ep with curcrd := ep.curcrd + 1 }
    if ¬ (ep.curcrd ≤ ep.maxcrd) then none
    else some (d.setSendEp epid ep)
  else some (d.setSendEp epid ep)

/-- The function `MessageUnit::recvCredits`. -/
def recvCredits (epid : Nat) (d : State) : Option State :=
  let ep := d.getSendEp epid
  if ep.curcrd ≠ CREDITS_UNLIM then
    let ep := { ep with curcrd := ep.curcrd + 1 }
    if ¬ (ep.curcrd ≤ ep.maxcrd) then none
    else some (d.setSendEp epid ep)
  else some d

/-- The function `MessageUnit::fetchMessage`; the result is the address of the fetched message,
or 0 when the endpoint holds no unread message. -/
def fetchMessage (epid : Nat) (d : State) : Option (Nat × State) :=
  let ep := d.getRecvEp epid
  if ep.msgCount = 0 then some (0, d)
  else
    match scanRing (fun i => ep.isUnread i) ep.rdPos (1 <<< ep.size) with
    | none => none
    | some i =>
      if !ep.isOccupied i then none
      else
        let ep := ep.setUnread i false
        let ep := { ep with msgCount := ep.msgCount - 1, rdPos := i + 1 }
        some (ep.bufAddr + (i <<< ep.msgSize), d.setRecvEp epid ep)

/-- The function `MessageUnit::allocSlot`.  The endpoint is passed by reference in the source,
so the updated endpoint is returned next to the slot index (`-1` when there is none). -/
def allocSlot (msgSize epid : Nat) (ep : RecvEp) (d : State) : Option (Int × RecvEp × State) :=
  if ep.bufAddr = 0 then some (-1, ep, d)
  else if ¬ (msgSize ≤ 1 <<< ep.msgSize) then none
  else
    match scanRing (fun i => !ep.isOccupied i) ep.wrPos (1 <<< ep.size) with
    | none => some (-1, ep, d)
    | some i =>
      let ep := ep.setOccupied i true
      let ep := { ep with wrPos := i + 1 }
      some ((i : Int), ep, d.setRecvEp epid ep)

/-- The function `MessageUnit::finishMsgReceive`.  The slot index `idx` is that of a message
address at or above `bufAddr`, as the addresses of the slots are; for an address below
`bufAddr` the `int idx` of the source is negative, where the subtraction here gives 0. -/
def finishMsgReceive (epId msgAddr : Nat) (header : MessageHeader) (error : Error)
    (_xferFlags : Nat) (d : State) : Option (Error × State) :=
  let ep := d.getRecvEp epId
  if ep.bufAddr = 0 then some (Error.INV_EP, d)
  else
    let idx := (msgAddr - ep.bufAddr) >>> ep.msgSize
    if error = Error.NONE then
      let credited : Option State :=
        if header.flags &&& REPLY_FLAG ≠ 0 ∧ header.flags &&& GRANT_CREDITS_FLAG ≠ 0 ∧
            header.replyEpId < d.numEndpoints then
          recvCredits header.replyEpId d
        else some d
      match credited with
      | none => none
      | some d =>
        if ep.msgCount = 1 <<< ep.size then some (error, d)
        else
          let ep := { ep with msgCount := ep.msgCount + 1 }
          let ep := ep.setUnread idx true
          let installed : Option State :=
            if header.flags &&& REPLY_FLAG = 0 then
              if ep.replyEps = d.numEndpoints then none
              else
                let sep : SendEp :=
                  { targetCore := header.senderCoreId
                    targetEp := header.replyEpId
                    label := header.replyLabel
                    maxMsgSize := header.replySize
                    maxcrd := 1
                    curcrd := 1
                    crdEp := header.senderEpId
                    flags := if header.flags &&& PAGEFAULT ≠ 0 then FL_REPLY ||| FL_PF
                      else FL_REPLY }
                some (d.setSendEp (ep.replyEps + idx) sep)
            else some d
          match installed with
          | none => none
          | some d =>
            let d := d.setRecvEp epId ep
            let d := { d with events := d.events ++ [EventType.MSG_RECV] }
            let d := if d.irqOnMsg then { d with irqs := d.irqs + 1 }
              else { d with wakeups := d.wakeups + 1 }
            some (error, d)
    else
      let ep := ep.setOccupied idx false
      some (error, d.setRecvEp epId ep)

/-- The function `MessageUnit::recvFromNoc`. -/
def recvFromNoc (pkt : Packet) (flags : Nat) (d : State) : Option (Error × State) :=
  if !pkt.isWrite then none
  else if !pkt.hasData then none
  else
    let header := pkt.header
    let pfResp := REPLY_FLAG ||| PAGEFAULT
    if header.flags &&& pfResp = pfResp then
      some (Error.NONE, { d with pfResponses := d.pfResponses + 1 })
    else
      let epId := pkt.addrOffset
      if epId ≥ d.numEndpoints ∧ header.flags &&& REPLY_FLAG ≠ 0 ∧
          header.flags &&& GRANT_CREDITS_FLAG ≠ 0 ∧ header.replyEpId < d.numEndpoints then
        match recvCredits header.replyEpId d with
        | none => none
        | some d =>
          some (Error.NONE, { d with
            nocResponses := d.nocResponses + 1
            events := d.events ++ [EventType.CRD_RECV]
            wakeups := d.wakeups + 1 })
      else
        let ep := d.getRecvEp epId
        match allocSlot pkt.size epId ep d with
        | none => none
        | some (msgidx, ep, d) =>
          if msgidx = -1 then
            some (Error.NO_RING_SPACE,
              { d with noSpace := d.noSpace + 1, nocResponses := d.nocResponses + 1 })
          else
            let rflags := XFER_MSGRECV ||| XFER_NOPF
            let rflags := if flags &&& NOC_PRIV ≠ 0 then rflags ||| XFER_PRIV else rflags
            let localAddr := ep.bufAddr + (msgidx.toNat <<< ep.msgSize)
            let ev : RecvXfer :=
              { epId := epId, localAddr := localAddr, flags := rflags, header := header }
            some (Error.NONE, { d with recvXfers := d.recvXfers ++ [ev] })

/-- The function `MessageUnit::ReceiveTransferEvent::transferDone`: the completion of a receive
transfer calls `finishMsgReceive` for the endpoint, address and header of that transfer. -/
def transferDone (ev : RecvXfer) (result : Error) (d : State) : Option (Error × State) :=
  finishMsgReceive ev.epId ev.localAddr ev.header result ev.flags d

/-- The first `n` of a row of SEND commands that get no reply: each command is launched by
`startTransmission` and completed by `finishMsgSend` with the error `NONE`. -/
def sendRounds (cmd : Command) : Nat → State → Option State
  | 0, d => some d
  | n + 1, d =>
    match sendRounds cmd n d with
    | none => none
    | some d1 =>
      match startTransmission cmd d1 with
      | none => none
      | some d2 => finishMsgSend Error.NONE cmd.epid d2

/-- The NoC packet that carries a send transfer: it is written to the target endpoint and holds
the header (put in front by `SendTransferEvent::transferStart`) and the payload. -/
def toPacket (x : SendXfer) : Packet :=
  { addrOffset := x.targetEpId, size := x.size + sizeofMessageHeader, isWrite := true,
    hasData := true, header := x.header }

/-- One message delivered from the NoC: `recvFromNoc` takes the packet and, when it started a
receive transfer, that transfer runs to its end with the result `NONE` (`transferDone`). -/
def deliver (pkt : Packet) (flags : Nat) (d : State) : Option (Error × State) :=
  match recvFromNoc pkt flags d with
  | none => none
  | some (err, d1) =>
    match d1.recvXfers.drop d.recvXfers.length with
    | ev :: _ => transferDone ev Error.NONE d1
    | [] => some (err, d1)

/-- A row of deliveries, one after the other; the result lists the error of each. -/
def deliverAll (flags : Nat) : List Packet → State → Option (List Error × State)
  | [], d => some ([], d)
  | pkt :: pkts, d =>
    match deliver pkt flags d with
    | none => none
    | some (err, d1) =>
      match deliverAll flags pkts d1 with
      | none => none
      | some (errs, d2) => some (err :: errs, d2)

/-- An ordinary message for endpoint `epId`: a write packet with data, addressed to `epId`,
whose header does not carry the REPLY flag. -/
def isMessageFor (epId : Nat) (pkt : Packet) : Prop :=
  pkt.isWrite = true ∧ pkt.hasData = true ∧ pkt.addrOffset = epId ∧
    pkt.header.flags &&& REPLY_FLAG = 0

instance (epId : Nat) (pkt : Packet) : Decidable (isMessageFor epId pkt) := by
  unfold isMessageFor
  infer_instance

/-- The states of the receive endpoint `epId` that are reached from `d0` by calls of `allocSlot`,
`finishMsgReceive`, `fetchMessage` and `ackMessage` that keep to the order of a reception:
the list holds the slots that `allocSlot` handed out and whose receive transfer is still in
flight; `finishMsgReceive` is called for such a slot, at the address of the slot, and
`ackMessage` is not called for such a slot. -/
inductive RingReach (epId : Nat) (d0 : State) : State → List Nat → Prop
  | init : RingReach epId d0 d0 []
  | alloc (d : State) (pending : List Nat) (msgSize i : Nat) (ep1 : RecvEp) (d1 : State) :
      RingReach epId d0 d pending →
      allocSlot msgSize epId (d.getRecvEp epId) d = some ((i : Int), ep1, d1) →
      RingReach epId d0 d1 (i :: pending)
  | finish (d : State) (pending : List Nat) (idx : Nat) (header : MessageHeader)
      (error res : Error) (xferFlags : Nat) (d1 : State) :
      RingReach epId d0 d pending → idx ∈ pending →
      finishMsgReceive epId ((d.getRecvEp epId).bufAddr + (idx <<< (d.getRecvEp epId).msgSize))
        header error xferFlags d = some (res, d1) →
      RingReach epId d0 d1 (pending.erase idx)
  | fetch (d : State) (pending : List Nat) (addr : Nat) (d1 : State) :
      RingReach epId d0 d pending → fetchMessage epId d = some (addr, d1) →
      RingReach epId d0 d1 pending
  | ack (d : State) (pending : List Nat) (msgAddr : Nat) (res : Error) (d1 : State) :
      RingReach epId d0 d pending → (d.getRecvEp epId).msgToIdx msgAddr ∉ pending →
      ackMessage epId msgAddr d = (res, d1) →
      RingReach epId d0 d1 pending

/-- The invariant of a receive ring together with the slots in flight: `msgCount` counts the
unread slots, unread slots are occupied, occupied slots lie inside the ring, and a slot in
flight is occupied and not yet unread. -/
def RingInv (ep : RecvEp) (pending : List Nat) : Prop :=
  ep.msgCount = ep.unread.card ∧ ep.unread ⊆ ep.occupied ∧
    (∀ i ∈ ep.occupied, i < 1 <<< ep.size) ∧ pending.Nodup ∧
    (∀ i ∈ pending, i ∈ ep.occupied ∧ i ∉ ep.unread) ∧
    (ep.wrPos ≤ 1 <<< ep.size ∨ ep.occupied = ∅)

end MessageUnit

/-! ## Concrete configurations

The literal configuration of the end-to-end scenarios of section 8 of the spec: 16 endpoints;
tile A (id 0) owns the send endpoint 2 that targets endpoint 4 of tile B (id 1) with label
`0xA`, and a receive endpoint 3 for the replies; tile B owns the receive endpoint 4 with
buffer `0x1000`, two slots of 64 bytes and the reply endpoints 5 and 6. -/

namespace Scenario

/-- An idle `MessageUnit::info`. -/
def idleInfo : Info := ⟨0, 0, 0, 0, 0, 0, 0, false, false⟩

/-- The send endpoint A.EP2 with `maxcrd` and `curcrd` credits. -/
def sendEpA (maxcrd curcrd : Nat) : SendEp :=
  { flags := 0, targetCore := 1, targetEp := 4, crdEp := 0, maxcrd := maxcrd, curcrd := curcrd,
    maxMsgSize := 6, label := 0xA }

/-- The receive endpoint A.EP3 that takes the replies: buffer `0x2000`, two slots of 64 bytes,
no reply endpoints of its own (`replyEps = numEndpoints`). -/
def recvEpA : RecvEp :=
  { rdPos := 0, wrPos := 0, bufAddr := 0x2000, msgSize := 6, size := 1, replyEps := 16,
    occupied := ∅, unread := ∅, msgCount := 0 }

/-- The receive endpoint B.EP4 of the scenarios, with the given ring contents. -/
def recvEpB (wrPos : Nat) (occupied unread : Finset Nat) (msgCount : Nat) : RecvEp :=
  { rdPos := 0, wrPos := wrPos, bufAddr := 0x1000, msgSize := 6, size := 1, replyEps := 5,
    occupied := occupied, unread := unread, msgCount := msgCount }

/-- A DTU with the given tile id and endpoint registers, an 8-byte payload at `0x500` in the
data register, and no recorded activity. -/
def tile (coreId : Nat) (eps : Nat → Ep) : State :=
  { coreId := coreId, numEndpoints := 16, maxNocPacketSize := 512, eps := eps,
    dataReg := ⟨0x500, 8⟩, replyLabel := 0xB, irqOnMsg := false, events := [],
    info := idleInfo, noSpace := 0, finishOps := [], sendXfers := [], recvXfers := [],
    nocResponses := 0, pfResponses := 0, irqs := 0, wakeups := 0 }

/-- Tile A with `curcrd` of `maxcrd` credits on EP2. -/
def tileA (maxcrd curcrd : Nat) : State :=
  tile 0 (fun n => if n = 2 then Ep.send (sendEpA maxcrd curcrd)
    else if n = 3 then Ep.recv recvEpA else Ep.invalid)

/-- Tile B with the given ring contents on EP4 and invalid reply endpoints. -/
def tileB (wrPos : Nat) (occupied unread : Finset Nat) (msgCount : Nat) : State :=
  tile 1 (fun n => if n = 4 then Ep.recv (recvEpB wrPos occupied unread msgCount)
    else Ep.invalid)

/-- The command SEND on EP2 with reply endpoint 3. -/
def sendCmd : Command := ⟨SEND, 2, 3⟩

/-- The header of an ordinary message from A.EP2 as `startXfer` builds it. -/
def msgHeader : MessageHeader :=
  { flags := REPLY_ENABLED, senderCoreId := 0, senderEpId := 2, replyEpId := 3, length := 8,
    label := 0xA, replyLabel := 0xB, replySize := 6 }

/-- The NoC packet that carries `msgHeader` and 8 bytes of payload to endpoint 4. -/
def msgPacket : Packet :=
  { addrOffset := 4, size := 33, isWrite := true, hasData := true, header := msgHeader }

end Scenario

end Dtu

/-! # The transfer unit, the slave ports and the core requests of the TCU

The embedding of `src/mem/tcu/xfer_unit.cc`, of the slave ports of `src/mem/tcu/base.cc` and of
`src/mem/tcu/core_reqs.cc`.  A buffer pointer of the source is the index of the buffer in the
pool (`bufs[i]` is created with the id `i`), a transfer that owns a buffer is stored in that
buffer, and the calls into the rest of the TCU (scheduling, translations, memory requests,
the hooks `transferStart`, `transferDone` and `finish`) are logged in the state.  `none` is a
failed `assert` or a dereferenced null pointer; the functions that call each other in a cycle
take a bound on the depth of the calls, and `none` is also the result when that bound is
reached. -/

namespace Tcu

open Dtu.MessageUnit (scanLoop)

/-- Modelled from the spec: the error codes `TcuError` (section 6 of the spec); the header
that declares them is not part of the sources. -/
inductive TcuError
  | NONE | MISS_CREDITS | NO_RING_SPACE | INV_EP | ABORT | PAGEFAULT | NO_PERM | INV_MSG
  | OUT_OF_BOUNDS | RECV_GONE | FOREIGN_EP | SEND_REPLY | NO_MEP | UNKNOWN_CMD
  deriving DecidableEq, Repr

namespace TcuTlb

/-- `TcuTlb::PAGE_BITS`. -/
def PAGE_BITS : Nat := 12
/-- `TcuTlb::PAGE_SIZE`. -/
def PAGE_SIZE : Nat := 1 <<< PAGE_BITS
/-- `TcuTlb::PAGE_MASK`. -/
def PAGE_MASK : Nat := PAGE_SIZE - 1

/-- `TcuTlb::Result`. -/
inductive Result
  | HIT | MISS | PAGEFAULT
  deriving DecidableEq, Repr

/-- `TcuTlb::READ`. -/
def READ : Nat := 1
/-- `TcuTlb::WRITE`. -/
def WRITE : Nat := 2

end TcuTlb

namespace XferFlags

/-- Modelled from the spec: the transfer flag `MESSAGE`; `xfer_unit.hh`, which declares the
four flags as distinct bits, is not part of the sources. -/
def MESSAGE : Nat := 1
/-- Modelled from the spec: the transfer flag `MSGRECV`. -/
def MSGRECV : Nat := 2
/-- Modelled from the spec: the transfer flag `NOPF`. -/
def NOPF : Nat := 4
/-- Modelled from the spec: the transfer flag `NOXLATE`. -/
def NOXLATE : Nat := 8

end XferFlags

/-- Modelled from the spec: the fields of `XferUnit::TransferEvent` that `xfer_unit.cc` uses
(the class is declared in `xfer_unit.hh`).  `localAddr` is the field `local`, `trans` tells
whether a `Translation` is attached, `scheduled` whether the event is in the event queue. -/
structure TransferEvent where
  id : Nat
  localAddr : Nat
  remaining : Nat
  flags : Nat
  isWrite : Bool
  isRemote : Bool
  result : TcuError
  trans : Bool
  freeSlots : Nat
  vpe : Nat
  scheduled : Bool
  deriving DecidableEq, Repr

/-- Modelled from the spec: `XferUnit::Buffer`; `event` is the live transfer of the buffer. -/
structure Buffer where
  event : Option TransferEvent
  offset : Nat
  bytes : List Nat
  deriving DecidableEq, Repr

/-- One call of `tcu.sendMemRequest`: the packet (address, size, command and, for a write, the
copied bytes), the virtual address and the tag `id | (offset << 32)`. -/
structure MemRequest where
  physAddr : Nat
  size : Nat
  isWrite : Bool
  data : List Nat
  virt : Nat
  tag : Nat
  deriving DecidableEq, Repr

/-- One call of `tcu.startTranslate`. -/
structure TranslateRequest where
  bufId : Nat
  vpe : Nat
  virt : Nat
  access : Nat
  deriving DecidableEq, Repr

/-- The packet of a memory response as far as `recvMemResponse` reads it. -/
structure MemResponse where
  size : Nat
  data : List Nat
  deriving DecidableEq, Repr

/-- The transfer unit with what it reads from the TCU (`tlb`, `nocToPhys`, the current VPE,
`reqCount`), the outcome of the hook `transferDone` of each transfer, and the log of its calls
into the TCU.  `scheduledEvents` holds the scheduled transfers that own no buffer yet. -/
structure XferUnit where
  tlb : Option (Nat → Nat → Nat → TcuTlb.Result × Nat)
  nocToPhys : Nat → Nat
  transferDone : TransferEvent → Bool
  curVpe : Nat
  blockSize : Nat
  bufSize : Nat
  reqCount : Nat
  bufs : List Buffer
  queue : List TransferEvent
  delays : Nat
  pagefaults : Nat
  aborts : Nat
  scheduledEvents : List TransferEvent
  transferStarts : List Nat
  descheduled : List Nat
  translations : List TranslateRequest
  abortedTranslations : List Nat
  memRequests : List MemRequest
  doneCalls : List (Nat × TcuError)
  finished : List Nat

namespace XferUnit

/-- The live transfer `bufs[i]->event`, if the pool has a buffer `i` and it holds one. -/
def eventAt (x : XferUnit) (i : Nat) : Option TransferEvent :=
  match x.bufs[i]? with
  | some b => b.event
  | none => none

/-- The assignment `bufs[i]->event = ev`. -/
def setEvent (x : XferUnit) (i : Nat) (ev : Option TransferEvent) : XferUnit :=
  match x.bufs[i]? with
  | some b => { x with bufs := x.bufs.set i { b with event := ev } }
  | none => x

/-- The test `bufs[i]->event && (bufs[i]->event->flags() & MSGRECV)`. -/
def isLiveRecv (b : Buffer) : Bool :=
  match b.event with
  | some ev => ev.flags &&& XferFlags.MSGRECV != 0
  | none => false

/-- The function `XferUnit::getBuffer`: the first buffer whose live transfer has the id. -/
def getBuffer (x : XferUnit) (evId : Nat) : Option Nat :=
  scanLoop (fun i => match x.eventAt i with
    | some ev => ev.id == evId
    | none => false) 0 x.bufs.length

/-- The start index `!tcu.tlb() || (flags & NOPF) ? 0 : 1` of the scan of `allocateBuf`. -/
def allocStart (x : XferUnit) (flags : Nat) : Nat :=
  if x.tlb.isNone ∨ flags &&& XferFlags.NOPF ≠ 0 then 0 else 1

/-- The function `XferUnit::allocateBuf`; the result is the index of the buffer. -/
def allocateBuf (event : TransferEvent) (flags : Nat) (x : XferUnit) : Option Nat × XferUnit :=
  if flags &&& XferFlags.MSGRECV ≠ 0 ∧ x.bufs.any isLiveRecv then (none, x)
  else
    match scanLoop (fun i => (x.eventAt i).isNone) (x.allocStart flags) x.bufs.length with
    | some i =>
      let buf := x.bufs.getD i ⟨none, 0, []⟩
      (some i, { x with bufs := x.bufs.set i { buf with event := some event, offset := 0 } })
    | none => (none, x)

/-- The function `TransferEvent::start` of the transfer in buffer `b`: it is scheduled. -/
def start (b : Nat) (x : XferUnit) : XferUnit :=
  match x.eventAt b with
  | some ev => x.setEvent b (some { ev with scheduled := true })
  | none => x

/-- The function `TransferEvent::tryStart` of a transfer that owns no buffer. -/
def tryStart (ev : TransferEvent) (x : XferUnit) : XferUnit :=
  let ev := { ev with vpe := x.curVpe }
  match allocateBuf ev ev.flags x with
  | (none, x) => { x with delays := x.delays + 1, queue := x.queue ++ [ev] }
  | (some b, x) => start b { x with transferStarts := x.transferStarts ++ [ev.id] }

/-- The subtraction of two 64-bit addresses, which wraps. -/
def subWrap64 (a b : Nat) : Nat := (a + 2 ^ 64 - b % 2 ^ 64) % 2 ^ 64

/-- The operation `a & ~PAGE_MASK` on an address. -/
def pageBase (a : Nat) : Nat := a - (a &&& TcuTlb.PAGE_MASK)

/-- The size `std::min(remaining, blockSize - localOff)` of the next request of the transfer
`ev`, with `localOff = local & (blockSize - 1)`. -/
def reqSize (x : XferUnit) (ev : TransferEvent) : Nat :=
  min ev.remaining (x.blockSize - (ev.localAddr &&& (x.blockSize - 1)))

/-- One round of the loop of `translateDone` for the transfer `ev` in buffer `b`, whose
buffer is `buf`: the request is sent (for a write with the bytes of the buffer at its offset)
with the 64-bit tag `id | (offset << 32)`, and the transfer and the buffer move on by the size
of the request and give one slot. -/
def issueOne (b : Nat) (ev : TransferEvent) (buf : Buffer) (physAddr : Nat) (x : XferUnit) :
    XferUnit :=
  let reqSize := x.reqSize ev
  let req : MemRequest :=
    { physAddr := physAddr
      size := reqSize
      isWrite := ev.isWrite
      data := if ev.isWrite then (buf.bytes.drop buf.offset).take reqSize else []
      virt := ev.localAddr
      tag := (ev.id ||| (buf.offset <<< 32)) % 2 ^ 64 }
  let ev := { ev with
    localAddr := ev.localAddr + reqSize
    remaining := ev.remaining - reqSize
    freeSlots := ev.freeSlots - 1 }
  { x with
    memRequests := x.memRequests ++ [req]
    bufs := x.bufs.set b { buf with event := some ev, offset := buf.offset + reqSize } }

/-- The loop `while (freeSlots > 0 && pageRemaining > 0)` of `TransferEvent::translateDone` for
the transfer in buffer `b`.  The first argument bounds the number of rounds; the loop takes
one slot per round, so `freeSlots` rounds are all it can make.  The configuration has
`blockSize ≥ 1`, and `reqSize ≤ remaining`, so that only `pageRemaining -= reqSize` can wrap. -/
def issueRequests : Nat → Nat → Nat → Nat → XferUnit → Option XferUnit
  | 0, _, _, _, x => some x
  | n + 1, b, pageRemaining, physAddr, x =>
    match x.eventAt b, x.bufs[b]? with
    | some ev, some buf =>
      if ev.freeSlots > 0 ∧ pageRemaining > 0 then
        if ev.isWrite ∧ ¬ (buf.offset + x.reqSize ev ≤ x.bufSize) then none
        else
          issueRequests n b (subWrap64 pageRemaining (x.reqSize ev)) (physAddr + x.reqSize ev)
            (x.issueOne b ev buf physAddr)
      else some x
    | _, _ => none

/-- The TLB that `process` consults: `xfer->tcu.tlb() && !(flags() & NOXLATE)`. -/
def usedTlb (x : XferUnit) (ev : TransferEvent) :
    Option (Nat → Nat → Nat → TcuTlb.Result × Nat) :=
  if x.tlb.isSome ∧ ev.flags &&& XferFlags.NOXLATE = 0 then x.tlb else none

/-- The access `isWrite() && !(flags() & MSGRECV) ? TcuTlb::WRITE : TcuTlb::READ`. -/
def tlbAccess (ev : TransferEvent) : Nat :=
  if ev.isWrite ∧ ev.flags &&& XferFlags.MSGRECV = 0 then TcuTlb.WRITE else TcuTlb.READ

/-- The statement `if (res == TcuTlb::PAGEFAULT) xfer->pagefaults++`. -/
def countPagefault (res : TcuTlb.Result) (x : XferUnit) : XferUnit :=
  if res = TcuTlb.Result.PAGEFAULT then { x with pagefaults := x.pagefaults + 1 } else x

/-- The statements `trans = new Translation(*this); tcu.startTranslate(buf->id, vpe, local,
access, trans)` for the transfer `ev` in buffer `b`. -/
def startTranslate (b : Nat) (ev : TransferEvent) (access : Nat) (x : XferUnit) : XferUnit :=
  let x := x.setEvent b (some { ev with trans := true })
  { x with translations := x.translations ++
    [{ bufId := b, vpe := ev.vpe, virt := ev.localAddr, access := access }] }

/-- The statement `if (trans) trans->abort()` of `abort`, which calls `tcu.abortTranslate`
with the id of the buffer. -/
def abortTranslation (b : Nat) (ev : TransferEvent) (x : XferUnit) : XferUnit :=
  if ev.trans then { x with abortedTranslations := x.abortedTranslations ++ [b] } else x

/-- The statement `if (scheduled()) xfer->tcu.deschedule(this)` of `abort`. -/
def deschedule (ev : TransferEvent) (x : XferUnit) : XferUnit :=
  if ev.scheduled then { x with descheduled := x.descheduled ++ [ev.id] } else x

/-- The statements of `abort` before its call of `recvMemResponse`, for the transfer `ev` in
buffer `b`: the result is set, an attached translation is aborted and dropped, the abort is
counted, the event is descheduled and `remaining` is set to 0. -/
def markAborted (b : Nat) (ev : TransferEvent) (error : TcuError) (x : XferUnit) : XferUnit :=
  let x := abortTranslation b ev x
  let x := { x with aborts := x.aborts + 1 }
  let x := deschedule ev x
  x.setEvent b (some { ev with
    result := error, trans := false, scheduled := false, remaining := 0 })

/-- The statements of `continueTransfer` after `transferDone` has returned true, for the
transfer `ev` in buffer `b`: `finish()` is called, the buffer is released, and the head of the
wait queue, if there is one, is taken off the queue and scheduled. -/
def complete (b : Nat) (ev : TransferEvent) (x : XferUnit) : XferUnit :=
  let x := { x with finished := x.finished ++ [ev.id] }
  let x := x.setEvent b none
  match x.queue with
  | [] => x
  | e :: rest => { x with queue := rest, scheduledEvents := x.scheduledEvents ++ [e] }

mutual

/-- The function `TransferEvent::process` of the transfer that owns buffer `b` (a transfer
without a buffer runs `tryStart`).  The address of `NocAddr phys(local)` is `local`. -/
def process (fuel b : Nat) (x : XferUnit) : Option XferUnit :=
  match fuel with
  | 0 => none
  | fuel + 1 =>
    match x.eventAt b with
    | none => none
    | some ev =>
      if ev.remaining = 0 then continueTransfer fuel b x
      else
        match x.usedTlb ev with
        | some lookup =>
          let access := tlbAccess ev
          let res := lookup ev.localAddr ev.vpe access
          if res.1 ≠ TcuTlb.Result.HIT then
            let x := countPagefault res.1 x
            if res.1 = TcuTlb.Result.PAGEFAULT ∧ ev.flags &&& XferFlags.NOPF ≠ 0 then
              abort fuel b TcuError.PAGEFAULT x
            else some (startTranslate b ev access x)
          else translateDone fuel b true res.2 x
        | none => translateDone fuel b true ev.localAddr x
termination_by structural fuel

/-- The function `TransferEvent::translateDone` of the transfer that owns buffer `b`. -/
def translateDone (fuel b : Nat) (success : Bool) (phys : Nat) (x : XferUnit) :
    Option XferUnit :=
  match fuel with
  | 0 => none
  | fuel + 1 =>
    match x.eventAt b with
    | none => none
    | some ev =>
      if ev.result ≠ TcuError.NONE then some x
      else
        let ev := { ev with trans := false }
        let x := x.setEvent b (some ev)
        if !success then abort fuel b TcuError.PAGEFAULT x
        else if ev.remaining = 0 then some x
        else
          let nextPage := pageBase (ev.localAddr + TcuTlb.PAGE_SIZE)
          let pageRemaining := min ev.remaining (nextPage - ev.localAddr)
          let physAddr := x.nocToPhys (pageBase phys) + (ev.localAddr &&& TcuTlb.PAGE_MASK)
          issueRequests ev.freeSlots b pageRemaining physAddr x
termination_by structural fuel

/-- The function `TransferEvent::abort` of the transfer that owns buffer `b`. -/
def abort (fuel b : Nat) (error : TcuError) (x : XferUnit) : Option XferUnit :=
  match fuel with
  | 0 => none
  | fuel + 1 =>
    match x.eventAt b with
    | none => none
    | some ev =>
      recvMemResponse fuel ev.id none (markAborted b ev error x)
termination_by structural fuel

/-- The function `XferUnit::recvMemResponse`; a transfer `isRead()` when it is no write. -/
def recvMemResponse (fuel evId : Nat) (pkt : Option MemResponse) (x : XferUnit) :
    Option XferUnit :=
  match fuel with
  | 0 => none
  | fuel + 1 =>
    match x.getBuffer (evId &&& 0xFFFFFFFF) with
    | none => some x
    | some b =>
      match x.eventAt b, x.bufs[b]? with
      | some ev, some buf =>
        match pkt with
        | some p =>
          if !ev.isWrite ∧ ¬ ((evId >>> 32) + p.size ≤ x.bufSize) then none
          else
            let bytes := if !ev.isWrite then
                buf.bytes.take (evId >>> 32) ++ p.data ++ buf.bytes.drop ((evId >>> 32) + p.size)
              else buf.bytes
            let ev := { ev with freeSlots := ev.freeSlots + 1 }
            continueTransfer fuel b
              { x with bufs := x.bufs.set b { buf with event := some ev, bytes := bytes } }
        | none => continueTransfer fuel b x
      | _, _ => some x
termination_by structural fuel

/-- The function `XferUnit::continueTransfer`. -/
def continueTransfer (fuel b : Nat) (x : XferUnit) : Option XferUnit :=
  match fuel with
  | 0 => none
  | fuel + 1 =>
    match x.eventAt b with
    | none => none
    | some ev =>
      if ev.result ≠ TcuError.NONE ∨ (ev.remaining = 0 ∧ ev.freeSlots = x.reqCount) then
        let x := { x with doneCalls := x.doneCalls ++ [(ev.id, ev.result)] }
        if !x.transferDone ev then some x
        else some (complete b ev x)
      else if ev.remaining > 0 then process fuel b x
      else some x
termination_by structural fuel

end

/-- The number of buffers that hold a live transfer with the flag `MSGRECV`. -/
def liveRecvCount (x : XferUnit) : Nat := x.bufs.countP isLiveRecv

/-- Buffer `b1` holds no transfer, or the transfer of `b` with its id and flags. -/
def keepsTransfer (b b1 : Buffer) : Prop :=
  b1.event = none ∨
    ∃ ev ev1, b.event = some ev ∧ b1.event = some ev1 ∧ ev1.flags = ev.flags ∧ ev1.id = ev.id

/-- The pool `l1` has the buffers of `l`, and no buffer has got a transfer or has changed the
id or the flags of its transfer. -/
def PoolKeeps (l l1 : List Buffer) : Prop := List.Forall₂ keepsTransfer l l1

/-- The states of the transfer unit that are reached from `x0` by the functions that start,
drive and complete transfers: `allocateBuf` as `tryStart` calls it (with the flags of the
transfer), `tryStart` itself, and `process`, `translateDone`, `abort`, `recvMemResponse` and
`continueTransfer`, which complete a transfer when it is done. -/
inductive PoolReach (x0 : XferUnit) : XferUnit → Prop
  | init : PoolReach x0 x0
  | allocated (x : XferUnit) (ev : TransferEvent) :
      PoolReach x0 x → PoolReach x0 (allocateBuf ev ev.flags x).2
  | started (x : XferUnit) (ev : TransferEvent) :
      PoolReach x0 x → PoolReach x0 (tryStart ev x)
  | processed (x : XferUnit) (fuel b : Nat) (x1 : XferUnit) :
      PoolReach x0 x → process fuel b x = some x1 → PoolReach x0 x1
  | translated (x : XferUnit) (fuel b : Nat) (success : Bool) (phys : Nat) (x1 : XferUnit) :
      PoolReach x0 x → translateDone fuel b success phys x = some x1 → PoolReach x0 x1
  | aborted (x : XferUnit) (fuel b : Nat) (error : TcuError) (x1 : XferUnit) :
      PoolReach x0 x → abort fuel b error x = some x1 → PoolReach x0 x1
  | responded (x : XferUnit) (fuel evId : Nat) (pkt : Option MemResponse) (x1 : XferUnit) :
      PoolReach x0 x → recvMemResponse fuel evId pkt x = some x1 → PoolReach x0 x1
  | continued (x : XferUnit) (fuel b : Nat) (x1 : XferUnit) :
      PoolReach x0 x → continueTransfer fuel b x = some x1 → PoolReach x0 x1

/-- The test `buf->event && buf->event->id == i` on a buffer. -/
def hasId (i : Nat) (b : Buffer) : Bool :=
  match b.event with
  | some ev => ev.id == i
  | none => false

/-- The number of buffers whose live transfer has the id `i`. -/
def liveCount (x : XferUnit) (i : Nat) : Nat := x.bufs.countP (hasId i)

/-- The number of calls of `transferDone` for the transfer with the id `i` so far. -/
def doneCount (x : XferUnit) (i : Nat) : Nat := (x.doneCalls.map Prod.fst).count i

/-- The states of the transfer unit that are reached from `x0` by a sequence of memory
responses, aborts and calls of `continueTransfer`, `process` and `translateDone`. -/
inductive Driven (x0 : XferUnit) : XferUnit → Prop
  | init : Driven x0 x0
  | responded (x : XferUnit) (fuel evId : Nat) (pkt : Option MemResponse) (x1 : XferUnit) :
      Driven x0 x → recvMemResponse fuel evId pkt x = some x1 → Driven x0 x1
  | aborted (x : XferUnit) (fuel b : Nat) (error : TcuError) (x1 : XferUnit) :
      Driven x0 x → abort fuel b error x = some x1 → Driven x0 x1
  | continued (x : XferUnit) (fuel b : Nat) (x1 : XferUnit) :
      Driven x0 x → continueTransfer fuel b x = some x1 → Driven x0 x1
  | processed (x : XferUnit) (fuel b : Nat) (x1 : XferUnit) :
      Driven x0 x → process fuel b x = some x1 → Driven x0 x1
  | translated (x : XferUnit) (fuel b : Nat) (success : Bool) (phys : Nat) (x1 : XferUnit) :
      Driven x0 x → translateDone fuel b success phys x = some x1 → Driven x0 x1

/-- From `x` to `x1` the hook `transferDone` is the same, no transfer with any id is finished
without giving up a buffer that held it, and, if the hook returns true on every transfer, no
call of it is made without that either. -/
def Conserves (x x1 : XferUnit) : Prop :=
  x1.transferDone = x.transferDone ∧
    (∀ i, x1.finished.count i + x1.liveCount i = x.finished.count i + x.liveCount i) ∧
    ((∀ ev, x.transferDone ev = true) →
      ∀ i, x1.doneCount i + x1.liveCount i = x.doneCount i + x.liveCount i)

end XferUnit

/-! ## The slave ports (`base.cc`) -/

/-- The three classes of slave ports: `NocSlavePort`, `CacheSlavePort` (its `icache` flag
tells the instruction cache port from the data cache port) and `LLCSlavePort`. -/
inductive PortKind
  | noc
  | cache (icache : Bool)
  | llc
  deriving DecidableEq, Repr

/-- The class `BaseTcu::TcuSlavePort`: the fields `busy` and `sendReqRetry`, the number of
calls of `sendRetryReq`, the requests handed to the TCU (packet and `functional`), the answer
of the TCU to a cache or LLC request, and the packets that got a dummy response. -/
structure TcuSlavePort where
  kind : PortKind
  busy : Bool
  sendReqRetry : Bool
  retries : Nat
  handled : List (Nat × Bool)
  tcuAccepts : Nat → Bool → Bool
  dummyResponses : List Nat

namespace TcuSlavePort

/-- The virtual function `handleRequest(pkt, bool *busy, functional)` of the three port
classes; the flag behind the pointer is passed in and returned.  Only the NoC port sets it. -/
def handleRequest (p : TcuSlavePort) (pkt : Nat) (busy : Bool) (functional : Bool) :
    Bool × Bool × TcuSlavePort :=
  let p1 := { p with handled := p.handled ++ [(pkt, functional)] }
  match p.kind with
  | PortKind.noc => (true, true, p1)
  | PortKind.cache _ =>
    if !p.tcuAccepts pkt functional then
      (true, busy, { p1 with dummyResponses := p1.dummyResponses ++ [pkt] })
    else (true, busy, p1)
  | PortKind.llc =>
    if !p.tcuAccepts pkt functional then
      (true, busy, { p1 with dummyResponses := p1.dummyResponses ++ [pkt] })
    else (true, busy, p1)

/-- The function `TcuSlavePort::requestFinished`. -/
def requestFinished (p : TcuSlavePort) : Option TcuSlavePort :=
  if !p.busy then none
  else
    let p := { p with busy := false }
    if p.sendReqRetry then some { p with sendReqRetry := false, retries := p.retries + 1 }
    else some p

/-- The function `TcuSlavePort::recvFunctional`: the flag that `handleRequest` may set is a
local dummy. -/
def recvFunctional (pkt : Nat) (p : TcuSlavePort) : TcuSlavePort :=
  (p.handleRequest pkt false true).2.2

/-- The function `TcuSlavePort::recvTimingReq`. -/
def recvTimingReq (pkt : Nat) (p : TcuSlavePort) : Option (Bool × TcuSlavePort) :=
  if p.busy then some (false, { p with sendReqRetry := true })
  else if p.sendReqRetry then none
  else
    let r := p.handleRequest pkt p.busy false
    some (r.1, { r.2.2 with busy := r.2.1 })

/-- A request that arrives at a port: a timing request or a functional one. -/
inductive Arrival
  | timing (pkt : Nat)
  | functional (pkt : Nat)
  deriving DecidableEq, Repr

/-- The port takes the arrivals in turn; the results of the timing requests are collected. -/
def arrive : List Arrival → TcuSlavePort → Option (List Bool × TcuSlavePort)
  | [], p => some ([], p)
  | Arrival.timing pkt :: rest, p =>
    match recvTimingReq pkt p with
    | none => none
    | some (r, p1) =>
      match arrive rest p1 with
      | none => none
      | some (rs, p2) => some (r :: rs, p2)
  | Arrival.functional pkt :: rest, p => arrive rest (recvFunctional pkt p)

/-- The number of timing requests among the arrivals. -/
def timingCount (l : List Arrival) : Nat :=
  l.countP (fun a => match a with
    | Arrival.timing _ => true
    | Arrival.functional _ => false)

/-- The states of a slave port that are reached from `p0` through `recvTimingReq`,
`recvFunctional` and `requestFinished`; a call whose assertion fails reaches no state. -/
inductive PortReach (p0 : TcuSlavePort) : TcuSlavePort → Prop
  | init : PortReach p0 p0
  | timing (p : TcuSlavePort) (pkt : Nat) (r : Bool) (p1 : TcuSlavePort) :
      PortReach p0 p → recvTimingReq pkt p = some (r, p1) → PortReach p0 p1
  | functional (p : TcuSlavePort) (pkt : Nat) :
      PortReach p0 p → PortReach p0 (recvFunctional pkt p)
  | finished (p p1 : TcuSlavePort) :
      PortReach p0 p → requestFinished p = some p1 → PortReach p0 p1

end TcuSlavePort

/-! ## The core requests (`core_reqs.cc`) -/

/-- Modelled from the spec: the value of the register `CORE_REQ` (section 4.I): idle, the
response of the core, or the descriptor of a foreign receive. -/
inductive CoreMsg
  | IDLE
  | RESP (val : Nat)
  | FOREIGN_REQ (ep act : Nat)
  deriving DecidableEq, Repr

/-- The class `CoreRequests::ForeignRecvRequest` with the fields of its base `Request`. -/
structure Request where
  id : Nat
  epId : Nat
  actId : Nat
  waiting : Bool
  deriving DecidableEq, Repr

/-- The class `CoreRequests` with the register `CORE_REQ`, the log of the writes to it and
the number of `CORE_REQ` interrupts raised. -/
structure CoreRequests where
  reqs : List Request
  coreReq : CoreMsg
  regWrites : List CoreMsg
  irqs : Nat
  deriving DecidableEq, Repr

namespace CoreRequests

/-- The call `tcu.regs().set(PrivReg::CORE_REQ, v)`. -/
def setCoreReq (v : CoreMsg) (x : CoreRequests) : CoreRequests :=
  { x with coreReq := v, regWrites := x.regWrites ++ [v] }

/-- The function `CoreRequests::startNextReq`, with `ForeignRecvRequest::start` and
`Request::start` of the head of the queue inlined. -/
def startNextReq (x : CoreRequests) : CoreRequests :=
  match x.reqs with
  | [] => x
  | req :: rest =>
    let x := x.setCoreReq (CoreMsg.FOREIGN_REQ req.epId req.actId)
    { x with reqs := { req with waiting := false } :: rest, irqs := x.irqs + 1 }

/-- The function `CoreRequests::abortReq`: the loop stops at the first request with the id,
clears `CORE_REQ` when that request is not waiting, and erases it. -/
def abortReq (id : Nat) (x : CoreRequests) : CoreRequests :=
  let x := match x.reqs.find? (fun r => r.id == id) with
    | some r =>
      let x := if !r.waiting then x.setCoreReq CoreMsg.IDLE else x
      { x with reqs := x.reqs.eraseP (fun r => r.id == id) }
    | none => x
  startNextReq x

/-- What identifies a request: its id, endpoint and activity. -/
def ident (r : Request) : Nat × Nat × Nat := (r.id, r.epId, r.actId)

/-- The state that the functions of `CoreRequests` keep: the head of the queue has been
started and no other request has, and the ids are distinct (`nextId`). -/
def Started (x : CoreRequests) : Prop :=
  (x.reqs.map Request.id).Nodup ∧
    match x.reqs with
    | [] => True
    | req :: rest => req.waiting = false ∧ ∀ r ∈ rest, r.waiting = true

/-- The function `CoreRequests::getById`. -/
def getById (x : CoreRequests) (id : Nat) : Option Request :=
  x.reqs.find? (fun r => r.id == id)

/-- The loop `for (size_t id = 0; ; ++id) if (getById(id) == nullptr) return id;` of
`CoreRequests::nextId`, entered with the counter at `id` and cut off after the given number of
rounds. -/
def nextIdFrom (x : CoreRequests) : Nat → Nat → Option Nat
  | 0, _ => none
  | fuel + 1, id => if (x.getById id).isNone then some id else nextIdFrom x fuel (id + 1)

/-- The function `CoreRequests::nextId`, with a bound on the rounds of its loop. -/
def nextId (fuel : Nat) (x : CoreRequests) : Option Nat := nextIdFrom x fuel 0

/-- The function `CoreRequests::startForeignReceive`; the result is the id of the new
request.  Modelled from the spec: a new request is waiting until it is started (the
constructor is in `core_reqs.hh`).  When the queue has one request, the new request is its
head, so that `req->start()` is `startNextReq`.  The statistics are left out. -/
def startForeignReceive (fuel epId actId : Nat) (x : CoreRequests) :
    Option (Nat × CoreRequests) :=
  match nextId fuel x with
  | none => none
  | some id =>
    let x := { x with reqs := x.reqs ++ [⟨id, epId, actId, true⟩] }
    if x.reqs.length = 1 then some (id, startNextReq x) else some (id, x)

/-- The function `CoreRequests::completeReqs`.  The hook `complete` of the request, which is
declared in `core_reqs.hh` and acts on the unit that waits for the request, is left out. -/
def completeReqs (x : CoreRequests) : Option CoreRequests :=
  match x.coreReq with
  | CoreMsg.RESP _ =>
    match x.reqs with
    | [] => none
    | _ :: rest => some (startNextReq (setCoreReq CoreMsg.IDLE { x with reqs := rest }))
  | _ => none

/-- The states of the core requests that are reached from an empty queue by
`startForeignReceive`, `completeReqs`, `abortReq` and the response that the core writes to
`CORE_REQ`. -/
inductive QueueReach : CoreRequests → Prop
  | init (x : CoreRequests) : x.reqs = [] → QueueReach x
  | received (fuel epId actId : Nat) (x : CoreRequests) (id : Nat) (x1 : CoreRequests) :
      QueueReach x → startForeignReceive fuel epId actId x = some (id, x1) → QueueReach x1
  | completed (x x1 : CoreRequests) : QueueReach x → completeReqs x = some x1 → QueueReach x1
  | aborted (id : Nat) (x : CoreRequests) : QueueReach x → QueueReach (abortReq id x)
  | responded (x : CoreRequests) (v : Nat) :
      QueueReach x → QueueReach { x with coreReq := CoreMsg.RESP v }

end CoreRequests

/-! ## Concrete configurations of the TCU

The pool of the end-to-end scenarios of the spec: four buffers of 64 bytes; blocks of 64
bytes and four request slots per transfer. -/

namespace Scenario

/-- A TLB that misses on every address. -/
def missTlb : Nat → Nat → Nat → TcuTlb.Result × Nat := fun _ _ _ => (TcuTlb.Result.MISS, 0)

/-- A TLB that maps every address to itself. -/
def hitTlb : Nat → Nat → Nat → TcuTlb.Result × Nat := fun v _ _ => (TcuTlb.Result.HIT, v)

/-- A free buffer of the pool. -/
def freeBuf : Buffer := ⟨none, 0, List.replicate 64 0⟩

/-- A started read transfer of `remaining` bytes at the local address `addr`. -/
def transfer (id flags addr remaining : Nat) : TransferEvent :=
  { id := id, localAddr := addr, remaining := remaining, flags := flags, isWrite := false,
    isRemote := false, result := TcuError.NONE, trans := false, freeSlots := 4, vpe := 0,
    scheduled := false }

/-- A buffer that holds the transfer `ev`. -/
def liveBuf (ev : TransferEvent) : Buffer := ⟨some ev, 0, List.replicate 64 0⟩

/-- A transfer unit with the given TLB, block size, pool and wait queue, whose transfers all
finish when asked, and that has recorded no activity. -/
def xfer (tlb : Option (Nat → Nat → Nat → TcuTlb.Result × Nat)) (blockSize : Nat)
    (bufs : List Buffer) (queue : List TransferEvent) : XferUnit :=
  { tlb := tlb, nocToPhys := fun a => a, transferDone := fun _ => true, curVpe := 0,
    blockSize := blockSize, bufSize := 64, reqCount := 4, bufs := bufs, queue := queue,
    delays := 0, pagefaults := 0, aborts := 0, scheduledEvents := [], transferStarts := [],
    descheduled := [], translations := [], abortedTranslations := [], memRequests := [],
    doneCalls := [], finished := [] }

/-- A transfer unit like `xfer` without a TLB, whose transfers cannot be finished when
asked: the hook `transferDone` returns false. -/
def retryXfer (bufs : List Buffer) : XferUnit :=
  let x := xfer none 64 bufs []
  { x with transferDone := fun _ => false }

end Scenario

end Tcu

namespace Dtu

/-! # Theorems -/

namespace MessageUnit

/-! ## The scanning loops -/

theorem find_range_none (p : Nat → Bool) (n lo : Nat) :
    (List.range' lo n).find? p = none ↔ ∀ j, lo ≤ j → j < lo + n → p j = false := by
  induction n generalizing lo with
  | zero =>
    simp only [List.range'_zero, List.find?_nil, true_iff]
    intro j h1 h2
    omega
  | succ n ih =>
    rw [List.range'_succ, List.find?_cons]
    cases hp : p lo with
    | true =>
      simp only [false_iff, reduceCtorEq]
      intro h
      have := h lo (Nat.le_refl _) (by omega)
      rw [hp] at this
      exact Bool.noConfusion this
    | false =>
      simp only [ih]
      constructor
      · intro h j h1 h2
        rcases Nat.eq_or_lt_of_le h1 with heq | hlt
        · rw [← heq]; exact hp
        · exact h j hlt (by omega)
      · intro h j h1 h2
        exact h j (by omega) (by omega)

theorem find_range_some (p : Nat → Bool) (n lo i : Nat)
    (h : (List.range' lo n).find? p = some i) :
    lo ≤ i ∧ i < lo + n ∧ p i = true ∧ ∀ j, lo ≤ j → j < i → p j = false := by
  induction n generalizing lo with
  | zero => simp at h
  | succ n ih =>
    rw [List.range'_succ, List.find?_cons] at h
    cases hp : p lo with
    | true =>
      rw [hp] at h
      have hi : lo = i := Option.some.inj h
      subst hi
      refine ⟨Nat.le_refl _, by omega, hp, ?_⟩
      intro j h1 h2
      omega
    | false =>
      rw [hp] at h
      obtain ⟨h1, h2, h3, h4⟩ := ih (lo + 1) h
      refine ⟨by omega, by omega, h3, ?_⟩
      intro j hj1 hj2
      rcases Nat.eq_or_lt_of_le hj1 with heq | hlt
      · rw [← heq]; exact hp
      · exact h4 j hlt hj2

theorem scanLoop_none (p : Nat → Bool) (lo hi : Nat) :
    scanLoop p lo hi = none ↔ ∀ j, lo ≤ j → j < hi → p j = false := by
  unfold scanLoop
  rw [find_range_none]
  constructor
  · intro h j h1 h2
    exact h j h1 (by omega)
  · intro h j h1 h2
    exact h j h1 (by omega)

theorem scanLoop_some (p : Nat → Bool) (lo hi i : Nat) (h : scanLoop p lo hi = some i) :
    lo ≤ i ∧ i < hi ∧ p i = true ∧ ∀ j, lo ≤ j → j < i → p j = false := by
  unfold scanLoop at h
  obtain ⟨h1, h2, h3, h4⟩ := find_range_some p _ _ _ h
  exact ⟨h1, by omega, h3, h4⟩

theorem scanRing_none (p : Nat → Bool) (start cap : Nat) :
    scanRing p start cap = none ↔
      (∀ j, start ≤ j → j < cap → p j = false) ∧ ∀ j, j < start → p j = false := by
  unfold scanRing
  cases h1 : scanLoop p start cap with
  | some i =>
    simp only [reduceCtorEq, false_iff]
    intro hcon
    obtain ⟨a, b, c, _⟩ := scanLoop_some p _ _ _ h1
    rw [hcon.1 i a b] at c
    exact Bool.noConfusion c
  | none =>
    simp only
    rw [scanLoop_none] at h1
    rw [scanLoop_none]
    constructor
    · intro h
      exact ⟨h1, fun j hj => h j (Nat.zero_le _) hj⟩
    · intro h j _ hj
      exact h.2 j hj

theorem scanRing_some (p : Nat → Bool) (start cap i : Nat) (h : scanRing p start cap = some i) :
    p i = true ∧
      ((start ≤ i ∧ i < cap ∧ ∀ j, start ≤ j → j < i → p j = false) ∨
       (i < start ∧ (∀ j, start ≤ j → j < cap → p j = false) ∧ ∀ j, j < i → p j = false)) := by
  unfold scanRing at h
  cases h1 : scanLoop p start cap with
  | some k =>
    rw [h1] at h
    have hk : k = i := Option.some.inj h
    subst hk
    obtain ⟨a, b, c, e⟩ := scanLoop_some p _ _ _ h1
    exact ⟨c, Or.inl ⟨a, b, e⟩⟩
  | none =>
    rw [h1] at h
    simp only at h
    rw [scanLoop_none] at h1
    obtain ⟨_, b, c, e⟩ := scanLoop_some p _ _ _ h
    exact ⟨c, Or.inr ⟨b, h1, fun j hj => e j (Nat.zero_le _) hj⟩⟩

theorem ringRank_of_ge (start cap i : Nat) (hs : start ≤ i) (hi : i < cap) :
    ringRank start cap i = i - start := by
  unfold ringRank
  have : i + cap - start = (i - start) + cap := by omega
  rw [this, Nat.add_mod_right]
  exact Nat.mod_eq_of_lt (by omega)

theorem ringRank_of_lt (start cap i : Nat) (hs : i < start) (hc : start ≤ cap) :
    ringRank start cap i = i + cap - start := by
  unfold ringRank
  exact Nat.mod_eq_of_lt (by omega)

/-- A successful ring scan returns the slot of least rank among the slots that satisfy `p`. -/
theorem scanRing_some_first (p : Nat → Bool) (start cap i : Nat) (hc : start ≤ cap)
    (h : scanRing p start cap = some i) :
    i < cap ∧ p i = true ∧
      ∀ j, j < cap → ringRank start cap j < ringRank start cap i → p j = false := by
  obtain ⟨hp, hcase⟩ := scanRing_some p start cap i h
  rcases hcase with ⟨h1, h2, h3⟩ | ⟨h1, h2, h3⟩
  · refine ⟨h2, hp, ?_⟩
    intro j hj hr
    rw [ringRank_of_ge start cap i h1 h2] at hr
    by_cases hjs : start ≤ j
    · rw [ringRank_of_ge start cap j hjs hj] at hr
      exact h3 j hjs (by omega)
    · rw [ringRank_of_lt start cap j (by omega) hc] at hr
      omega
  · refine ⟨by omega, hp, ?_⟩
    intro j hj hr
    rw [ringRank_of_lt start cap i h1 hc] at hr
    by_cases hjs : start ≤ j
    · exact h2 j hjs hj
    · rw [ringRank_of_lt start cap j (by omega) hc] at hr
      exact h3 j (by omega)

open State

theorem getRecvEp_setRecvEp (d : State) (epid : Nat) (ep : RecvEp) :
    (d.setRecvEp epid ep).getRecvEp epid = ep := by
  simp [State.getRecvEp, State.setRecvEp]

theorem getSendEp_setSendEp (d : State) (epid : Nat) (ep : SendEp) :
    (d.setSendEp epid ep).getSendEp epid = ep := by
  simp [State.getSendEp, State.setSendEp]

/-- C6: on a valid receive endpoint with `wrPos ≤ 1 << size` (and a message that fits a slot, so
that the assertion passes) `allocSlot` returns; it returns `-1` exactly when all `1 << size`
slots are occupied, and then changes nothing; otherwise it returns the unoccupied slot `i` that
comes first in the cyclic order `wrPos, ..., capacity-1, 0, ..., wrPos-1`, sets its occupied
bit and only that bit, and stores the endpoint. -/
theorem allocSlot_first_fit (msgSize epid : Nat) (ep : RecvEp) (d : State)
    (hvalid : ep.bufAddr ≠ 0) (hwr : ep.wrPos ≤ 1 <<< ep.size)
    (hfit : msgSize ≤ 1 <<< ep.msgSize) :
    ∃ r ep1 d1, allocSlot msgSize epid ep d = some (r, ep1, d1) ∧
      (r = -1 ↔ ∀ i, i < 1 <<< ep.size → ep.isOccupied i = true) ∧
      (r = -1 → ep1 = ep ∧ d1 = d) ∧
      (r ≠ -1 → ∃ i : Nat, r = (i : Int) ∧ i < 1 <<< ep.size ∧ ep.isOccupied i = false ∧
        (∀ j, j < 1 <<< ep.size →
          ringRank ep.wrPos (1 <<< ep.size) j < ringRank ep.wrPos (1 <<< ep.size) i →
          ep.isOccupied j = true) ∧
        ep1.isOccupied i = true ∧ ep1.occupied = insert i ep.occupied ∧
        d1.getRecvEp epid = ep1) := by
  unfold allocSlot
  rw [if_neg hvalid, if_neg (not_not.mpr hfit)]
  cases hs : scanRing (fun i => !ep.isOccupied i) ep.wrPos (1 <<< ep.size) with
  | none =>
    refine ⟨-1, ep, d, rfl, ?_, fun _ => ⟨rfl, rfl⟩, fun h => absurd rfl h⟩
    rw [scanRing_none] at hs
    simp only [true_iff]
    intro i hi
    by_cases hw : ep.wrPos ≤ i
    · simpa using hs.1 i hw hi
    · simpa using hs.2 i (by omega)
  | some i =>
    obtain ⟨hi, hp, hfirst⟩ := scanRing_some_first _ _ _ _ hwr hs
    have hocc : ep.isOccupied i = false := by simpa using hp
    refine ⟨(i : Int), _, _, rfl, ?_, ?_, ?_⟩
    · constructor
      · intro h
        omega
      · intro h
        rw [h i hi] at hocc
        exact Bool.noConfusion hocc
    · intro h
      omega
    · intro _
      refine ⟨i, rfl, hi, hocc, ?_, ?_, ?_, ?_⟩
      · intro j hj hr
        simpa using hfirst j hj hr
      · simp [RecvEp.isOccupied, RecvEp.setOccupied]
      · simp [RecvEp.setOccupied]
      · exact getRecvEp_setRecvEp _ _ _

/-- C6 at B.EP4 with write position 1, slot 1 occupied and slot 0 free: the scan wraps. -/
theorem allocSlot_first_fit_witness :
    ∃ r ep1 d1,
      allocSlot 33 4 (Scenario.recvEpB 1 {1} {1} 1) (Scenario.tileB 1 {1} {1} 1)
        = some (r, ep1, d1) ∧
      (r = -1 ↔ ∀ i, i < 1 <<< 1 → (Scenario.recvEpB 1 {1} {1} 1).isOccupied i = true) ∧
      (r = -1 → ep1 = Scenario.recvEpB 1 {1} {1} 1 ∧ d1 = Scenario.tileB 1 {1} {1} 1) ∧
      (r ≠ -1 → ∃ i : Nat, r = (i : Int) ∧ i < 1 <<< 1 ∧
        (Scenario.recvEpB 1 {1} {1} 1).isOccupied i = false ∧
        (∀ j, j < 1 <<< 1 → ringRank 1 (1 <<< 1) j < ringRank 1 (1 <<< 1) i →
          (Scenario.recvEpB 1 {1} {1} 1).isOccupied j = true) ∧
        ep1.isOccupied i = true ∧ ep1.occupied = insert i {1} ∧
        d1.getRecvEp 4 = ep1) :=
  allocSlot_first_fit 33 4 (Scenario.recvEpB 1 {1} {1} 1) (Scenario.tileB 1 {1} {1} 1)
    (by decide) (by decide) (by decide)

/-- C7: on a receive endpoint with `msgCount > 0`, `msgCount = popcount(unread)`, every unread
slot occupied and the unread bits inside the ring, `fetchMessage` passes both assertions and
returns `bufAddr + i * (1 << msgSize)`, where `i` is the first unread slot of the scan that
starts at `rdPos` and wraps; it clears `unread[i]`, decrements `msgCount` by one, sets `rdPos`
to `i + 1` and leaves the occupied bits (and every other field) as they were. -/
theorem fetchMessage_first_unread (epid : Nat) (d : State)
    (hcount : 0 < (d.getRecvEp epid).msgCount)
    (hinv : (d.getRecvEp epid).msgCount = (d.getRecvEp epid).unread.card)
    (hsub : (d.getRecvEp epid).unread ⊆ (d.getRecvEp epid).occupied)
    (hrange : ∀ i ∈ (d.getRecvEp epid).unread, i < 1 <<< (d.getRecvEp epid).size) :
    ∃ i : Nat, ∃ d1 : State,
      fetchMessage epid d
        = some ((d.getRecvEp epid).bufAddr + i * (1 <<< (d.getRecvEp epid).msgSize), d1) ∧
      i < 1 <<< (d.getRecvEp epid).size ∧ i ∈ (d.getRecvEp epid).unread ∧
      (((d.getRecvEp epid).rdPos ≤ i ∧
          ∀ j, (d.getRecvEp epid).rdPos ≤ j → j < i → j ∉ (d.getRecvEp epid).unread) ∨
        (i < (d.getRecvEp epid).rdPos ∧
          (∀ j, (d.getRecvEp epid).rdPos ≤ j → j ∉ (d.getRecvEp epid).unread) ∧
          ∀ j, j < i → j ∉ (d.getRecvEp epid).unread)) ∧
      ((d.getRecvEp epid).rdPos ≤ 1 <<< (d.getRecvEp epid).size →
        ∀ j, j < 1 <<< (d.getRecvEp epid).size →
          ringRank (d.getRecvEp epid).rdPos (1 <<< (d.getRecvEp epid).size) j
            < ringRank (d.getRecvEp epid).rdPos (1 <<< (d.getRecvEp epid).size) i →
          j ∉ (d.getRecvEp epid).unread) ∧
      (d1.getRecvEp epid).unread = (d.getRecvEp epid).unread.erase i ∧
      (d1.getRecvEp epid).msgCount + 1 = (d.getRecvEp epid).msgCount ∧
      (d1.getRecvEp epid).msgCount = (d1.getRecvEp epid).unread.card ∧
      (d1.getRecvEp epid).rdPos = i + 1 ∧
      (d1.getRecvEp epid).occupied = (d.getRecvEp epid).occupied ∧
      d1 = d.setRecvEp epid { d.getRecvEp epid with
        unread := (d.getRecvEp epid).unread.erase i
        msgCount := (d.getRecvEp epid).msgCount - 1
        rdPos := i + 1 } := by
  generalize hep : d.getRecvEp epid = ep at *
  unfold fetchMessage
  simp only [hep]
  rw [if_neg (by omega)]
  cases hs : scanRing (fun i => ep.isUnread i) ep.rdPos (1 <<< ep.size) with
  | none =>
    exfalso
    rw [scanRing_none] at hs
    have hempty : ep.unread = ∅ := by
      apply Finset.eq_empty_of_forall_not_mem
      intro i hi
      have hlt := hrange i hi
      by_cases hw : ep.rdPos ≤ i
      · have := hs.1 i hw hlt
        simp [RecvEp.isUnread, hi] at this
      · have := hs.2 i (by omega)
        simp [RecvEp.isUnread, hi] at this
    rw [hempty] at hinv
    simp at hinv
    omega
  | some i =>
    obtain ⟨hp, hcase⟩ := scanRing_some _ _ _ _ hs
    have hu : i ∈ ep.unread := by simpa [RecvEp.isUnread] using hp
    have ho : ep.isOccupied i = true := by simpa [RecvEp.isOccupied] using hsub hu
    have hnotbelow : ∀ j, (fun i => ep.isUnread i) j = false → j ∉ ep.unread := by
      intro j hj
      simpa [RecvEp.isUnread] using hj
    simp only [ho, Bool.not_true, Bool.false_eq_true, if_false]
    refine ⟨i, d.setRecvEp epid { ep with
        unread := ep.unread.erase i, msgCount := ep.msgCount - 1, rdPos := i + 1 },
      ?_, hrange i hu, hu, ?_, ?_, ?_, ?_, ?_, ?_, ?_, ?_⟩
    · simp [RecvEp.setUnread, Nat.shiftLeft_eq]
    · rcases hcase with ⟨h1, _, h3⟩ | ⟨h1, h2, h3⟩
      · exact Or.inl ⟨h1, fun j a b => hnotbelow j (h3 j a b)⟩
      · refine Or.inr ⟨h1, ?_, fun j a => hnotbelow j (h3 j a)⟩
        intro j hj hmem
        exact hnotbelow j (h2 j hj (hrange j hmem)) hmem
    · intro hrd j hj hr
      obtain ⟨_, _, hfirst⟩ := scanRing_some_first _ _ _ _ hrd hs
      exact hnotbelow j (hfirst j hj hr)
    · simp [getRecvEp_setRecvEp, RecvEp.setUnread]
    · simp only [getRecvEp_setRecvEp]
      omega
    · simp only [getRecvEp_setRecvEp, RecvEp.setUnread, Bool.false_eq_true, if_false]
      rw [Finset.card_erase_of_mem hu]
      omega
    · simp [getRecvEp_setRecvEp]
    · simp [getRecvEp_setRecvEp, RecvEp.setUnread]
    · simp [RecvEp.setUnread]

/-- C7 at B.EP4 with both slots occupied and only slot 1 unread: the fetch returns the address
`0x1040` of slot 1 and leaves no unread message. -/
theorem fetchMessage_first_unread_witness :
    ∃ d1 : State, fetchMessage 4 (Scenario.tileB 2 {0, 1} {1} 1) = some (0x1040, d1) ∧
      (d1.getRecvEp 4).msgCount = 0 ∧ (d1.getRecvEp 4).rdPos = 2 ∧
      (d1.getRecvEp 4).occupied = {0, 1} := by
  obtain ⟨i, d1, h1, _, h3, _, _, _, h7, _, h9, h10, _⟩ :=
    fetchMessage_first_unread 4 (Scenario.tileB 2 {0, 1} {1} 1)
      (by decide) (by decide) (by decide) (by decide)
  have hi : i = 1 := by
    have : i ∈ ({1} : Finset Nat) := h3
    simpa using this
  subst hi
  refine ⟨d1, h1, ?_, h9, h10⟩
  have : (d1.getRecvEp 4).msgCount + 1 = 1 := h7
  omega

theorem decMsgCount_pos (n : Nat) (h : 0 < n) : decMsgCount n = n - 1 := by
  unfold decMsgCount
  rw [if_neg (by omega)]

/-- The state `ackMessage` leaves behind for an address that maps to an occupied slot `i` of a
valid receive endpoint. -/
theorem ackMessage_result (epId msgAddr i : Nat) (d : State)
    (hvalid : (d.getRecvEp epId).bufAddr ≠ 0)
    (hidx : (d.getRecvEp epId).msgToIdx msgAddr = i) (hmax : i ≠ MAX_MSGS)
    (hocc : i ∈ (d.getRecvEp epId).occupied) :
    ackMessage epId msgAddr d = (Error.NONE,
      (if (d.getRecvEp epId).replyEps ≠ d.numEndpoints then
          d.invalidate ((d.getRecvEp epId).replyEps + i) else d).setRecvEp epId
        { d.getRecvEp epId with
          occupied := (d.getRecvEp epId).occupied.erase i
          unread := (d.getRecvEp epId).unread.erase i
          msgCount := if i ∈ (d.getRecvEp epId).unread then
              decMsgCount (d.getRecvEp epId).msgCount
            else (d.getRecvEp epId).msgCount }) := by
  generalize hep : d.getRecvEp epId = ep at *
  have hoccb : ep.isOccupied i = true := by simpa [RecvEp.isOccupied] using hocc
  unfold ackMessage
  simp only [hep, hidx]
  rw [if_neg hvalid, if_neg (by simp [hmax, hoccb])]
  by_cases hu : i ∈ ep.unread
  · simp [RecvEp.setOccupied, RecvEp.setUnread, RecvEp.isUnread, hu]
  · simp [RecvEp.setOccupied, RecvEp.isUnread, hu]

/-- C8: on a valid receive endpoint, for a message address that maps to an occupied slot `i`,
`ackMessage` returns `NONE`; it clears `occupied[i]` and `unread[i]` and no bit of another
slot, decrements `msgCount` exactly when `unread[i]` was set, changes no other field of the
endpoint, and writes the register file as follows: when the endpoint has reply endpoints, slot
`replyEps + i` is invalidated, then the receive endpoint is stored; no other register
changes.  The decrement is that of the unsigned count: it takes one off a count above 0, and
the count 0 wraps to `2 ^ MSG_COUNT_BITS - 1`. -/
theorem ackMessage_occupied (epId msgAddr i : Nat) (d : State)
    (hvalid : (d.getRecvEp epId).bufAddr ≠ 0)
    (hidx : (d.getRecvEp epId).msgToIdx msgAddr = i) (hmax : i ≠ MAX_MSGS)
    (hocc : i ∈ (d.getRecvEp epId).occupied) :
    ∃ d1 : State, ackMessage epId msgAddr d = (Error.NONE, d1) ∧
      (d1.getRecvEp epId).occupied = (d.getRecvEp epId).occupied.erase i ∧
      (d1.getRecvEp epId).unread = (d.getRecvEp epId).unread.erase i ∧
      (∀ j, j ≠ i → ((d1.getRecvEp epId).isOccupied j = (d.getRecvEp epId).isOccupied j ∧
        (d1.getRecvEp epId).isUnread j = (d.getRecvEp epId).isUnread j)) ∧
      (i ∈ (d.getRecvEp epId).unread → 0 < (d.getRecvEp epId).msgCount →
        (d1.getRecvEp epId).msgCount + 1 = (d.getRecvEp epId).msgCount) ∧
      (i ∈ (d.getRecvEp epId).unread → (d.getRecvEp epId).msgCount = 0 →
        (d1.getRecvEp epId).msgCount = 2 ^ MSG_COUNT_BITS - 1) ∧
      (i ∈ (d.getRecvEp epId).unread → (d.getRecvEp epId).msgCount < 2 ^ MSG_COUNT_BITS →
        (d1.getRecvEp epId).msgCount
          = ((d.getRecvEp epId).msgCount + 2 ^ MSG_COUNT_BITS - 1) % 2 ^ MSG_COUNT_BITS) ∧
      (i ∉ (d.getRecvEp epId).unread →
        (d1.getRecvEp epId).msgCount = (d.getRecvEp epId).msgCount) ∧
      d1.getRecvEp epId = { d.getRecvEp epId with
        occupied := (d.getRecvEp epId).occupied.erase i
        unread := (d.getRecvEp epId).unread.erase i
        msgCount := if i ∈ (d.getRecvEp epId).unread then
            decMsgCount (d.getRecvEp epId).msgCount
          else (d.getRecvEp epId).msgCount } ∧
      ((d.getRecvEp epId).replyEps ≠ d.numEndpoints →
        d1.eps = Function.update
          (Function.update d.eps ((d.getRecvEp epId).replyEps + i) Ep.invalid)
          epId (Ep.recv (d1.getRecvEp epId))) ∧
      ((d.getRecvEp epId).replyEps ≠ d.numEndpoints →
        (d.getRecvEp epId).replyEps + i ≠ epId →
        d1.eps ((d.getRecvEp epId).replyEps + i) = Ep.invalid) ∧
      ((d.getRecvEp epId).replyEps = d.numEndpoints →
        d1.eps = Function.update d.eps epId (Ep.recv (d1.getRecvEp epId))) ∧
      (∀ n, n ≠ epId → n ≠ (d.getRecvEp epId).replyEps + i → d1.eps n = d.eps n) ∧
      d1.numEndpoints = d.numEndpoints ∧ d1.finishOps = d.finishOps ∧
      d1.sendXfers = d.sendXfers ∧ d1.recvXfers = d.recvXfers ∧ d1.noSpace = d.noSpace := by
  generalize hep : d.getRecvEp epId = ep at *
  have hres := ackMessage_result epId msgAddr i d (by rw [hep]; exact hvalid)
    (by rw [hep]; exact hidx) hmax (by rw [hep]; exact hocc)
  rw [hep] at hres
  refine ⟨_, hres, ?_⟩
  rw [getRecvEp_setRecvEp]
  refine ⟨rfl, rfl, ?_, ?_, ?_, ?_, ?_, rfl, ?_, ?_, ?_, ?_, ?_, ?_, ?_, ?_, ?_⟩
  · intro j hj
    simp [RecvEp.isOccupied, RecvEp.isUnread, Finset.mem_erase, hj]
  · intro hu hpos
    simp only [hu, if_true, decMsgCount]
    rw [if_neg (by omega)]
    omega
  · intro hu h0
    simp only [hu, if_true, decMsgCount, h0]
  · intro hu hlt
    simp only [hu, if_true, decMsgCount, MSG_COUNT_BITS] at hlt ⊢
    split <;> omega
  · intro hu
    simp [hu]
  · intro hr
    simp [hr, State.setRecvEp, State.invalidate]
  · intro hr hne
    simp [hr, State.setRecvEp, State.invalidate, Function.update, hne]
  · intro hr
    simp [hr, State.setRecvEp]
  · intro n hn hn2
    by_cases hr : ep.replyEps = d.numEndpoints
    · simp [hr, State.setRecvEp, Function.update, hn]
    · simp [hr, State.setRecvEp, State.invalidate, Function.update, hn, hn2]
  all_goals by_cases hr : ep.replyEps = d.numEndpoints <;>
    simp [hr, State.setRecvEp, State.invalidate]

/-- C8 at B.EP4 holding one unread message in slot 0: the acknowledgement empties the ring and
invalidates the reply endpoint 5. -/
theorem ackMessage_occupied_witness :
    ∃ d1 : State, ackMessage 4 0x1000 (Scenario.tileB 1 {0} {0} 1) = (Error.NONE, d1) ∧
      (d1.getRecvEp 4).occupied = ∅ ∧ (d1.getRecvEp 4).unread = ∅ ∧
      (d1.getRecvEp 4).msgCount = 0 ∧ d1.eps 5 = Ep.invalid := by
  obtain ⟨d1, h1, h2, h3, _, h5, _, _, _, _, _, h10, _⟩ :=
    ackMessage_occupied 4 0x1000 0 (Scenario.tileB 1 {0} {0} 1)
      (by decide) (by decide) (by decide) (by decide)
  refine ⟨d1, h1, ?_, ?_, ?_, h10 (by decide) (by decide)⟩
  · rw [h2]; decide
  · rw [h3]; decide
  · have h := h5 (by decide) (by decide)
    have h0 : ((Scenario.tileB 1 {0} {0} 1).getRecvEp 4).msgCount = 1 := by decide
    omega

/-! ## Typed endpoint slots -/

theorem send_slot_of_valid (d : State) (e : Nat) (h : (d.getSendEp e).maxMsgSize ≠ 0) :
    d.eps e = Ep.send (d.getSendEp e) := by
  unfold State.getSendEp at h ⊢
  cases hs : d.eps e <;> simp [hs, SendEp.zero] at h ⊢

theorem recv_slot_of_valid (d : State) (e : Nat) (h : (d.getRecvEp e).bufAddr ≠ 0) :
    d.eps e = Ep.recv (d.getRecvEp e) := by
  unfold State.getRecvEp at h ⊢
  cases hs : d.eps e <;> simp [hs, RecvEp.zero] at h ⊢

theorem getRecvEp_setSendEp (d : State) (e n : Nat) (x : SendEp)
    (h : (d.getSendEp e).maxMsgSize ≠ 0) :
    (d.setSendEp e x).getRecvEp n = d.getRecvEp n := by
  have hs := send_slot_of_valid d e h
  by_cases hn : n = e
  · subst hn
    simp [State.getRecvEp, State.setSendEp, hs]
  · simp [State.getRecvEp, State.setSendEp, Function.update, hn]

theorem getSendEp_setRecvEp (d : State) (e n : Nat) (x : RecvEp)
    (h : (d.getRecvEp e).bufAddr ≠ 0) :
    (d.setRecvEp e x).getSendEp n = d.getSendEp n := by
  have hs := recv_slot_of_valid d e h
  by_cases hn : n = e
  · subst hn
    simp [State.getSendEp, State.setRecvEp, hs]
  · simp [State.getSendEp, State.setRecvEp, Function.update, hn]

/-! ## Credits -/

/-- The transfer that `startXfer` starts for command `cmd` in state `d`. -/
theorem startXfer_some (cmd : Command) (d : State) (hready : d.info.ready = true)
    (hnoc : d.dataReg.size + sizeofMessageHeader ≤ d.maxNocPacketSize) :
    ∃ ev : SendXfer, startXfer cmd d =
      some { d with sendXfers := d.sendXfers ++ [ev], info := { d.info with ready := false } } := by
  unfold startXfer
  simp [hready, hnoc]

/-- Whatever `startXfer` does, it leaves the registers and the finished commands alone and
starts exactly one transfer. -/
theorem startXfer_frame (cmd : Command) (d d1 : State) (h : startXfer cmd d = some d1) :
    d1.eps = d.eps ∧ d1.finishOps = d.finishOps ∧ d1.numEndpoints = d.numEndpoints ∧
      d1.sendXfers.length = d.sendXfers.length + 1 ∧ d1.dataReg = d.dataReg ∧
      d1.maxNocPacketSize = d.maxNocPacketSize ∧ d1.coreId = d.coreId ∧
      d1.recvXfers = d.recvXfers ∧ d1.noSpace = d.noSpace := by
  by_cases hr : d.info.ready = true
  · by_cases hn : d.dataReg.size + sizeofMessageHeader ≤ d.maxNocPacketSize
    · simp only [startXfer, hr, hn, Bool.not_true, Bool.false_eq_true, if_false, not_true,
        Option.some.injEq] at h
      subst h
      simp
    · simp [startXfer, hr, hn] at h
  · simp [startXfer, hr] at h

/-- A SEND over a valid send endpoint that has a credit (or unlimited credits) and a message
that fits: the state in which `startTransmission` ends, with the credit paid and the transfer
and its header as `startXfer` builds them. -/
theorem startTransmission_send (cmd : Command) (d : State) (hop : cmd.opcode = SEND)
    (hvalid : (d.getSendEp cmd.epid).maxMsgSize ≠ 0)
    (hcrd : (d.getSendEp cmd.epid).curcrd ≠ 0)
    (hfit : d.dataReg.size + sizeofMessageHeader ≤ 1 <<< (d.getSendEp cmd.epid).maxMsgSize)
    (hnoc : d.dataReg.size + sizeofMessageHeader ≤ d.maxNocPacketSize) :
    ∃ info : Info, startTransmission cmd d = some { d with
      eps := if (d.getSendEp cmd.epid).curcrd ≠ CREDITS_UNLIM then
          Function.update d.eps cmd.epid (Ep.send { d.getSendEp cmd.epid with
            curcrd := (d.getSendEp cmd.epid).curcrd - 1 })
        else d.eps
      info := info
      sendXfers := d.sendXfers ++ [{
        addr := d.dataReg.addr
        size := d.dataReg.size
        flags := XFER_MESSAGE
        targetCoreId := (d.getSendEp cmd.epid).targetCore
        targetEpId := (d.getSendEp cmd.epid).targetEp
        header := {
          flags := REPLY_ENABLED
          senderCoreId := d.coreId
          senderEpId := if (d.getSendEp cmd.epid).curcrd = CREDITS_UNLIM ∨
              (d.getSendEp cmd.epid).curcrd - 1 = CREDITS_UNLIM then d.numEndpoints else cmd.epid
          replyEpId := cmd.arg
          length := d.dataReg.size
          label := (d.getSendEp cmd.epid).label
          replyLabel := d.replyLabel
          replySize := (d.getRecvEp cmd.arg).msgSize } }] } := by
  generalize hep : d.getSendEp cmd.epid = ep at *
  have hnr : cmd.opcode ≠ REPLY := by rw [hop]; decide
  unfold startTransmission
  rw [if_neg hnr]
  unfold payAndStart
  simp only [hep]
  rw [if_neg hvalid, if_neg (by simp [hcrd])]
  have hsr : ¬ SEND = REPLY := by decide
  by_cases hu : ep.curcrd = CREDITS_UNLIM
  · simp [hu, hfit, hop, hsr, startXfer, hnoc, REPLY_ENABLED]
  · have hfit2 : d.dataReg.size + sizeofMessageHeader ≤ 1 <<< ep.maxMsgSize := hfit
    have hrs := getRecvEp_setSendEp d cmd.epid cmd.arg { ep with curcrd := ep.curcrd - 1 }
      (by rw [hep]; exact hvalid)
    simp [hu, hfit2, hop, hsr, startXfer, REPLY_ENABLED, hrs]
    simp [State.setSendEp, hnoc]

/-- Where `finishMsgSend` increments: a valid endpoint with limited credits below `maxcrd`,
and an error other than `NONE` and `MISS_CREDITS`. -/
theorem finishMsgSend_rollback (error : Error) (epid : Nat) (d : State)
    (hvalid : (d.getSendEp epid).maxMsgSize ≠ 0)
    (hlim : (d.getSendEp epid).curcrd ≠ CREDITS_UNLIM)
    (h1 : error ≠ Error.NONE) (h2 : error ≠ Error.MISS_CREDITS)
    (hlt : (d.getSendEp epid).curcrd < (d.getSendEp epid).maxcrd) :
    finishMsgSend error epid d = some (d.setSendEp epid
      { d.getSendEp epid with curcrd := (d.getSendEp epid).curcrd + 1 }) := by
  unfold finishMsgSend
  simp only [if_neg hvalid]
  rw [if_pos ⟨hlim, h1, h2⟩, if_neg (by simp only [not_not]; omega)]

/-- Where `finishMsgSend` trips its assertion: as before, but with `curcrd ≥ maxcrd`. -/
theorem finishMsgSend_assert (error : Error) (epid : Nat) (d : State)
    (hvalid : (d.getSendEp epid).maxMsgSize ≠ 0)
    (hlim : (d.getSendEp epid).curcrd ≠ CREDITS_UNLIM)
    (h1 : error ≠ Error.NONE) (h2 : error ≠ Error.MISS_CREDITS)
    (hge : (d.getSendEp epid).maxcrd ≤ (d.getSendEp epid).curcrd) :
    finishMsgSend error epid d = none := by
  unfold finishMsgSend
  simp only [if_neg hvalid]
  rw [if_pos ⟨hlim, h1, h2⟩, if_pos (by simp only [not_le]; omega)]

/-- Where `finishMsgSend` writes the endpoint back as it was. -/
theorem finishMsgSend_keep (error : Error) (epid : Nat) (d : State)
    (hvalid : (d.getSendEp epid).maxMsgSize ≠ 0)
    (h : (d.getSendEp epid).curcrd = CREDITS_UNLIM ∨ error = Error.NONE ∨
      error = Error.MISS_CREDITS) :
    finishMsgSend error epid d = some (d.setSendEp epid (d.getSendEp epid)) := by
  unfold finishMsgSend
  simp only [if_neg hvalid]
  rw [if_neg]
  rintro ⟨a, b, c⟩
  rcases h with h | h | h
  · exact a h
  · exact b h
  · exact c h

/-- Writing an endpoint back into the slot it was read from changes nothing. -/
theorem setSendEp_getSendEp (d : State) (epid : Nat)
    (hvalid : (d.getSendEp epid).maxMsgSize ≠ 0) :
    d.setSendEp epid (d.getSendEp epid) = d := by
  have hs := send_slot_of_valid d epid hvalid
  unfold State.setSendEp
  rw [← hs, Function.update_eq_self]

/-- C4: a SEND on a valid send endpoint whose message fits.  With limited credits `c > 0`
(inside the six-bit credit field and not above `maxcrd`) `startTransmission` leaves `c - 1`
credits; a following `finishMsgSend(error)` restores `c` when `error` is neither `NONE` nor
`MISS_CREDITS` and leaves `c - 1` when `error` is `NONE`.  With `UNLIM` credits neither
operation changes the credits. -/
theorem send_pays_and_rolls_back (cmd : Command) (d : State) (hop : cmd.opcode = SEND)
    (hvalid : (d.getSendEp cmd.epid).maxMsgSize ≠ 0)
    (hfit : d.dataReg.size + sizeofMessageHeader ≤ 1 <<< (d.getSendEp cmd.epid).maxMsgSize)
    (hnoc : d.dataReg.size + sizeofMessageHeader ≤ d.maxNocPacketSize) :
    (∀ c, (d.getSendEp cmd.epid).curcrd = c → 0 < c → c ≠ CREDITS_UNLIM →
      c ≤ CREDITS_UNLIM → c ≤ (d.getSendEp cmd.epid).maxcrd →
      ∃ d1, startTransmission cmd d = some d1 ∧ (d1.getSendEp cmd.epid).curcrd = c - 1 ∧
        (∀ error, error ≠ Error.NONE → error ≠ Error.MISS_CREDITS →
          ∃ d2, finishMsgSend error cmd.epid d1 = some d2 ∧
            (d2.getSendEp cmd.epid).curcrd = c) ∧
        ∃ d2, finishMsgSend Error.NONE cmd.epid d1 = some d2 ∧
          (d2.getSendEp cmd.epid).curcrd = c - 1) ∧
    ((d.getSendEp cmd.epid).curcrd = CREDITS_UNLIM →
      ∃ d1, startTransmission cmd d = some d1 ∧
        (d1.getSendEp cmd.epid).curcrd = CREDITS_UNLIM ∧
        ∀ error, ∃ d2, finishMsgSend error cmd.epid d1 = some d2 ∧
          (d2.getSendEp cmd.epid).curcrd = CREDITS_UNLIM) := by
  generalize hep : d.getSendEp cmd.epid = ep at *
  constructor
  · intro c hc hpos hlim hfield hmax
    obtain ⟨info, hst⟩ := startTransmission_send cmd d hop (by rw [hep]; exact hvalid)
      (by rw [hep]; omega) (by rw [hep]; exact hfit) hnoc
    rw [hep, hc, if_pos hlim] at hst
    generalize hd1 : ({ d with
      eps := Function.update d.eps cmd.epid (Ep.send { ep with curcrd := c - 1 })
      info := info
      sendXfers := d.sendXfers ++ [_] } : State) = d1 at hst
    have hget : d1.getSendEp cmd.epid = { ep with curcrd := c - 1 } := by
      rw [← hd1]
      simp [State.getSendEp]
    have hne : c - 1 ≠ CREDITS_UNLIM := by
      unfold CREDITS_UNLIM at *
      omega
    refine ⟨d1, hst, by rw [hget], ?_, ?_⟩
    · intro error h1 h2
      refine ⟨_, finishMsgSend_rollback error cmd.epid d1 (by rw [hget]; exact hvalid)
        (by rw [hget]; exact hne) h1 h2 (by rw [hget]; show c - 1 < ep.maxcrd; omega), ?_⟩
      rw [getSendEp_setSendEp, hget]
      show c - 1 + 1 = c
      omega
    · refine ⟨_, finishMsgSend_keep Error.NONE cmd.epid d1 (by rw [hget]; exact hvalid)
        (Or.inr (Or.inl rfl)), ?_⟩
      rw [getSendEp_setSendEp, hget]
  · intro hu
    obtain ⟨info, hst⟩ := startTransmission_send cmd d hop (by rw [hep]; exact hvalid)
      (by rw [hep, hu]; decide) (by rw [hep]; exact hfit) hnoc
    rw [hep, if_neg (by simp [hu])] at hst
    generalize hd1 : ({ d with info := info, sendXfers := d.sendXfers ++ [_] } : State) = d1
      at hst
    have hget : d1.getSendEp cmd.epid = ep := by
      rw [← hd1, ← hep]
      simp [State.getSendEp]
    refine ⟨d1, hst, by rw [hget]; exact hu, ?_⟩
    intro error
    refine ⟨_, finishMsgSend_keep error cmd.epid d1 (by rw [hget]; exact hvalid)
      (Or.inl (by rw [hget]; exact hu)), ?_⟩
    rw [getSendEp_setSendEp, hget]
    exact hu

/-- C4 on A.EP2 with 2 of 2 credits: the launch leaves 1 credit, an aborted transfer gives the
credit back. -/
theorem send_pays_and_rolls_back_witness :
    ∃ d1, startTransmission Scenario.sendCmd (Scenario.tileA 2 2) = some d1 ∧
      (d1.getSendEp 2).curcrd = 1 ∧
      ∃ d2, finishMsgSend Error.ABORT 2 d1 = some d2 ∧ (d2.getSendEp 2).curcrd = 2 := by
  obtain ⟨d1, h1, h2, h3, _⟩ :=
    (send_pays_and_rolls_back Scenario.sendCmd (Scenario.tileA 2 2) rfl
      (by decide) (by decide) (by decide)).1 2 rfl (by decide) (by decide) (by decide)
      (by decide)
  exact ⟨d1, h1, h2, h3 Error.ABORT (by decide) (by decide)⟩

/-- One unanswered SEND on an endpoint with limited credits left: the launch starts one
transfer and reports nothing, and the round leaves one credit less. -/
theorem send_round (cmd : Command) (d : State) (hop : cmd.opcode = SEND)
    (hvalid : (d.getSendEp cmd.epid).maxMsgSize ≠ 0)
    (hfit : d.dataReg.size + sizeofMessageHeader ≤ 1 <<< (d.getSendEp cmd.epid).maxMsgSize)
    (hnoc : d.dataReg.size + sizeofMessageHeader ≤ d.maxNocPacketSize)
    (hpos : 0 < (d.getSendEp cmd.epid).curcrd)
    (hlim : (d.getSendEp cmd.epid).curcrd ≠ CREDITS_UNLIM) :
    ∃ d1 d2, startTransmission cmd d = some d1 ∧ finishMsgSend Error.NONE cmd.epid d1 = some d2 ∧
      d1.finishOps = d.finishOps ∧ d1.sendXfers.length = d.sendXfers.length + 1 ∧
      d2.getSendEp cmd.epid = { d.getSendEp cmd.epid with
        curcrd := (d.getSendEp cmd.epid).curcrd - 1 } ∧
      d2.finishOps = d.finishOps ∧ d2.sendXfers = d1.sendXfers ∧
      d2.dataReg = d.dataReg ∧ d2.maxNocPacketSize = d.maxNocPacketSize := by
  generalize hep : d.getSendEp cmd.epid = ep at *
  obtain ⟨info, hst⟩ := startTransmission_send cmd d hop (by rw [hep]; exact hvalid)
    (by rw [hep]; omega) (by rw [hep]; exact hfit) hnoc
  rw [hep, if_pos hlim] at hst
  generalize hd1 : ({ d with
    eps := Function.update d.eps cmd.epid (Ep.send { ep with curcrd := ep.curcrd - 1 })
    info := info
    sendXfers := d.sendXfers ++ [_] } : State) = d1 at hst
  have hget : d1.getSendEp cmd.epid = { ep with curcrd := ep.curcrd - 1 } := by
    rw [← hd1]
    simp [State.getSendEp]
  have hv1 : (d1.getSendEp cmd.epid).maxMsgSize ≠ 0 := by rw [hget]; exact hvalid
  refine ⟨d1, _, hst, finishMsgSend_keep Error.NONE cmd.epid d1 hv1 (Or.inr (Or.inl rfl)),
    ?_, ?_, ?_, ?_, ?_, ?_, ?_⟩
  · rw [← hd1]
  · rw [← hd1]; simp
  · rw [getSendEp_setSendEp, hget]
  · rw [setSendEp_getSendEp d1 cmd.epid hv1, ← hd1]
  · rw [setSendEp_getSendEp d1 cmd.epid hv1]
  · rw [setSendEp_getSendEp d1 cmd.epid hv1, ← hd1]
  · rw [setSendEp_getSendEp d1 cmd.epid hv1, ← hd1]

/-- After `k ≤ c` unanswered SENDs from `c` limited credits, `k` transfers were started, no
command finished with an error and `c - k` credits are left. -/
theorem sendRounds_spec (cmd : Command) (d : State) (hop : cmd.opcode = SEND)
    (hvalid : (d.getSendEp cmd.epid).maxMsgSize ≠ 0)
    (hfit : d.dataReg.size + sizeofMessageHeader ≤ 1 <<< (d.getSendEp cmd.epid).maxMsgSize)
    (hnoc : d.dataReg.size + sizeofMessageHeader ≤ d.maxNocPacketSize)
    (hlim : (d.getSendEp cmd.epid).curcrd < CREDITS_UNLIM) (k : Nat)
    (hk : k ≤ (d.getSendEp cmd.epid).curcrd) :
    ∃ dk, sendRounds cmd k d = some dk ∧
      dk.getSendEp cmd.epid = { d.getSendEp cmd.epid with
        curcrd := (d.getSendEp cmd.epid).curcrd - k } ∧
      dk.finishOps = d.finishOps ∧ dk.sendXfers.length = d.sendXfers.length + k ∧
      dk.dataReg = d.dataReg ∧ dk.maxNocPacketSize = d.maxNocPacketSize := by
  induction k with
  | zero => exact ⟨d, rfl, rfl, rfl, rfl, rfl, rfl⟩
  | succ n ih =>
    obtain ⟨dn, h1, h2, h3, h4, h5, h6⟩ := ih (by omega)
    have hcur : (dn.getSendEp cmd.epid).curcrd = (d.getSendEp cmd.epid).curcrd - n := by
      rw [h2]
    obtain ⟨d1, d2, r1, r2, r3, r4, r5, r6, r7, r8, r9⟩ := send_round cmd dn hop
      (by rw [h2]; exact hvalid) (by rw [h2, h5]; exact hfit) (by rw [h5, h6]; exact hnoc)
      (by rw [hcur]; omega) (by rw [hcur]; omega)
    refine ⟨d2, ?_, ?_, ?_, ?_, ?_, ?_⟩
    · simp only [sendRounds, h1, r1, r2]
    · rw [r5, h2]
      simp only [SendEp.mk.injEq, true_and, and_true]
      omega
    · rw [r6, h3]
    · rw [r7, r4, h4]
      omega
    · rw [r8, h5]
    · rw [r9, h6]

/-- A command other than REPLY on a valid send endpoint without credits finishes with
`MISS_CREDITS` and does nothing else. -/
theorem startTransmission_miss (cmd : Command) (d : State) (hnr : cmd.opcode ≠ REPLY)
    (hv : (d.getSendEp cmd.epid).maxMsgSize ≠ 0) (h0 : (d.getSendEp cmd.epid).curcrd = 0) :
    startTransmission cmd d = some (d.scheduleFinishOp Error.MISS_CREDITS) := by
  unfold startTransmission
  rw [if_neg hnr]
  unfold payAndStart
  simp only [if_neg hv]
  rw [if_pos ⟨by rw [h0]; decide, h0⟩]

/-- C2: a SEND on a valid send endpoint.  With `curcrd = 0` (which is not the `UNLIM`
sentinel) `startTransmission` finishes the command with `MISS_CREDITS`, starts no transfer and
changes no register, and the following `finishMsgSend(MISS_CREDITS)` changes nothing either.
From `c` limited credits (and with a message that fits, so that the assertions pass) every
one of the first `c` launches starts a transfer and finishes with no error, leaving `c - k`
credits after `k` of them, and launch number `c + 1` finishes with `MISS_CREDITS` without
starting a transfer. -/
theorem send_without_credits (cmd : Command) (d : State) (hop : cmd.opcode = SEND)
    (hvalid : (d.getSendEp cmd.epid).maxMsgSize ≠ 0) :
    ((d.getSendEp cmd.epid).curcrd = 0 →
      (d.getSendEp cmd.epid).curcrd ≠ CREDITS_UNLIM ∧
      ∃ d1, startTransmission cmd d = some d1 ∧
        d1.finishOps = d.finishOps ++ [Error.MISS_CREDITS] ∧ d1.sendXfers = d.sendXfers ∧
        d1.eps = d.eps ∧ d1.getSendEp cmd.epid = d.getSendEp cmd.epid ∧
        ∃ d2, finishMsgSend Error.MISS_CREDITS cmd.epid d1 = some d2 ∧ d2.eps = d.eps ∧
          (d2.getSendEp cmd.epid).curcrd = 0 ∧ d2.sendXfers = d.sendXfers) ∧
    ((d.getSendEp cmd.epid).curcrd < CREDITS_UNLIM →
      d.dataReg.size + sizeofMessageHeader ≤ 1 <<< (d.getSendEp cmd.epid).maxMsgSize →
      d.dataReg.size + sizeofMessageHeader ≤ d.maxNocPacketSize →
      (∀ k, k < (d.getSendEp cmd.epid).curcrd →
        ∃ dk d1 d2, sendRounds cmd k d = some dk ∧ startTransmission cmd dk = some d1 ∧
          finishMsgSend Error.NONE cmd.epid d1 = some d2 ∧
          sendRounds cmd (k + 1) d = some d2 ∧
          d1.finishOps = d.finishOps ∧ d1.sendXfers.length = dk.sendXfers.length + 1 ∧
          (d2.getSendEp cmd.epid).curcrd = (d.getSendEp cmd.epid).curcrd - (k + 1)) ∧
      ∃ dc d1, sendRounds cmd (d.getSendEp cmd.epid).curcrd d = some dc ∧
        dc.sendXfers.length = d.sendXfers.length + (d.getSendEp cmd.epid).curcrd ∧
        dc.finishOps = d.finishOps ∧
        startTransmission cmd dc = some d1 ∧
        d1.finishOps = d.finishOps ++ [Error.MISS_CREDITS] ∧ d1.sendXfers = dc.sendXfers ∧
        d1.eps = dc.eps) := by
  have hnr : cmd.opcode ≠ REPLY := by rw [hop]; decide
  have hmiss : ∀ s : State, (s.getSendEp cmd.epid).maxMsgSize ≠ 0 →
      (s.getSendEp cmd.epid).curcrd = 0 →
      startTransmission cmd s = some (s.scheduleFinishOp Error.MISS_CREDITS) :=
    fun s hv h0 => startTransmission_miss cmd s hnr hv h0
  constructor
  · intro h0
    have hv1 : ((d.scheduleFinishOp Error.MISS_CREDITS).getSendEp cmd.epid).maxMsgSize ≠ 0 :=
      hvalid
    refine ⟨by rw [h0]; decide, _, hmiss d hvalid h0, rfl, rfl, rfl, rfl, _,
      finishMsgSend_keep Error.MISS_CREDITS cmd.epid _ hv1 (Or.inr (Or.inr rfl)), ?_, ?_, ?_⟩
    · rw [setSendEp_getSendEp _ cmd.epid hv1]
      rfl
    · rw [setSendEp_getSendEp _ cmd.epid hv1]
      exact h0
    · rw [setSendEp_getSendEp _ cmd.epid hv1]
      rfl
  · intro hlim hfit hnoc
    constructor
    · intro k hk
      obtain ⟨dk, h1, h2, h3, h4, h5, h6⟩ :=
        sendRounds_spec cmd d hop hvalid hfit hnoc hlim k (by omega)
      have hcur : (dk.getSendEp cmd.epid).curcrd = (d.getSendEp cmd.epid).curcrd - k := by
        rw [h2]
      obtain ⟨d1, d2, r1, r2, r3, r4, r5, r6, r7, r8, r9⟩ := send_round cmd dk hop
        (by rw [h2]; exact hvalid) (by rw [h2, h5]; exact hfit) (by rw [h5, h6]; exact hnoc)
        (by rw [hcur]; omega) (by rw [hcur]; omega)
      refine ⟨dk, d1, d2, h1, r1, r2, ?_, ?_, r4, ?_⟩
      · simp only [sendRounds, h1, r1, r2]
      · rw [r3, h3]
      · rw [r5, h2]
        show (d.getSendEp cmd.epid).curcrd - k - 1 = _
        omega
    · obtain ⟨dc, h1, h2, h3, h4, h5, h6⟩ :=
        sendRounds_spec cmd d hop hvalid hfit hnoc hlim _ (Nat.le_refl _)
      refine ⟨dc, _, h1, h4, h3, hmiss dc (by rw [h2]; exact hvalid) (by rw [h2]; simp), ?_,
        rfl, rfl⟩
      show dc.finishOps ++ [Error.MISS_CREDITS] = _
      rw [h3]

/-- C2 in the second scenario of the spec (A.EP2 with 2 of 2 credits): two SENDs go out, the
third finishes with `MISS_CREDITS` and leaves the registers alone. -/
theorem send_without_credits_witness :
    ∃ d2 d3, sendRounds Scenario.sendCmd 2 (Scenario.tileA 2 2) = some d2 ∧
      d2.sendXfers.length = 2 ∧ d2.finishOps = [] ∧
      startTransmission Scenario.sendCmd d2 = some d3 ∧
      d3.finishOps = [Error.MISS_CREDITS] ∧ d3.sendXfers = d2.sendXfers ∧ d3.eps = d2.eps :=
  ((send_without_credits Scenario.sendCmd (Scenario.tileA 2 2) rfl (by decide)).2
    (by decide) (by decide) (by decide)).2

/-- The only register `payAndStart` may write is the send endpoint it pays from, and the only
change is one credit less. -/
theorem payAndStart_eps (cmd : Command) (epid : Nat) (d d1 : State)
    (h : payAndStart cmd epid d = some d1) :
    d1.eps = d.eps ∨
      ((d.getSendEp epid).maxMsgSize ≠ 0 ∧ (d.getSendEp epid).curcrd ≠ CREDITS_UNLIM ∧
        (d.getSendEp epid).curcrd ≠ 0 ∧
        d1.eps = Function.update d.eps epid (Ep.send { d.getSendEp epid with
          curcrd := (d.getSendEp epid).curcrd - 1 })) := by
  unfold payAndStart at h
  by_cases hv : (d.getSendEp epid).maxMsgSize = 0
  · simp only [hv, if_true, Option.some.injEq] at h
    subst h
    exact Or.inl rfl
  · simp only [if_neg hv] at h
    by_cases hm : (d.getSendEp epid).curcrd ≠ CREDITS_UNLIM ∧ (d.getSendEp epid).curcrd = 0
    · rw [if_pos hm] at h
      have := Option.some.inj h
      subst this
      exact Or.inl rfl
    · rw [if_neg hm] at h
      by_cases hu : (d.getSendEp epid).curcrd = CREDITS_UNLIM
      · left
        by_cases hf : d.dataReg.size + sizeofMessageHeader ≤ 1 <<< (d.getSendEp epid).maxMsgSize
        · simp only [hu, ne_eq, not_true, if_false, hf] at h
          exact (startXfer_frame _ _ _ h).1
        · simp [hu, hf] at h
      · right
        refine ⟨hv, hu, fun h0 => hm ⟨hu, h0⟩, ?_⟩
        by_cases hf : d.dataReg.size + sizeofMessageHeader ≤ 1 <<< (d.getSendEp epid).maxMsgSize
        · simp only [hu, ne_eq, not_false_eq_true, if_true, hf, not_true, if_false] at h
          exact (startXfer_frame _ _ _ h).1
        · simp [hu, hf] at h

/-- No command makes `startTransmission` raise the credits of a send endpoint: each send
endpoint is unchanged or has one credit less. -/
theorem startTransmission_credits (cmd : Command) (d d1 : State)
    (h : startTransmission cmd d = some d1) (e : Nat) :
    d1.getSendEp e = d.getSendEp e ∨
      d1.getSendEp e = { d.getSendEp e with curcrd := (d.getSendEp e).curcrd - 1 } := by
  have key : ∀ (epid : Nat) (d0 : State), d0.eps = d.eps → payAndStart cmd epid d0 = some d1 →
      d1.getSendEp e = d.getSendEp e ∨
        d1.getSendEp e = { d.getSendEp e with curcrd := (d.getSendEp e).curcrd - 1 } := by
    intro epid d0 h0 hp
    have hg : ∀ n, d0.getSendEp n = d.getSendEp n := by
      intro n
      simp [State.getSendEp, h0]
    rcases payAndStart_eps cmd epid d0 d1 hp with h1 | ⟨_, _, _, h1⟩
    · left
      simp [State.getSendEp, h1, h0]
    · by_cases hn : e = epid
      · right
        subst hn
        rw [← hg e]
        simp [State.getSendEp, h1]
      · left
        simp [State.getSendEp, h1, h0, Function.update, hn]
  unfold startTransmission at h
  by_cases hr : cmd.opcode = REPLY
  · rw [if_pos hr] at h
    simp only at h
    split at h
    · have := Option.some.inj h
      subst this
      exact Or.inl rfl
    · split at h
      · have := Option.some.inj h
        subst this
        exact Or.inl rfl
      · exact key _ _ (by rfl) h
  · rw [if_neg hr] at h
    exact key _ _ (by rfl) h

/-- Where `recvCredits` increments: limited credits below `maxcrd`. -/
theorem recvCredits_inc (epid : Nat) (d : State)
    (hlim : (d.getSendEp epid).curcrd ≠ CREDITS_UNLIM)
    (hlt : (d.getSendEp epid).curcrd < (d.getSendEp epid).maxcrd) :
    recvCredits epid d = some (d.setSendEp epid
      { d.getSendEp epid with curcrd := (d.getSendEp epid).curcrd + 1 }) := by
  unfold recvCredits
  simp only [if_pos hlim]
  rw [if_neg (by simp only [not_not]; omega)]

/-- Where `recvCredits` trips its assertion: limited credits that are not below `maxcrd`. -/
theorem recvCredits_assert (epid : Nat) (d : State)
    (hlim : (d.getSendEp epid).curcrd ≠ CREDITS_UNLIM)
    (hge : (d.getSendEp epid).maxcrd ≤ (d.getSendEp epid).curcrd) :
    recvCredits epid d = none := by
  unfold recvCredits
  simp only [if_pos hlim]
  rw [if_pos (by simp only [not_le]; omega)]

/-- C5, the claim refuted: A.EP2 holds 1 of 1 credits, so `curcrd ≤ maxcrd` holds and the
credits are limited; yet `recvCredits` and `finishMsgSend(ABORT)` both stop at the assertion
`curcrd <= maxcrd` instead of ending in a state. -/
theorem credit_bound_counterexample :
    ((Scenario.tileA 1 1).getSendEp 2).maxMsgSize ≠ 0 ∧
      ((Scenario.tileA 1 1).getSendEp 2).curcrd ≠ CREDITS_UNLIM ∧
      ((Scenario.tileA 1 1).getSendEp 2).curcrd ≤ ((Scenario.tileA 1 1).getSendEp 2).maxcrd ∧
      recvCredits 2 (Scenario.tileA 1 1) = none ∧
      finishMsgSend Error.ABORT 2 (Scenario.tileA 1 1) = none :=
  ⟨by decide, by decide, by decide,
    recvCredits_assert 2 (Scenario.tileA 1 1) (by decide) (by decide),
    finishMsgSend_assert Error.ABORT 2 (Scenario.tileA 1 1) (by decide) (by decide)
      (by decide) (by decide) (by decide)⟩

/-- C5 as amended: for a valid send endpoint with limited credits and `curcrd ≤ maxcrd`,
`startTransmission` never raises the credits, so every state it ends in has
`curcrd ≤ maxcrd` (and a SEND on the endpoint whose message fits does end in one);
`finishMsgSend` with `NONE` or `MISS_CREDITS` changes nothing; `finishMsgSend` with any other
error and `recvCredits` add one credit, which passes the assertion `curcrd <= maxcrd` when
`curcrd < maxcrd` held before and fails it when `curcrd = maxcrd`. -/
theorem credit_bound_preserved (epid : Nat) (d : State)
    (hvalid : (d.getSendEp epid).maxMsgSize ≠ 0)
    (hlim : (d.getSendEp epid).curcrd ≠ CREDITS_UNLIM)
    (hle : (d.getSendEp epid).curcrd ≤ (d.getSendEp epid).maxcrd) :
    (∀ cmd d1, startTransmission cmd d = some d1 →
      (d1.getSendEp epid).curcrd ≤ (d1.getSendEp epid).maxcrd) ∧
    (∀ cmd, cmd.opcode = SEND → cmd.epid = epid →
      d.dataReg.size + sizeofMessageHeader ≤ 1 <<< (d.getSendEp epid).maxMsgSize →
      d.dataReg.size + sizeofMessageHeader ≤ d.maxNocPacketSize →
      ∃ d1, startTransmission cmd d = some d1 ∧
        (d1.getSendEp epid).curcrd ≤ (d1.getSendEp epid).maxcrd) ∧
    (∀ error, error = Error.NONE ∨ error = Error.MISS_CREDITS →
      finishMsgSend error epid d = some d) ∧
    (∀ error, error ≠ Error.NONE → error ≠ Error.MISS_CREDITS →
      ((d.getSendEp epid).curcrd < (d.getSendEp epid).maxcrd →
        ∃ d1, finishMsgSend error epid d = some d1 ∧
          (d1.getSendEp epid).curcrd = (d.getSendEp epid).curcrd + 1 ∧
          (d1.getSendEp epid).maxcrd = (d.getSendEp epid).maxcrd ∧
          (d1.getSendEp epid).curcrd ≤ (d1.getSendEp epid).maxcrd) ∧
      ((d.getSendEp epid).curcrd = (d.getSendEp epid).maxcrd →
        finishMsgSend error epid d = none)) ∧
    ((d.getSendEp epid).curcrd < (d.getSendEp epid).maxcrd →
      ∃ d1, recvCredits epid d = some d1 ∧
        (d1.getSendEp epid).curcrd = (d.getSendEp epid).curcrd + 1 ∧
        (d1.getSendEp epid).maxcrd = (d.getSendEp epid).maxcrd ∧
        (d1.getSendEp epid).curcrd ≤ (d1.getSendEp epid).maxcrd) ∧
    ((d.getSendEp epid).curcrd = (d.getSendEp epid).maxcrd → recvCredits epid d = none) := by
  have hstart : ∀ cmd d1, startTransmission cmd d = some d1 →
      (d1.getSendEp epid).curcrd ≤ (d1.getSendEp epid).maxcrd := by
    intro cmd d1 h
    rcases startTransmission_credits cmd d d1 h epid with h1 | h1
    · rw [h1]; exact hle
    · rw [h1]
      show (d.getSendEp epid).curcrd - 1 ≤ (d.getSendEp epid).maxcrd
      omega
  refine ⟨hstart, ?_, ?_, ?_, ?_, ?_⟩
  · intro cmd hop he hfit hnoc
    subst he
    by_cases h0 : (d.getSendEp cmd.epid).curcrd = 0
    · have h1 := startTransmission_miss cmd d (by rw [hop]; decide) hvalid h0
      exact ⟨_, h1, hstart cmd _ h1⟩
    · obtain ⟨info, h1⟩ := startTransmission_send cmd d hop hvalid h0 hfit hnoc
      exact ⟨_, h1, hstart cmd _ h1⟩
  · intro error he
    rw [finishMsgSend_keep error epid d hvalid (Or.inr he), setSendEp_getSendEp d epid hvalid]
  · intro error h1 h2
    constructor
    · intro hlt
      refine ⟨_, finishMsgSend_rollback error epid d hvalid hlim h1 h2 hlt, ?_⟩
      rw [getSendEp_setSendEp]
      exact ⟨rfl, rfl, hlt⟩
    · intro heq
      exact finishMsgSend_assert error epid d hvalid hlim h1 h2 (by omega)
  · intro hlt
    refine ⟨_, recvCredits_inc epid d hlim hlt, ?_⟩
    rw [getSendEp_setSendEp]
    exact ⟨rfl, rfl, hlt⟩
  · intro heq
    exact recvCredits_assert epid d hlim (by omega)

/-- C5 as amended, on A.EP2 with 1 of 2 credits: a credit that comes back is taken and the
bound still holds. -/
theorem credit_bound_preserved_witness :
    ∃ d1, recvCredits 2 (Scenario.tileA 2 1) = some d1 ∧ (d1.getSendEp 2).curcrd = 2 ∧
      (d1.getSendEp 2).curcrd ≤ (d1.getSendEp 2).maxcrd := by
  obtain ⟨d1, h1, h2, _, h4⟩ :=
    (credit_bound_preserved 2 (Scenario.tileA 2 1) (by decide) (by decide) (by decide)).2.2.2.2.1
      (by decide)
  exact ⟨d1, h1, h2, h4⟩

/-! ## Reception -/

/-- A header without the REPLY flag is no pagefault response. -/
theorem not_pfResp_of_not_reply (f : Nat) (h : f &&& REPLY_FLAG = 0) :
    f &&& (REPLY_FLAG ||| PAGEFAULT) ≠ REPLY_FLAG ||| PAGEFAULT := by
  intro hc
  have h1 : (f &&& (REPLY_FLAG ||| PAGEFAULT)) &&& REPLY_FLAG = f &&& REPLY_FLAG := by
    rw [Nat.and_assoc]
    rfl
  rw [hc, h] at h1
  exact absurd h1 (by decide)

/-- The scan of `allocSlot` finds nothing when every slot of the ring is occupied. -/
theorem allocSlot_full (msgSize epid : Nat) (ep : RecvEp) (d : State)
    (hfit : ep.bufAddr ≠ 0 → msgSize ≤ 1 <<< ep.msgSize) (hwr : ep.wrPos ≤ 1 <<< ep.size)
    (hfull : ∀ i, i < 1 <<< ep.size → ep.isOccupied i = true) :
    allocSlot msgSize epid ep d = some (-1, ep, d) := by
  unfold allocSlot
  by_cases hv : ep.bufAddr = 0
  · rw [if_pos hv]
  · rw [if_neg hv, if_neg (not_not.mpr (hfit hv))]
    have hs : scanRing (fun i => !ep.isOccupied i) ep.wrPos (1 <<< ep.size) = none := by
      rw [scanRing_none]
      constructor
      · intro j _ hj
        simp [hfull j hj]
      · intro j hj
        simp [hfull j (by omega)]
    rw [hs]

/-- The slot `allocSlot` hands out when the ring has a free slot. -/
theorem allocSlot_free (msgSize epid : Nat) (ep : RecvEp) (d : State)
    (hvalid : ep.bufAddr ≠ 0) (hfit : msgSize ≤ 1 <<< ep.msgSize)
    (hwr : ep.wrPos ≤ 1 <<< ep.size)
    (hfree : ∃ i, i < 1 <<< ep.size ∧ ep.isOccupied i = false) :
    ∃ i : Nat, i < 1 <<< ep.size ∧ i ∉ ep.occupied ∧
      allocSlot msgSize epid ep d = some ((i : Int),
        { ep with occupied := insert i ep.occupied, wrPos := i + 1 },
        d.setRecvEp epid { ep with occupied := insert i ep.occupied, wrPos := i + 1 }) := by
  unfold allocSlot
  rw [if_neg hvalid, if_neg (not_not.mpr hfit)]
  cases hs : scanRing (fun i => !ep.isOccupied i) ep.wrPos (1 <<< ep.size) with
  | none =>
    exfalso
    rw [scanRing_none] at hs
    obtain ⟨i, hi, ho⟩ := hfree
    by_cases hw : ep.wrPos ≤ i
    · have := hs.1 i hw hi
      simp [ho] at this
    · have := hs.2 i (by omega)
      simp [ho] at this
  | some i =>
    obtain ⟨hi, hp, _⟩ := scanRing_some_first _ _ _ _ hwr hs
    refine ⟨i, hi, ?_, ?_⟩
    · simpa [RecvEp.isOccupied] using hp
    · simp [RecvEp.setOccupied]

/-- What `recvFromNoc` does with a packet that is neither a pagefault response nor addressed
beyond the endpoints: it allocates a slot and either drops the packet or starts a receive
transfer into the slot. -/
theorem recvFromNoc_ordinary (pkt : Packet) (flags : Nat) (d : State)
    (hw : pkt.isWrite = true) (hd : pkt.hasData = true)
    (hpf : pkt.header.flags &&& (REPLY_FLAG ||| PAGEFAULT) ≠ REPLY_FLAG ||| PAGEFAULT)
    (hidx : pkt.addrOffset < d.numEndpoints) :
    recvFromNoc pkt flags d =
      match allocSlot pkt.size pkt.addrOffset (d.getRecvEp pkt.addrOffset) d with
      | none => none
      | some (msgidx, ep, d1) =>
        if msgidx = -1 then
          some (Error.NO_RING_SPACE,
            { d1 with noSpace := d1.noSpace + 1, nocResponses := d1.nocResponses + 1 })
        else
          some (Error.NONE, { d1 with recvXfers := d1.recvXfers ++ [{
            epId := pkt.addrOffset
            localAddr := ep.bufAddr + (msgidx.toNat <<< ep.msgSize)
            flags := if flags &&& NOC_PRIV ≠ 0 then XFER_MSGRECV ||| XFER_NOPF ||| XFER_PRIV
              else XFER_MSGRECV ||| XFER_NOPF
            header := pkt.header }] }) := by
  unfold recvFromNoc
  simp only [hw, hd, Bool.not_true, Bool.false_eq_true, if_false]
  rw [if_neg hpf, if_neg (by omega)]

/-- The slot index that `finishMsgReceive` recovers from the address `recvFromNoc` chose. -/
theorem slot_of_addr (bufAddr i s : Nat) : (bufAddr + (i <<< s) - bufAddr) >>> s = i := by
  rw [Nat.add_sub_cancel_left, Nat.shiftLeft_eq, Nat.shiftRight_eq_div_pow]
  exact Nat.mul_div_cancel i (Nat.two_pow_pos s)

/-- A receive that completes without error for a message that is no reply: the message is
counted and marked unread and its reply endpoint is installed. -/
theorem finishMsgReceive_message (epId msgAddr : Nat) (header : MessageHeader) (xferFlags : Nat)
    (d : State) (hvalid : (d.getRecvEp epId).bufAddr ≠ 0)
    (hnr : header.flags &&& REPLY_FLAG = 0)
    (hcount : (d.getRecvEp epId).msgCount ≠ 1 <<< (d.getRecvEp epId).size)
    (hrep : (d.getRecvEp epId).replyEps ≠ d.numEndpoints) :
    ∃ d1, finishMsgReceive epId msgAddr header Error.NONE xferFlags d = some (Error.NONE, d1) ∧
      d1.eps = Function.update
        (Function.update d.eps
          ((d.getRecvEp epId).replyEps +
            (msgAddr - (d.getRecvEp epId).bufAddr) >>> (d.getRecvEp epId).msgSize)
          (Ep.send {
            targetCore := header.senderCoreId
            targetEp := header.replyEpId
            label := header.replyLabel
            maxMsgSize := header.replySize
            maxcrd := 1
            curcrd := 1
            crdEp := header.senderEpId
            flags := if header.flags &&& PAGEFAULT ≠ 0 then FL_REPLY ||| FL_PF else FL_REPLY }))
        epId (Ep.recv { d.getRecvEp epId with
          msgCount := (d.getRecvEp epId).msgCount + 1
          unread := insert ((msgAddr - (d.getRecvEp epId).bufAddr) >>> (d.getRecvEp epId).msgSize)
            (d.getRecvEp epId).unread }) ∧
      d1.numEndpoints = d.numEndpoints ∧ d1.noSpace = d.noSpace ∧
      d1.recvXfers = d.recvXfers ∧ d1.sendXfers = d.sendXfers ∧ d1.finishOps = d.finishOps ∧
      d1.events = d.events ++ [EventType.MSG_RECV] ∧ d1.coreId = d.coreId ∧
      d1.dataReg = d.dataReg ∧ d1.maxNocPacketSize = d.maxNocPacketSize ∧
      d1.nocResponses = d.nocResponses ∧ d1.replyLabel = d.replyLabel := by
  generalize hep : d.getRecvEp epId = ep at *
  unfold finishMsgReceive
  simp only [hep, if_neg hvalid, if_true, hnr, ne_eq, not_true, false_and, if_false, if_neg hcount,
    if_neg hrep]
  by_cases hq : d.irqOnMsg = true
  · simp [hq, hrep, State.setRecvEp, State.setSendEp, RecvEp.setUnread]
  · simp [hq, hrep, State.setRecvEp, State.setSendEp, RecvEp.setUnread]

/-- One ordinary message delivered into a ring that has a free slot: a free slot `i` is
occupied, counted and marked unread, its reply endpoint is installed from the header, and
nothing is dropped. -/
theorem deliver_message (pkt : Packet) (flags epId : Nat) (d : State)
    (hmsg : isMessageFor epId pkt) (hidx : epId < d.numEndpoints)
    (hvalid : (d.getRecvEp epId).bufAddr ≠ 0)
    (hfit : pkt.size ≤ 1 <<< (d.getRecvEp epId).msgSize)
    (hwr : (d.getRecvEp epId).wrPos ≤ 1 <<< (d.getRecvEp epId).size)
    (hrep : (d.getRecvEp epId).replyEps ≠ d.numEndpoints)
    (hcount : (d.getRecvEp epId).msgCount ≠ 1 <<< (d.getRecvEp epId).size)
    (hfree : ∃ i, i < 1 <<< (d.getRecvEp epId).size ∧ (d.getRecvEp epId).isOccupied i = false) :
    ∃ i d1, i < 1 <<< (d.getRecvEp epId).size ∧ i ∉ (d.getRecvEp epId).occupied ∧
      deliver pkt flags d = some (Error.NONE, d1) ∧
      d1.getRecvEp epId = { d.getRecvEp epId with
        occupied := insert i (d.getRecvEp epId).occupied
        wrPos := i + 1
        msgCount := (d.getRecvEp epId).msgCount + 1
        unread := insert i (d.getRecvEp epId).unread } ∧
      d1.numEndpoints = d.numEndpoints ∧ d1.noSpace = d.noSpace ∧
      ((d.getRecvEp epId).replyEps + i ≠ epId →
        d1.getSendEp ((d.getRecvEp epId).replyEps + i) = {
          targetCore := pkt.header.senderCoreId
          targetEp := pkt.header.replyEpId
          label := pkt.header.replyLabel
          maxMsgSize := pkt.header.replySize
          maxcrd := 1
          curcrd := 1
          crdEp := pkt.header.senderEpId
          flags := if pkt.header.flags &&& PAGEFAULT ≠ 0 then FL_REPLY ||| FL_PF
            else FL_REPLY }) ∧
      d1.dataReg = d.dataReg ∧ d1.maxNocPacketSize = d.maxNocPacketSize ∧
      d1.coreId = d.coreId ∧ d1.replyLabel = d.replyLabel ∧ d1.sendXfers = d.sendXfers := by
  obtain ⟨hw, hd, ha, hnr⟩ := hmsg
  subst ha
  generalize hep : d.getRecvEp pkt.addrOffset = ep at *
  obtain ⟨i, hi, hio, hal⟩ := allocSlot_free pkt.size pkt.addrOffset ep d hvalid hfit hwr hfree
  have hrecv := recvFromNoc_ordinary pkt flags d hw hd
    (not_pfResp_of_not_reply _ hnr) hidx
  rw [hep, hal] at hrecv
  have hne : ((i : Nat) : Int) ≠ -1 := by omega
  simp only [hne, if_false, Int.toNat_ofNat] at hrecv
  generalize hd0 : d.setRecvEp pkt.addrOffset
    { ep with occupied := insert i ep.occupied, wrPos := i + 1 } = d0 at hrecv
  have hg0 : d0.getRecvEp pkt.addrOffset =
      { ep with occupied := insert i ep.occupied, wrPos := i + 1 } := by
    rw [← hd0, getRecvEp_setRecvEp]
  have hn0 : d0.numEndpoints = d.numEndpoints := by rw [← hd0]; rfl
  obtain ⟨d1, hfin, he1, hn1, hs1, _, hsx, _, _, hco, hdr, hmx, _, hrl⟩ :=
    finishMsgReceive_message pkt.addrOffset
    (ep.bufAddr + (i <<< ep.msgSize)) pkt.header
    (if flags &&& NOC_PRIV ≠ 0 then XFER_MSGRECV ||| XFER_NOPF ||| XFER_PRIV
      else XFER_MSGRECV ||| XFER_NOPF)
    { d0 with recvXfers := d0.recvXfers ++ [{
        epId := pkt.addrOffset
        localAddr := ep.bufAddr + (i <<< ep.msgSize)
        flags := if flags &&& NOC_PRIV ≠ 0 then XFER_MSGRECV ||| XFER_NOPF ||| XFER_PRIV
          else XFER_MSGRECV ||| XFER_NOPF
        header := pkt.header }] }
    (by show (d0.getRecvEp pkt.addrOffset).bufAddr ≠ 0; rw [hg0]; exact hvalid) hnr
    (by show (d0.getRecvEp pkt.addrOffset).msgCount ≠ 1 <<< (d0.getRecvEp pkt.addrOffset).size
        rw [hg0]; exact hcount)
    (by show (d0.getRecvEp pkt.addrOffset).replyEps ≠ d0.numEndpoints
        rw [hg0, hn0]; exact hrep)
  have hget2 := hg0
  simp only [State.getRecvEp] at hget2
  refine ⟨i, d1, hi, hio, ?_, ?_, ?_, ?_, ?_, ?_, ?_, ?_, ?_, ?_⟩
  · unfold deliver
    rw [hrecv]
    have hlen : d0.recvXfers.length = d.recvXfers.length := by rw [← hd0]; rfl
    simp only [← hlen, List.drop_left]
    exact hfin
  · simp only [State.getRecvEp, he1, Function.update_same, hget2, slot_of_addr]
  · rw [hn1]; exact hn0
  · rw [hs1, ← hd0]; rfl
  · intro hlay
    simp only [State.getSendEp, State.getRecvEp, he1, hget2, slot_of_addr, Function.update,
      hlay, dite_false, dite_true]
    simp
  · rw [hdr, ← hd0]; rfl
  · rw [hmx, ← hd0]; rfl
  · rw [hco, ← hd0]; rfl
  · rw [hrl, ← hd0]; rfl
  · rw [hsx, ← hd0]; rfl

/-- A ring whose occupied slots all lie inside it and are fewer than its capacity has a free
slot. -/
theorem exists_free_slot (ep : RecvEp) (hcard : ep.occupied.card < 1 <<< ep.size) :
    ∃ i, i < 1 <<< ep.size ∧ ep.isOccupied i = false := by
  by_contra hcon
  have hsub : Finset.range (1 <<< ep.size) ⊆ ep.occupied := by
    intro i hi
    by_contra hni
    exact hcon ⟨i, Finset.mem_range.mp hi, by simp [RecvEp.isOccupied, hni]⟩
  have := Finset.card_le_card hsub
  rw [Finset.card_range] at this
  omega

/-- A ring with as many occupied slots as its capacity, all inside it, has every slot
occupied. -/
theorem all_occupied_of_card (ep : RecvEp) (hrange : ∀ i ∈ ep.occupied, i < 1 <<< ep.size)
    (hcard : ep.occupied.card = 1 <<< ep.size) :
    ∀ i, i < 1 <<< ep.size → ep.isOccupied i = true := by
  have hsub : ep.occupied ⊆ Finset.range (1 <<< ep.size) := by
    intro i hi
    exact Finset.mem_range.mpr (hrange i hi)
  have heq := Finset.eq_of_subset_of_card_le hsub (by rw [Finset.card_range, hcard])
  intro i hi
  simp [RecvEp.isOccupied, heq, hi]

/-- An ordinary message that arrives at a ring whose slots are all occupied is dropped:
`recvFromNoc` returns `NO_RING_SPACE`, counts the drop, answers the NoC packet, and changes
nothing else. -/
theorem recvFromNoc_drop (pkt : Packet) (flags epId : Nat) (d : State)
    (hmsg : isMessageFor epId pkt) (hidx : epId < d.numEndpoints)
    (hfit : pkt.size ≤ 1 <<< (d.getRecvEp epId).msgSize)
    (hwr : (d.getRecvEp epId).wrPos ≤ 1 <<< (d.getRecvEp epId).size)
    (hfull : ∀ i, i < 1 <<< (d.getRecvEp epId).size → (d.getRecvEp epId).isOccupied i = true) :
    recvFromNoc pkt flags d = some (Error.NO_RING_SPACE,
      { d with noSpace := d.noSpace + 1, nocResponses := d.nocResponses + 1 }) := by
  obtain ⟨hw, hd, ha, hnr⟩ := hmsg
  subst ha
  rw [recvFromNoc_ordinary pkt flags d hw hd (not_pfResp_of_not_reply _ hnr) hidx,
    allocSlot_full pkt.size pkt.addrOffset _ d (fun _ => hfit) hwr hfull]
  simp

/-- Ordinary messages delivered one after the other into a ring with enough free slots are
all accepted; each takes one more slot and raises `msgCount` by one. -/
theorem deliverAll_fill (flags epId : Nat) (pkts : List Packet) :
    ∀ d : State, epId < d.numEndpoints → (d.getRecvEp epId).bufAddr ≠ 0 →
      (d.getRecvEp epId).replyEps ≠ d.numEndpoints →
      (d.getRecvEp epId).wrPos ≤ 1 <<< (d.getRecvEp epId).size →
      (∀ i ∈ (d.getRecvEp epId).occupied, i < 1 <<< (d.getRecvEp epId).size) →
      (d.getRecvEp epId).msgCount = (d.getRecvEp epId).occupied.card →
      (d.getRecvEp epId).occupied.card + pkts.length ≤ 1 <<< (d.getRecvEp epId).size →
      (∀ p ∈ pkts, isMessageFor epId p ∧ p.size ≤ 1 <<< (d.getRecvEp epId).msgSize) →
      ∃ d1, deliverAll flags pkts d = some (List.replicate pkts.length Error.NONE, d1) ∧
        (d1.getRecvEp epId).bufAddr = (d.getRecvEp epId).bufAddr ∧
        (d1.getRecvEp epId).msgSize = (d.getRecvEp epId).msgSize ∧
        (d1.getRecvEp epId).size = (d.getRecvEp epId).size ∧
        (d1.getRecvEp epId).replyEps = (d.getRecvEp epId).replyEps ∧
        (d1.getRecvEp epId).wrPos ≤ 1 <<< (d.getRecvEp epId).size ∧
        (∀ i ∈ (d1.getRecvEp epId).occupied, i < 1 <<< (d.getRecvEp epId).size) ∧
        (d1.getRecvEp epId).occupied.card = (d.getRecvEp epId).occupied.card + pkts.length ∧
        (d1.getRecvEp epId).msgCount = (d1.getRecvEp epId).occupied.card ∧
        d1.numEndpoints = d.numEndpoints ∧ d1.noSpace = d.noSpace := by
  induction pkts with
  | nil =>
    intro d _ _ _ hwr hrange hcnt _ _
    exact ⟨d, rfl, rfl, rfl, rfl, rfl, hwr, hrange, rfl, hcnt, rfl, rfl⟩
  | cons p ps ih =>
    intro d hidx hvalid hrep hwr hrange hcnt hroom hall
    have hlen : (p :: ps).length = ps.length + 1 := rfl
    rw [hlen] at hroom
    obtain ⟨hp, hpfit⟩ := hall p (List.mem_cons_self _ _)
    obtain ⟨i, d1, hi, hio, hdel, hg, hn, hs, _⟩ := deliver_message p flags epId d hp hidx hvalid
      hpfit hwr hrep (by omega) (exists_free_slot _ (by omega))
    have hcard1 : (d1.getRecvEp epId).occupied.card = (d.getRecvEp epId).occupied.card + 1 := by
      rw [hg]
      exact Finset.card_insert_of_not_mem hio
    obtain ⟨d2, h1, h2, h3, h4, h5, h6, h7, h8, h9, h10, h11⟩ := ih d1 (by rw [hn]; exact hidx)
      (by rw [hg]; exact hvalid) (by rw [hg, hn]; exact hrep)
      (by rw [hg]; show i + 1 ≤ 1 <<< (d.getRecvEp epId).size; omega)
      (by
        rw [hg]
        intro j hj
        rcases Finset.mem_insert.mp hj with h | h
        · rw [h]; exact hi
        · exact hrange j h)
      (by rw [hcard1, hg]; show (d.getRecvEp epId).msgCount + 1 = _; omega)
      (by rw [hcard1, hg]; show _ ≤ 1 <<< (d.getRecvEp epId).size; omega)
      (by
        intro q hq
        rw [hg]
        exact hall q (List.mem_cons_of_mem _ hq))
    rw [hg] at h2 h3 h4 h5 h6 h7
    refine ⟨d2, ?_, h2, h3, h4, h5, h6, h7, ?_, h9, ?_, ?_⟩
    · simp only [deliverAll, hdel, h1, hlen, List.replicate_succ]
    · rw [h8, hcard1, hlen]
      omega
    · rw [h10, hn]
    · rw [h11, hs]

/-- C10: an ordinary message that `recvFromNoc` takes for a receive endpoint whose `1 << size`
slots are all occupied is answered with `NO_RING_SPACE`; `noSpace` goes up by one, no receive
transfer is started, and the endpoint registers (with `msgCount`, the occupied and unread bits
and `wrPos`) stay as they are.  Hence, of `N + 1` ordinary messages delivered into an empty
ring of capacity `N = 1 << size`, the first `N` are accepted and the last one is dropped, with
`noSpace` one higher and `msgCount = N`. -/
theorem recvFromNoc_full_ring (flags epId : Nat) (d : State) (hidx : epId < d.numEndpoints)
    (hwr : (d.getRecvEp epId).wrPos ≤ 1 <<< (d.getRecvEp epId).size) :
    (∀ pkt, isMessageFor epId pkt → pkt.size ≤ 1 <<< (d.getRecvEp epId).msgSize →
      (∀ i, i < 1 <<< (d.getRecvEp epId).size → (d.getRecvEp epId).isOccupied i = true) →
      ∃ d1, recvFromNoc pkt flags d = some (Error.NO_RING_SPACE, d1) ∧
        d1 = { d with noSpace := d.noSpace + 1, nocResponses := d.nocResponses + 1 } ∧
        d1.noSpace = d.noSpace + 1 ∧ d1.recvXfers = d.recvXfers ∧ d1.eps = d.eps ∧
        d1.getRecvEp epId = d.getRecvEp epId) ∧
    (∀ pkts pkt, (d.getRecvEp epId).bufAddr ≠ 0 →
      (d.getRecvEp epId).replyEps ≠ d.numEndpoints →
      (d.getRecvEp epId).occupied = ∅ → (d.getRecvEp epId).msgCount = 0 →
      pkts.length = 1 <<< (d.getRecvEp epId).size →
      (∀ p ∈ pkt :: pkts, isMessageFor epId p ∧ p.size ≤ 1 <<< (d.getRecvEp epId).msgSize) →
      ∃ d1 d2, deliverAll flags pkts d
          = some (List.replicate (1 <<< (d.getRecvEp epId).size) Error.NONE, d1) ∧
        (d1.getRecvEp epId).msgCount = 1 <<< (d.getRecvEp epId).size ∧
        d1.noSpace = d.noSpace ∧
        deliver pkt flags d1 = some (Error.NO_RING_SPACE, d2) ∧
        d2.noSpace = d.noSpace + 1 ∧
        (d2.getRecvEp epId).msgCount = 1 <<< (d.getRecvEp epId).size ∧
        d2.getRecvEp epId = d1.getRecvEp epId) := by
  constructor
  · intro pkt hmsg hfit hfull
    exact ⟨_, recvFromNoc_drop pkt flags epId d hmsg hidx hfit hwr hfull, rfl, rfl, rfl, rfl,
      rfl⟩
  · intro pkts pkt hvalid hrep hemp hcnt hlen hall
    obtain ⟨d1, h1, h2, h3, h4, h5, h6, h7, h8, h9, h10, h11⟩ :=
      deliverAll_fill flags epId pkts d hidx hvalid hrep hwr
        (by rw [hemp]; intro i hi; exact absurd hi (Finset.not_mem_empty i))
        (by rw [hemp, hcnt]; rfl)
        (by rw [hemp, hlen]; simp)
        (fun p hp => hall p (List.mem_cons_of_mem _ hp))
    rw [hemp, Finset.card_empty, Nat.zero_add, hlen] at h8
    obtain ⟨hp, hpfit⟩ := hall pkt (List.mem_cons_self _ _)
    have hdrop := recvFromNoc_drop pkt flags epId d1 hp (by rw [h10]; exact hidx)
      (by rw [h3]; exact hpfit) (by rw [h4]; exact h6)
      (all_occupied_of_card _ (by rw [h4]; exact h7) (by rw [h4]; exact h8))
    refine ⟨d1, { d1 with noSpace := d1.noSpace + 1, nocResponses := d1.nocResponses + 1 },
      ?_, ?_, h11, ?_, ?_, ?_, rfl⟩
    · rw [h1, hlen]
    · rw [h9, h8]
    · unfold deliver
      rw [hdrop]
      simp
    · show d1.noSpace + 1 = _
      rw [h11]
    · show (d1.getRecvEp epId).msgCount = _
      rw [h9, h8]

/-- C10 in the third scenario of the spec: three messages for B.EP4, whose ring has two slots;
the third is dropped, `noSpace` is 1 and `msgCount` is 2. -/
theorem recvFromNoc_full_ring_witness :
    ∃ d1 d2, deliverAll 0 [Scenario.msgPacket, Scenario.msgPacket] (Scenario.tileB 0 ∅ ∅ 0)
        = some ([Error.NONE, Error.NONE], d1) ∧
      deliver Scenario.msgPacket 0 d1 = some (Error.NO_RING_SPACE, d2) ∧
      d2.noSpace = 1 ∧ (d2.getRecvEp 4).msgCount = 2 := by
  obtain ⟨d1, d2, h1, _, _, h4, h5, h6, _⟩ :=
    (recvFromNoc_full_ring 0 4 (Scenario.tileB 0 ∅ ∅ 0) (by decide) (by decide)).2
      [Scenario.msgPacket, Scenario.msgPacket] Scenario.msgPacket
      (by decide) (by decide) (by decide) (by decide) (by decide) (by decide)
  exact ⟨d1, d2, h1, h4, h5, h6⟩

/-! ## Replies -/

/-- A REPLY whose reply endpoint is invalid, or not marked as a reply endpoint, finishes with
`INV_EP` and does nothing else. -/
theorem startTransmission_reply_invalid (cmd : Command) (d : State) (hop : cmd.opcode = REPLY)
    (hinv : (d.getSendEp ((d.getRecvEp cmd.epid).replyEps +
        (d.getRecvEp cmd.epid).msgToIdx cmd.arg)).maxMsgSize = 0 ∨
      (d.getSendEp ((d.getRecvEp cmd.epid).replyEps +
        (d.getRecvEp cmd.epid).msgToIdx cmd.arg)).flags &&& FL_REPLY = 0) :
    startTransmission cmd d = some (d.scheduleFinishOp Error.INV_EP) := by
  unfold startTransmission
  rw [if_pos hop]
  by_cases hr : (d.getRecvEp cmd.epid).replyEps = d.numEndpoints
  · simp only [hr, if_true]
  · simp only [if_neg hr]
    rw [if_pos hinv]

/-- A REPLY over a valid reply endpoint `sep` with a credit: the credit is paid and a transfer
is started whose header carries `REPLY | GRANT_CREDITS` and, as `replyEpId`, the `crdEp` of the
reply endpoint. -/
theorem startTransmission_reply (cmd : Command) (d : State) (rep : Nat)
    (hop : cmd.opcode = REPLY)
    (hrep : (d.getRecvEp cmd.epid).replyEps ≠ d.numEndpoints)
    (hrepid : (d.getRecvEp cmd.epid).replyEps + (d.getRecvEp cmd.epid).msgToIdx cmd.arg = rep)
    (hvalid : (d.getSendEp rep).maxMsgSize ≠ 0)
    (hfl : (d.getSendEp rep).flags &&& FL_REPLY ≠ 0)
    (hcrd : (d.getSendEp rep).curcrd = 1)
    (hfit : d.dataReg.size + sizeofMessageHeader ≤ 1 <<< (d.getSendEp rep).maxMsgSize)
    (hnoc : d.dataReg.size + sizeofMessageHeader ≤ d.maxNocPacketSize) :
    ∃ info : Info, startTransmission cmd d = some { d with
      eps := Function.update d.eps rep (Ep.send { d.getSendEp rep with curcrd := 0 })
      info := info
      sendXfers := d.sendXfers ++ [{
        addr := d.dataReg.addr
        size := d.dataReg.size
        flags := XFER_MESSAGE
        targetCoreId := (d.getSendEp rep).targetCore
        targetEpId := (d.getSendEp rep).targetEp
        header := {
          flags := (REPLY_FLAG ||| GRANT_CREDITS_FLAG) |||
            (if (d.getSendEp rep).flags &&& FL_PF ≠ 0 then
              REPLY_FLAG ||| GRANT_CREDITS_FLAG ||| PAGEFAULT
            else REPLY_FLAG ||| GRANT_CREDITS_FLAG)
          senderCoreId := d.coreId
          senderEpId := cmd.epid
          replyEpId := (d.getSendEp rep).crdEp
          length := d.dataReg.size
          label := (d.getSendEp rep).label
          replyLabel := d.replyLabel
          replySize := 0 } }] } := by
  have hrs : ¬ REPLY = SEND := by decide
  have h1u : ¬ (1 : Nat) = CREDITS_UNLIM := by decide
  have h0u : ¬ (0 : Nat) = CREDITS_UNLIM := by decide
  unfold startTransmission
  rw [if_pos hop]
  simp only [if_neg hrep, hrepid]
  rw [if_neg (by simp [hvalid, hfl])]
  unfold payAndStart
  generalize hsep : d.getSendEp rep = sep at *
  have hg : ∀ (x : Info), ({ d with info := x } : State).getSendEp rep = sep := fun _ => hsep
  simp only [hg, if_neg hvalid, hcrd]
  simp [h1u, h0u, hfit, hop, hrs, startXfer, State.setSendEp, hnoc]

/-- The slot of a valid send endpoint is not the slot of a valid receive endpoint. -/
theorem send_ne_recv (d : State) (s r : Nat) (hs : (d.getSendEp s).maxMsgSize ≠ 0)
    (hr : (d.getRecvEp r).bufAddr ≠ 0) : s ≠ r := by
  intro h
  subst h
  have h1 := send_slot_of_valid d s hs
  have h2 := recv_slot_of_valid d s hr
  rw [h1] at h2
  exact Ep.noConfusion h2

/-- C9: reply endpoints are use-once.  Take a receive endpoint with reply endpoints that holds
a received message in slot `i`, with the reply endpoint `replyEps + i` as `finishMsgReceive`
installs it (valid, marked as reply endpoint, one credit).  The first REPLY for the message is
launched; once `finishMsgReply` has run for it (with whatever error), the reply endpoint is
invalid, and a second REPLY with the same endpoint and message address finishes with `INV_EP`,
changes no register (pays no credit) and starts no transfer. -/
theorem reply_use_once (cmd : Command) (error : Error) (d : State) (i : Nat)
    (hop : cmd.opcode = REPLY)
    (hvalid : (d.getRecvEp cmd.epid).bufAddr ≠ 0)
    (hrep : (d.getRecvEp cmd.epid).replyEps ≠ d.numEndpoints)
    (hidx : (d.getRecvEp cmd.epid).msgToIdx cmd.arg = i) (hmax : i ≠ MAX_MSGS)
    (hocc : i ∈ (d.getRecvEp cmd.epid).occupied)
    (hsv : (d.getSendEp ((d.getRecvEp cmd.epid).replyEps + i)).maxMsgSize ≠ 0)
    (hfl : (d.getSendEp ((d.getRecvEp cmd.epid).replyEps + i)).flags &&& FL_REPLY ≠ 0)
    (hcrd : (d.getSendEp ((d.getRecvEp cmd.epid).replyEps + i)).curcrd = 1)
    (hfit : d.dataReg.size + sizeofMessageHeader
      ≤ 1 <<< (d.getSendEp ((d.getRecvEp cmd.epid).replyEps + i)).maxMsgSize)
    (hnoc : d.dataReg.size + sizeofMessageHeader ≤ d.maxNocPacketSize) :
    ∃ d1 d3, startTransmission cmd d = some d1 ∧
      d1.sendXfers.length = d.sendXfers.length + 1 ∧ d1.finishOps = d.finishOps ∧
      (finishMsgReply error cmd.epid cmd.arg d1).eps
        ((d.getRecvEp cmd.epid).replyEps + i) = Ep.invalid ∧
      startTransmission cmd (finishMsgReply error cmd.epid cmd.arg d1) = some d3 ∧
      d3.finishOps = d.finishOps ++ [Error.INV_EP] ∧
      d3.sendXfers = d1.sendXfers ∧
      d3.eps = (finishMsgReply error cmd.epid cmd.arg d1).eps := by
  generalize hep : d.getRecvEp cmd.epid = ep at *
  generalize hrp : ep.replyEps + i = rep at *
  have hne : rep ≠ cmd.epid := send_ne_recv d rep cmd.epid hsv (by rw [hep]; exact hvalid)
  obtain ⟨info, h1⟩ := startTransmission_reply cmd d rep hop (by rw [hep]; exact hrep)
    (by rw [hep, hidx]; exact hrp) hsv hfl hcrd hfit hnoc
  generalize hd1 : ({ d with
    eps := Function.update d.eps rep (Ep.send { d.getSendEp rep with curcrd := 0 })
    info := info
    sendXfers := d.sendXfers ++ [_] } : State) = d1 at h1
  have hg1 : d1.getRecvEp cmd.epid = ep := by
    rw [← hd1, ← hep]
    simp [State.getRecvEp, Function.update, Ne.symm hne]
  have hn1 : d1.numEndpoints = d.numEndpoints := by rw [← hd1]
  have hack := ackMessage_result cmd.epid cmd.arg i d1 (by rw [hg1]; exact hvalid)
    (by rw [hg1]; exact hidx) hmax (by rw [hg1]; exact hocc)
  rw [hg1, hn1, if_pos hrep, hrp] at hack
  have hreply : finishMsgReply error cmd.epid cmd.arg d1 = (d1.invalidate rep).setRecvEp cmd.epid
      { ep with
        occupied := ep.occupied.erase i
        unread := ep.unread.erase i
        msgCount := if i ∈ ep.unread then decMsgCount ep.msgCount else ep.msgCount } := by
    unfold finishMsgReply
    rw [hack]
  generalize hd2 : finishMsgReply error cmd.epid cmd.arg d1 = d2 at *
  have hg2 : d2.getRecvEp cmd.epid = { ep with
        occupied := ep.occupied.erase i
        unread := ep.unread.erase i
        msgCount := if i ∈ ep.unread then decMsgCount ep.msgCount else ep.msgCount } := by
    rw [hreply, getRecvEp_setRecvEp]
  have hslot : d2.eps rep = Ep.invalid := by
    rw [hreply]
    simp [State.setRecvEp, State.invalidate, Function.update, hne]
  have hidx2 : (d2.getRecvEp cmd.epid).replyEps + (d2.getRecvEp cmd.epid).msgToIdx cmd.arg
      = rep := by
    rw [hg2, ← hrp, ← hidx]
    rfl
  have h3 := startTransmission_reply_invalid cmd d2 hop (Or.inl (by
    rw [hidx2]
    simp [State.getSendEp, hslot, SendEp.zero]))
  refine ⟨d1, d2.scheduleFinishOp Error.INV_EP, h1, ?_, ?_, ?_, ?_, ?_, ?_, ?_⟩
  · rw [← hd1]; simp
  · rw [← hd1]
  · rw [hd2]; exact hslot
  · rw [hd2]; exact h3
  · show d2.finishOps ++ [Error.INV_EP] = _
    rw [hreply, ← hd1]
    rfl
  · show d2.sendXfers = _
    rw [hreply]
    rfl
  · rw [hd2]
    rfl

/-- C9 on tile B after one message from A.EP2 went into slot 0 of EP4: the first REPLY goes
out, the second one finishes with `INV_EP`. -/
theorem reply_use_once_witness :
    ∃ b1 d1 d3, deliver Scenario.msgPacket 0 (Scenario.tileB 0 ∅ ∅ 0) = some (Error.NONE, b1) ∧
      startTransmission ⟨REPLY, 4, 0x1000⟩ b1 = some d1 ∧
      startTransmission ⟨REPLY, 4, 0x1000⟩ (finishMsgReply Error.NONE 4 0x1000 d1) = some d3 ∧
      d3.finishOps = [Error.INV_EP] ∧ d3.sendXfers = d1.sendXfers := by
  have hb : ∃ b1, deliver Scenario.msgPacket 0 (Scenario.tileB 0 ∅ ∅ 0) = some (Error.NONE, b1)
      ∧ b1.getRecvEp 4 = Scenario.recvEpB 1 {0} {0} 1
      ∧ b1.getSendEp 5 = ⟨FL_REPLY, 0, 3, 2, 1, 1, 6, 0xB⟩
      ∧ b1.numEndpoints = 16 ∧ b1.dataReg = ⟨0x500, 8⟩ ∧ b1.maxNocPacketSize = 512
      ∧ b1.finishOps = [] := by
    refine ⟨_, rfl, ?_, ?_, rfl, rfl, rfl, rfl⟩
    · simp [State.getRecvEp, Scenario.recvEpB, Scenario.tileB, Scenario.tile]
      decide
    · simp [State.getSendEp, Scenario.recvEpB, Scenario.tileB, Scenario.tile, Function.update]
      decide
  obtain ⟨b1, hdel, hr, hs, hn, hdr, hmx, hfo⟩ := hb
  obtain ⟨d1, d3, h1, _, _, _, h5, h6, h7, _⟩ :=
    reply_use_once ⟨REPLY, 4, 0x1000⟩ Error.NONE b1 0 rfl
      (by rw [hr]; decide) (by rw [hr, hn]; decide) (by rw [hr]; decide) (by decide)
      (by rw [hr]; decide) (by rw [hr]; show (b1.getSendEp 5).maxMsgSize ≠ 0; rw [hs]; decide)
      (by rw [hr]; show (b1.getSendEp 5).flags &&& FL_REPLY ≠ 0; rw [hs]; decide)
      (by rw [hr]; show (b1.getSendEp 5).curcrd = 1; rw [hs])
      (by rw [hr, hdr]; show _ ≤ 1 <<< (b1.getSendEp 5).maxMsgSize; rw [hs]; decide)
      (by rw [hdr, hmx]; decide)
  rw [hfo] at h6
  exact ⟨b1, d1, d3, hdel, h1, h5, h6, h7⟩

/-- A receive that completes without error for a reply that grants credits: the credit goes
back to the send endpoint named in the header, and the only other register written is the
receive endpoint itself. -/
theorem finishMsgReceive_reply (epId msgAddr : Nat) (header : MessageHeader) (xferFlags : Nat)
    (d dc : State) (hvalid : (d.getRecvEp epId).bufAddr ≠ 0)
    (hr : header.flags &&& REPLY_FLAG ≠ 0) (hg : header.flags &&& GRANT_CREDITS_FLAG ≠ 0)
    (hre : header.replyEpId < d.numEndpoints)
    (hcred : recvCredits header.replyEpId d = some dc) :
    ∃ d1, finishMsgReceive epId msgAddr header Error.NONE xferFlags d = some (Error.NONE, d1) ∧
      ∀ n, n ≠ epId → d1.eps n = dc.eps n := by
  unfold finishMsgReceive
  simp only [if_neg hvalid, if_true]
  rw [if_pos ⟨hr, hg, hre⟩, hcred]
  simp only
  by_cases hc : (d.getRecvEp epId).msgCount = 1 <<< (d.getRecvEp epId).size
  · rw [if_pos hc]
    exact ⟨dc, rfl, fun _ _ => rfl⟩
  · rw [if_neg hc, if_neg hr]
    simp only
    by_cases hq : dc.irqOnMsg = true
    · refine ⟨_, rfl, ?_⟩
      intro n hn
      simp [State.setRecvEp, hq, Function.update, hn]
    · refine ⟨_, rfl, ?_⟩
      intro n hn
      simp [State.setRecvEp, hq, Function.update, hn]

/-- A reply that grants credits, delivered into a ring with a free slot: the send endpoint
named by `replyEpId` gets one credit back. -/
theorem deliver_reply (pkt : Packet) (flags epId : Nat) (d : State)
    (hw : pkt.isWrite = true) (hd : pkt.hasData = true) (ha : pkt.addrOffset = epId)
    (hr : pkt.header.flags &&& REPLY_FLAG ≠ 0)
    (hg : pkt.header.flags &&& GRANT_CREDITS_FLAG ≠ 0)
    (hpf : pkt.header.flags &&& (REPLY_FLAG ||| PAGEFAULT) ≠ REPLY_FLAG ||| PAGEFAULT)
    (hidx : epId < d.numEndpoints) (hre : pkt.header.replyEpId < d.numEndpoints)
    (hvalid : (d.getRecvEp epId).bufAddr ≠ 0)
    (hfit : pkt.size ≤ 1 <<< (d.getRecvEp epId).msgSize)
    (hwr : (d.getRecvEp epId).wrPos ≤ 1 <<< (d.getRecvEp epId).size)
    (hfree : ∃ i, i < 1 <<< (d.getRecvEp epId).size ∧ (d.getRecvEp epId).isOccupied i = false)
    (hsv : (d.getSendEp pkt.header.replyEpId).maxMsgSize ≠ 0)
    (hlim : (d.getSendEp pkt.header.replyEpId).curcrd ≠ CREDITS_UNLIM)
    (hlt : (d.getSendEp pkt.header.replyEpId).curcrd
      < (d.getSendEp pkt.header.replyEpId).maxcrd) :
    ∃ d1, deliver pkt flags d = some (Error.NONE, d1) ∧
      d1.getSendEp pkt.header.replyEpId = { d.getSendEp pkt.header.replyEpId with
        curcrd := (d.getSendEp pkt.header.replyEpId).curcrd + 1 } := by
  subst ha
  have hsne : pkt.header.replyEpId ≠ pkt.addrOffset := send_ne_recv d _ _ hsv hvalid
  generalize hep : d.getRecvEp pkt.addrOffset = ep at *
  obtain ⟨i, hi, hio, hal⟩ := allocSlot_free pkt.size pkt.addrOffset ep d hvalid hfit hwr hfree
  have hrecv := recvFromNoc_ordinary pkt flags d hw hd hpf hidx
  rw [hep, hal] at hrecv
  have hne : ((i : Nat) : Int) ≠ -1 := by omega
  simp only [hne, if_false, Int.toNat_ofNat] at hrecv
  have hsame : (d.setRecvEp pkt.addrOffset
      { ep with occupied := insert i ep.occupied, wrPos := i + 1 }).getSendEp
        pkt.header.replyEpId = d.getSendEp pkt.header.replyEpId :=
    getSendEp_setRecvEp d pkt.addrOffset _ _ (by rw [hep]; exact hvalid)
  generalize hd0 : d.setRecvEp pkt.addrOffset
    { ep with occupied := insert i ep.occupied, wrPos := i + 1 } = d0 at hrecv hsame
  have hg0 : d0.getRecvEp pkt.addrOffset =
      { ep with occupied := insert i ep.occupied, wrPos := i + 1 } := by
    rw [← hd0, getRecvEp_setRecvEp]
  have hn0 : d0.numEndpoints = d.numEndpoints := by rw [← hd0]; rfl
  generalize hdx : ({ d0 with recvXfers := d0.recvXfers ++ [{
        epId := pkt.addrOffset
        localAddr := ep.bufAddr + (i <<< ep.msgSize)
        flags := if flags &&& NOC_PRIV ≠ 0 then XFER_MSGRECV ||| XFER_NOPF ||| XFER_PRIV
          else XFER_MSGRECV ||| XFER_NOPF
        header := pkt.header }] } : State) = dx at hrecv
  have hsx : dx.getSendEp pkt.header.replyEpId = d.getSendEp pkt.header.replyEpId := by
    rw [← hdx, ← hsame]
    rfl
  have hgx : dx.getRecvEp pkt.addrOffset = d0.getRecvEp pkt.addrOffset := by
    rw [← hdx]
    rfl
  have hnx : dx.numEndpoints = d.numEndpoints := by rw [← hdx]; exact hn0
  have hcred := recvCredits_inc pkt.header.replyEpId dx (by rw [hsx]; exact hlim)
    (by rw [hsx]; exact hlt)
  obtain ⟨d1, hfin, hframe⟩ := finishMsgReceive_reply pkt.addrOffset
    (ep.bufAddr + (i <<< ep.msgSize)) pkt.header
    (if flags &&& NOC_PRIV ≠ 0 then XFER_MSGRECV ||| XFER_NOPF ||| XFER_PRIV
      else XFER_MSGRECV ||| XFER_NOPF) dx _
    (by rw [hgx, hg0]; exact hvalid) hr hg (by rw [hnx]; exact hre) hcred
  refine ⟨d1, ?_, ?_⟩
  · unfold deliver
    rw [hrecv]
    have hlen : dx.recvXfers = d.recvXfers ++ [{
        epId := pkt.addrOffset
        localAddr := ep.bufAddr + (i <<< ep.msgSize)
        flags := if flags &&& NOC_PRIV ≠ 0 then XFER_MSGRECV ||| XFER_NOPF ||| XFER_PRIV
          else XFER_MSGRECV ||| XFER_NOPF
        header := pkt.header }] := by
      rw [← hdx, ← hd0]
      rfl
    simp only [hlen, List.drop_left]
    exact hfin
  · have h1 := hframe pkt.header.replyEpId hsne
    simp only [State.getSendEp, h1]
    have h2 := getSendEp_setSendEp dx pkt.header.replyEpId
      { dx.getSendEp pkt.header.replyEpId with
        curcrd := (dx.getSendEp pkt.header.replyEpId).curcrd + 1 }
    simp only [State.getSendEp] at h2 hsx
    rw [h2, hsx]

/-- The address `bufAddr + (i << msgSize)` of slot `i` maps back to `i`. -/
theorem msgToIdx_slot (ep : RecvEp) (i : Nat) (hi : i < 1 <<< ep.size) :
    ep.msgToIdx (ep.bufAddr + (i <<< ep.msgSize)) = i := by
  unfold RecvEp.msgToIdx
  rw [if_neg (Nat.not_lt.mpr (Nat.le_add_right _ _))]
  simp only [slot_of_addr, if_pos hi]

/-- C3: the reply round trip.  Tile A launches a SEND over a valid send endpoint `s = cmd.epid`
with `c ≥ 1` limited credits; tile B takes the message into a free slot `i` of the target
receive endpoint and installs the reply endpoint with `crdEp = s`; B launches the REPLY for
that message, whose header carries `REPLY | GRANT_CREDITS` and `replyEpId = s`; A takes the
reply into the receive endpoint `cmd.arg`.  Every step goes through, and afterwards `s` holds
`c` credits again. -/
theorem reply_returns_credit (cmd : Command) (a b : State) (flagsA flagsB c : Nat)
    (hop : cmd.opcode = SEND) (hs : cmd.epid < a.numEndpoints)
    (hsv : (a.getSendEp cmd.epid).maxMsgSize ≠ 0)
    (hc : (a.getSendEp cmd.epid).curcrd = c) (hpos : 1 ≤ c) (hlim : c ≠ CREDITS_UNLIM)
    (hfield : c ≤ CREDITS_UNLIM) (hmax : c ≤ (a.getSendEp cmd.epid).maxcrd)
    (hfitA : a.dataReg.size + sizeofMessageHeader ≤ 1 <<< (a.getSendEp cmd.epid).maxMsgSize)
    (hnocA : a.dataReg.size + sizeofMessageHeader ≤ a.maxNocPacketSize)
    (hra : cmd.arg < a.numEndpoints) (hrav : (a.getRecvEp cmd.arg).bufAddr ≠ 0)
    (hramsg : (a.getRecvEp cmd.arg).msgSize ≠ 0)
    (hrawr : (a.getRecvEp cmd.arg).wrPos ≤ 1 <<< (a.getRecvEp cmd.arg).size)
    (hrafree : ∃ j, j < 1 <<< (a.getRecvEp cmd.arg).size ∧
      (a.getRecvEp cmd.arg).isOccupied j = false)
    (hfitB : b.dataReg.size + sizeofMessageHeader ≤ 1 <<< (a.getRecvEp cmd.arg).msgSize)
    (hnocB : b.dataReg.size + sizeofMessageHeader ≤ b.maxNocPacketSize)
    (hrb : (a.getSendEp cmd.epid).targetEp < b.numEndpoints)
    (hrbv : (b.getRecvEp (a.getSendEp cmd.epid).targetEp).bufAddr ≠ 0)
    (hrbfit : a.dataReg.size + sizeofMessageHeader
      ≤ 1 <<< (b.getRecvEp (a.getSendEp cmd.epid).targetEp).msgSize)
    (hrbwr : (b.getRecvEp (a.getSendEp cmd.epid).targetEp).wrPos
      ≤ 1 <<< (b.getRecvEp (a.getSendEp cmd.epid).targetEp).size)
    (hrbrep : (b.getRecvEp (a.getSendEp cmd.epid).targetEp).replyEps ≠ b.numEndpoints)
    (hrbcount : (b.getRecvEp (a.getSendEp cmd.epid).targetEp).msgCount
      ≠ 1 <<< (b.getRecvEp (a.getSendEp cmd.epid).targetEp).size)
    (hrbfree : ∃ j, j < 1 <<< (b.getRecvEp (a.getSendEp cmd.epid).targetEp).size ∧
      (b.getRecvEp (a.getSendEp cmd.epid).targetEp).isOccupied j = false)
    (hrblay : ∀ j, j < 1 <<< (b.getRecvEp (a.getSendEp cmd.epid).targetEp).size →
      (b.getRecvEp (a.getSendEp cmd.epid).targetEp).replyEps + j
        ≠ (a.getSendEp cmd.epid).targetEp) :
    ∃ a1 x i b1 b2 y a2,
      startTransmission cmd a = some a1 ∧ a1.sendXfers = a.sendXfers ++ [x] ∧
      (a1.getSendEp cmd.epid).curcrd = c - 1 ∧
      deliver (toPacket x) flagsB b = some (Error.NONE, b1) ∧
      i < 1 <<< (b.getRecvEp (a.getSendEp cmd.epid).targetEp).size ∧
      (b1.getSendEp ((b.getRecvEp (a.getSendEp cmd.epid).targetEp).replyEps + i)).crdEp
        = cmd.epid ∧
      startTransmission ⟨REPLY, (a.getSendEp cmd.epid).targetEp,
        (b.getRecvEp (a.getSendEp cmd.epid).targetEp).bufAddr
          + (i <<< (b.getRecvEp (a.getSendEp cmd.epid).targetEp).msgSize)⟩ b1 = some b2 ∧
      b2.sendXfers = b1.sendXfers ++ [y] ∧ y.header.replyEpId = cmd.epid ∧
      y.header.flags = REPLY_FLAG ||| GRANT_CREDITS_FLAG ∧ y.targetEpId = cmd.arg ∧
      deliver (toPacket y) flagsA a1 = some (Error.NONE, a2) ∧
      (a2.getSendEp cmd.epid).curcrd = c := by
  generalize hsep : a.getSendEp cmd.epid = sep at *
  generalize hrepA : a.getRecvEp cmd.arg = rA at *
  generalize hrepB : b.getRecvEp sep.targetEp = rB at *
  have hcm1 : c - 1 ≠ CREDITS_UNLIM := by
    unfold CREDITS_UNLIM at *
    omega
  -- step 1: A launches the SEND
  obtain ⟨infoA, h1⟩ := startTransmission_send cmd a hop (by rw [hsep]; exact hsv)
    (by rw [hsep, hc]; omega) (by rw [hsep]; exact hfitA) hnocA
  rw [hsep, hrepA, hc, if_pos hlim, if_neg (by simp [hlim, hcm1])] at h1
  generalize hx : ({
        addr := a.dataReg.addr
        size := a.dataReg.size
        flags := XFER_MESSAGE
        targetCoreId := sep.targetCore
        targetEpId := sep.targetEp
        header := {
          flags := REPLY_ENABLED
          senderCoreId := a.coreId
          senderEpId := cmd.epid
          replyEpId := cmd.arg
          length := a.dataReg.size
          label := sep.label
          replyLabel := a.replyLabel
          replySize := rA.msgSize } } : SendXfer) = x at h1
  generalize ha1 : ({ a with
      eps := Function.update a.eps cmd.epid (Ep.send { sep with curcrd := c - 1 })
      info := infoA
      sendXfers := a.sendXfers ++ [x] } : State) = a1 at h1
  have hsne : cmd.epid ≠ cmd.arg := send_ne_recv a _ _ (by rw [hsep]; exact hsv)
    (by rw [hrepA]; exact hrav)
  have ha1s : a1.getSendEp cmd.epid = { sep with curcrd := c - 1 } := by
    rw [← ha1]
    simp [State.getSendEp]
  have ha1r : a1.getRecvEp cmd.arg = rA := by
    rw [← ha1, ← hrepA]
    simp [State.getRecvEp, Function.update, Ne.symm hsne]
  have ha1n : a1.numEndpoints = a.numEndpoints := by rw [← ha1]
  -- step 2: B receives the message
  have hmsg : isMessageFor sep.targetEp (toPacket x) := by
    rw [← hx]
    exact ⟨rfl, rfl, rfl, show REPLY_ENABLED &&& REPLY_FLAG = 0 from by decide⟩
  obtain ⟨i, b1, hi, _, hdel, hb1r, hb1n, _, hb1s, hb1d, hb1m, _, _, _⟩ :=
    deliver_message (toPacket x) flagsB sep.targetEp b hmsg hrb (by rw [hrepB]; exact hrbv)
      (by rw [hrepB, ← hx]; exact hrbfit) (by rw [hrepB]; exact hrbwr)
      (by rw [hrepB]; exact hrbrep) (by rw [hrepB]; exact hrbcount)
      (by rw [hrepB]; exact hrbfree)
  rw [hrepB] at hi hb1r hb1s
  have hinst := hb1s (hrblay i hi)
  have hhdr : (toPacket x).header = x.header := rfl
  rw [hhdr, ← hx] at hinst
  simp only [show REPLY_ENABLED &&& PAGEFAULT = 0 from by decide, ne_eq, not_true,
    if_false] at hinst
  -- step 3: B launches the REPLY
  have hidxB : (b1.getRecvEp sep.targetEp).replyEps
      + (b1.getRecvEp sep.targetEp).msgToIdx (rB.bufAddr + (i <<< rB.msgSize))
      = rB.replyEps + i := by
    rw [hb1r]
    have := msgToIdx_slot { rB with
      occupied := insert i rB.occupied
      wrPos := i + 1
      msgCount := rB.msgCount + 1
      unread := insert i rB.unread } i hi
    simp only at this
    simp only [this]
  obtain ⟨infoB, h3⟩ := startTransmission_reply
    ⟨REPLY, sep.targetEp, rB.bufAddr + (i <<< rB.msgSize)⟩ b1 (rB.replyEps + i) rfl
    (by rw [hb1r, hb1n]; exact hrbrep) hidxB
    (by rw [hinst]; exact hramsg)
    (by rw [hinst]; show FL_REPLY &&& FL_REPLY ≠ 0; decide) (by rw [hinst])
    (by rw [hinst, hb1d]; exact hfitB) (by rw [hb1d, hb1m]; exact hnocB)
  rw [hinst] at h3
  simp only [show ¬ (FL_REPLY &&& FL_PF ≠ 0) from by decide, if_false] at h3
  generalize hy : ({
        addr := b1.dataReg.addr
        size := b1.dataReg.size
        flags := XFER_MESSAGE
        targetCoreId := a.coreId
        targetEpId := cmd.arg
        header := {
          flags := REPLY_FLAG ||| GRANT_CREDITS_FLAG ||| (REPLY_FLAG ||| GRANT_CREDITS_FLAG)
          senderCoreId := b1.coreId
          senderEpId := sep.targetEp
          replyEpId := cmd.epid
          length := b1.dataReg.size
          label := a.replyLabel
          replyLabel := b1.replyLabel
          replySize := 0 } } : SendXfer) = y at h3
  -- step 4: A receives the reply
  have hyp : (toPacket y).header.replyEpId = cmd.epid := by rw [← hy]; rfl
  obtain ⟨a2, h4, ha2⟩ := deliver_reply (toPacket y) flagsA cmd.arg a1 rfl rfl
    (by rw [← hy]; rfl)
    (by
      rw [← hy]
      show (REPLY_FLAG ||| GRANT_CREDITS_FLAG ||| (REPLY_FLAG ||| GRANT_CREDITS_FLAG))
        &&& REPLY_FLAG ≠ 0
      decide)
    (by
      rw [← hy]
      show (REPLY_FLAG ||| GRANT_CREDITS_FLAG ||| (REPLY_FLAG ||| GRANT_CREDITS_FLAG))
        &&& GRANT_CREDITS_FLAG ≠ 0
      decide)
    (by
      rw [← hy]
      show (REPLY_FLAG ||| GRANT_CREDITS_FLAG ||| (REPLY_FLAG ||| GRANT_CREDITS_FLAG))
        &&& (REPLY_FLAG ||| PAGEFAULT) ≠ REPLY_FLAG ||| PAGEFAULT
      decide)
    (by rw [ha1n]; exact hra) (by rw [hyp, ha1n]; exact hs)
    (by rw [ha1r]; exact hrav)
    (by rw [ha1r, ← hy]; show b1.dataReg.size + sizeofMessageHeader ≤ _; rw [hb1d]; exact hfitB)
    (by rw [ha1r]; exact hrawr) (by rw [ha1r]; exact hrafree)
    (by rw [hyp, ha1s]; exact hsv) (by rw [hyp, ha1s]; exact hcm1)
    (by rw [hyp, ha1s]; show c - 1 < sep.maxcrd; omega)
  rw [hyp, ha1s] at ha2
  refine ⟨a1, x, i, b1, _, y, a2, h1, ?_, ?_, hdel, hi, ?_, h3, rfl, ?_, ?_, ?_, h4, ?_⟩
  · rw [← ha1]
  · rw [ha1s]
  · rw [hinst]
  · rw [← hy]
  · rw [← hy]
    show REPLY_FLAG ||| GRANT_CREDITS_FLAG ||| (REPLY_FLAG ||| GRANT_CREDITS_FLAG)
      = REPLY_FLAG ||| GRANT_CREDITS_FLAG
    decide
  · rw [← hy]
  · rw [ha2]
    show c - 1 + 1 = c
    omega

/-- C3 in the first scenario of the spec: A.EP2 has 1 of 1 credits, B.EP4 is empty; after the
SEND, the receive on B, the REPLY and its receipt on A, A.EP2 holds 1 credit again. -/
theorem reply_returns_credit_witness :
    ∃ a1 x i b1 b2 y a2,
      startTransmission Scenario.sendCmd (Scenario.tileA 1 1) = some a1 ∧
      a1.sendXfers = [x] ∧ (a1.getSendEp 2).curcrd = 0 ∧
      deliver (toPacket x) 0 (Scenario.tileB 0 ∅ ∅ 0) = some (Error.NONE, b1) ∧
      startTransmission ⟨REPLY, 4, 0x1000 + (i <<< 6)⟩ b1 = some b2 ∧
      b2.sendXfers = b1.sendXfers ++ [y] ∧
      deliver (toPacket y) 0 a1 = some (Error.NONE, a2) ∧ (a2.getSendEp 2).curcrd = 1 := by
  obtain ⟨a1, x, i, b1, b2, y, a2, h1, h2, h3, h4, _, _, h7, h8, _, _, _, h12, h13⟩ :=
    reply_returns_credit Scenario.sendCmd (Scenario.tileA 1 1) (Scenario.tileB 0 ∅ ∅ 0) 0 0 1
      rfl (by decide) (by decide) rfl (by decide) (by decide) (by decide) (by decide)
      (by decide) (by decide) (by decide) (by decide) (by decide) (by decide)
      ⟨0, by decide, by decide⟩ (by decide) (by decide) (by decide) (by decide) (by decide)
      (by decide) (by decide) (by decide) ⟨0, by decide, by decide⟩ (by decide)
  exact ⟨a1, x, i, b1, b2, y, a2, h1, h2, h3, h4, h7, h8, h12, h13⟩

/-! ## The ring invariant -/

/-- What a successful `allocSlot` did: the scan found slot `i`, which was free, and the endpoint
was stored with `occupied[i]` set and `wrPos = i + 1`. -/
theorem allocSlot_some (msgSize epid i : Nat) (ep ep1 : RecvEp) (d d1 : State)
    (h : allocSlot msgSize epid ep d = some ((i : Int), ep1, d1)) :
    scanRing (fun j => !ep.isOccupied j) ep.wrPos (1 <<< ep.size) = some i ∧
      d1 = d.setRecvEp epid { ep with occupied := insert i ep.occupied, wrPos := i + 1 } := by
  unfold allocSlot at h
  by_cases hv : ep.bufAddr = 0
  · rw [if_pos hv] at h
    simp only [Option.some.injEq, Prod.mk.injEq] at h
    omega
  · rw [if_neg hv] at h
    by_cases hf : msgSize ≤ 1 <<< ep.msgSize
    · rw [if_neg (not_not.mpr hf)] at h
      cases hs : scanRing (fun j => !ep.isOccupied j) ep.wrPos (1 <<< ep.size) with
      | none =>
        rw [hs] at h
        simp only [Option.some.injEq, Prod.mk.injEq] at h
        omega
      | some j =>
        rw [hs] at h
        simp only [Option.some.injEq, Prod.mk.injEq, Nat.cast_inj] at h
        obtain ⟨h1, _, h3⟩ := h
        subst h1
        refine ⟨rfl, ?_⟩
        rw [← h3]
        simp [RecvEp.setOccupied]
    · rw [if_pos hf] at h
      exact Option.noConfusion h

/-- A credit that comes back changes no receive endpoint. -/
theorem recvCredits_getRecvEp (s : Nat) (d dc : State) (h : recvCredits s d = some dc)
    (n : Nat) : dc.getRecvEp n = d.getRecvEp n := by
  unfold recvCredits at h
  by_cases hu : (d.getSendEp s).curcrd ≠ CREDITS_UNLIM
  · simp only [if_pos hu] at h
    by_cases ha : (d.getSendEp s).curcrd + 1 ≤ (d.getSendEp s).maxcrd
    · rw [if_neg (not_not.mpr ha)] at h
      have hd := Option.some.inj h
      rw [← hd]
      by_cases hn : n = s
      · subst hn
        cases hs : d.eps n with
        | recv r =>
          have hz : d.getSendEp n = SendEp.zero := by simp [State.getSendEp, hs]
          rw [hz] at ha
          exact absurd ha (by decide)
        | invalid => simp [State.getRecvEp, State.setSendEp, hs]
        | send e => simp [State.getRecvEp, State.setSendEp, hs]
        | mem => simp [State.getRecvEp, State.setSendEp, hs]
      · simp [State.getRecvEp, State.setSendEp, Function.update, hn]
    · rw [if_pos ha] at h
      exact Option.noConfusion h
  · simp only [if_neg hu] at h
    rw [← Option.some.inj h]

/-- What `finishMsgReceive` does to the receive endpoint: nothing, or (without error) it counts
the message and marks the slot unread, or (with an error) it frees the slot. -/
theorem finishMsgReceive_ring (epId msgAddr : Nat) (header : MessageHeader) (error res : Error)
    (xferFlags : Nat) (d d1 : State)
    (h : finishMsgReceive epId msgAddr header error xferFlags d = some (res, d1)) :
    d1.getRecvEp epId = d.getRecvEp epId ∨
      (error = Error.NONE ∧ d1.getRecvEp epId = { d.getRecvEp epId with
        msgCount := (d.getRecvEp epId).msgCount + 1
        unread := insert ((msgAddr - (d.getRecvEp epId).bufAddr) >>> (d.getRecvEp epId).msgSize)
          (d.getRecvEp epId).unread }) ∨
      (error ≠ Error.NONE ∧ d1.getRecvEp epId = { d.getRecvEp epId with
        occupied := (d.getRecvEp epId).occupied.erase
          ((msgAddr - (d.getRecvEp epId).bufAddr) >>> (d.getRecvEp epId).msgSize) }) := by
  unfold finishMsgReceive at h
  by_cases hv : (d.getRecvEp epId).bufAddr = 0
  · simp only [if_pos hv, Option.some.injEq, Prod.mk.injEq] at h
    rw [← h.2]
    exact Or.inl rfl
  · simp only [if_neg hv] at h
    by_cases he : error = Error.NONE
    · simp only [if_pos he] at h
      generalize hcr : (if header.flags &&& REPLY_FLAG ≠ 0 ∧
          header.flags &&& GRANT_CREDITS_FLAG ≠ 0 ∧ header.replyEpId < d.numEndpoints then
          recvCredits header.replyEpId d else some d) = cr at h
      cases cr with
      | none => exact Option.noConfusion h
      | some dc =>
        have hdc : dc.getRecvEp epId = d.getRecvEp epId := by
          by_cases hc : header.flags &&& REPLY_FLAG ≠ 0 ∧
              header.flags &&& GRANT_CREDITS_FLAG ≠ 0 ∧ header.replyEpId < d.numEndpoints
          · rw [if_pos hc] at hcr
            exact recvCredits_getRecvEp _ _ _ hcr epId
          · rw [if_neg hc] at hcr
            rw [← Option.some.inj hcr]
        simp only at h
        by_cases hfull : (d.getRecvEp epId).msgCount = 1 <<< (d.getRecvEp epId).size
        · rw [if_pos hfull] at h
          simp only [Option.some.injEq, Prod.mk.injEq] at h
          rw [← h.2]
          exact Or.inl hdc
        · rw [if_neg hfull] at h
          right
          left
          refine ⟨he, ?_⟩
          generalize hin : (if header.flags &&& REPLY_FLAG = 0 then
              if (RecvEp.setUnread { d.getRecvEp epId with
                  msgCount := (d.getRecvEp epId).msgCount + 1 }
                ((msgAddr - (d.getRecvEp epId).bufAddr) >>> (d.getRecvEp epId).msgSize)
                true).replyEps = dc.numEndpoints then none
              else some (dc.setSendEp _ _)
            else some dc) = ins at h
          cases ins with
          | none => exact Option.noConfusion h
          | some di =>
            simp only [Option.some.injEq, Prod.mk.injEq] at h
            rw [← h.2]
            by_cases hq : di.irqOnMsg = true
            · simp [State.setRecvEp, State.getRecvEp, hq, RecvEp.setUnread]
            · simp [State.setRecvEp, State.getRecvEp, hq, RecvEp.setUnread]
    · simp only [if_neg he, Option.some.injEq, Prod.mk.injEq] at h
      right
      right
      refine ⟨he, ?_⟩
      rw [← h.2, getRecvEp_setRecvEp]
      simp [RecvEp.setOccupied]

/-- What `fetchMessage` does to the receive endpoint: nothing, or it takes an unread and
occupied slot, clears its unread bit and takes one off `msgCount`. -/
theorem fetchMessage_ring (epid addr : Nat) (d d1 : State)
    (h : fetchMessage epid d = some (addr, d1)) :
    d1 = d ∨ ∃ i, i ∈ (d.getRecvEp epid).unread ∧ (d.getRecvEp epid).msgCount ≠ 0 ∧
      d1.getRecvEp epid = { d.getRecvEp epid with
        unread := (d.getRecvEp epid).unread.erase i
        msgCount := (d.getRecvEp epid).msgCount - 1
        rdPos := i + 1 } := by
  unfold fetchMessage at h
  by_cases h0 : (d.getRecvEp epid).msgCount = 0
  · simp only [if_pos h0, Option.some.injEq, Prod.mk.injEq] at h
    exact Or.inl h.2.symm
  · simp only [if_neg h0] at h
    cases hs : scanRing (fun i => (d.getRecvEp epid).isUnread i) (d.getRecvEp epid).rdPos
        (1 <<< (d.getRecvEp epid).size) with
    | none =>
      rw [hs] at h
      exact Option.noConfusion h
    | some i =>
      rw [hs] at h
      obtain ⟨hp, _⟩ := scanRing_some _ _ _ _ hs
      by_cases ho : (d.getRecvEp epid).isOccupied i = true
      · simp only [ho, Bool.not_true, Bool.false_eq_true, if_false, Option.some.injEq,
          Prod.mk.injEq] at h
        right
        refine ⟨i, by simpa [RecvEp.isUnread] using hp, h0, ?_⟩
        rw [← h.2, getRecvEp_setRecvEp]
        simp [RecvEp.setUnread]
      · simp [ho] at h

/-- What `ackMessage` does to the receive endpoint: nothing, or it frees the occupied slot that
the address maps to, clears its unread bit and, if that was set, takes one off `msgCount`. -/
theorem ackMessage_ring (epId msgAddr : Nat) (d : State) :
    (ackMessage epId msgAddr d).2 = d ∨
      ((d.getRecvEp epId).msgToIdx msgAddr ∈ (d.getRecvEp epId).occupied ∧
        (ackMessage epId msgAddr d).2.getRecvEp epId = { d.getRecvEp epId with
          occupied := (d.getRecvEp epId).occupied.erase ((d.getRecvEp epId).msgToIdx msgAddr)
          unread := (d.getRecvEp epId).unread.erase ((d.getRecvEp epId).msgToIdx msgAddr)
          msgCount := if (d.getRecvEp epId).msgToIdx msgAddr ∈ (d.getRecvEp epId).unread then
              decMsgCount (d.getRecvEp epId).msgCount
            else (d.getRecvEp epId).msgCount }) := by
  by_cases hv : (d.getRecvEp epId).bufAddr = 0
  · left
    unfold ackMessage
    simp only [if_pos hv]
  · by_cases hm : (d.getRecvEp epId).msgToIdx msgAddr = MAX_MSGS ∨
        ((d.getRecvEp epId).msgToIdx msgAddr ∉ (d.getRecvEp epId).occupied)
    · left
      unfold ackMessage
      simp only [if_neg hv]
      rw [if_pos (by simpa [RecvEp.isOccupied] using hm)]
    · right
      simp only [not_or, not_not] at hm
      rw [ackMessage_result epId msgAddr _ d hv rfl hm.1 hm.2]
      exact ⟨hm.2, getRecvEp_setRecvEp _ _ _⟩

/-- Every state reached by calls that keep to the order of a reception satisfies the ring
invariant. -/
theorem ringReach_inv (epId : Nat) (d0 : State) (h0 : RingInv (d0.getRecvEp epId) [])
    (d : State) (pending : List Nat) (hr : RingReach epId d0 d pending) :
    RingInv (d.getRecvEp epId) pending := by
  induction hr with
  | init => exact h0
  | alloc d p msgSize i ep1 d1 _ hal ih =>
    obtain ⟨h1, h2, h3, h4, h5, h6⟩ := ih
    obtain ⟨hs, hd1⟩ := allocSlot_some _ _ _ _ _ _ _ hal
    obtain ⟨hp, hcase⟩ := scanRing_some _ _ _ _ hs
    have hio : i ∉ (d.getRecvEp epId).occupied := by simpa [RecvEp.isOccupied] using hp
    have hi : i < 1 <<< (d.getRecvEp epId).size := by
      rcases hcase with ⟨_, hlt, _⟩ | ⟨_, _, hbelow⟩
      · exact hlt
      · rcases h6 with hw | hemp
        · exact (scanRing_some_first _ _ _ _ hw hs).1
        · have hz : i = 0 := by
            by_contra hne
            have := hbelow 0 (by omega)
            simp [RecvEp.isOccupied, hemp] at this
          rw [hz, Nat.shiftLeft_eq, Nat.one_mul]
          exact Nat.two_pow_pos _
    rw [hd1, getRecvEp_setRecvEp]
    refine ⟨h1, ?_, ?_, ?_, ?_, Or.inl ?_⟩
    · exact fun j hj => Finset.mem_insert_of_mem (h2 hj)
    · intro j hj
      rcases Finset.mem_insert.mp hj with h | h
      · rw [h]; exact hi
      · exact h3 j h
    · exact List.nodup_cons.mpr ⟨fun hm => hio (h5 i hm).1, h4⟩
    · intro j hj
      rcases List.mem_cons.mp hj with h | h
      · rw [h]
        exact ⟨Finset.mem_insert_self _ _, fun hu => hio (h2 hu)⟩
      · exact ⟨Finset.mem_insert_of_mem (h5 j h).1, (h5 j h).2⟩
    · show i + 1 ≤ 1 <<< (d.getRecvEp epId).size
      omega
  | finish d p idx header error res xf d1 _ hmem hfin ih =>
    obtain ⟨h1, h2, h3, h4, h5, h6⟩ := ih
    obtain ⟨hocc, hnu⟩ := h5 idx hmem
    have hrest : ∀ j ∈ p.erase idx, j ≠ idx ∧ j ∈ p := by
      intro j hj
      exact ⟨fun h => by rw [h] at hj; exact (List.Nodup.not_mem_erase h4) hj,
        List.mem_of_mem_erase hj⟩
    have hnd : (p.erase idx).Nodup := List.Nodup.erase _ h4
    rcases finishMsgReceive_ring _ _ _ _ _ _ _ _ hfin with h | ⟨_, h⟩ | ⟨_, h⟩
    · rw [h]
      exact ⟨h1, h2, h3, hnd, fun j hj => h5 j (hrest j hj).2, h6⟩
    · rw [h, slot_of_addr]
      refine ⟨?_, ?_, h3, hnd, ?_, h6⟩
      · show (d.getRecvEp epId).msgCount + 1 = (insert idx (d.getRecvEp epId).unread).card
        rw [Finset.card_insert_of_not_mem hnu, h1]
      · intro j hj
        rcases Finset.mem_insert.mp hj with h | h
        · rw [h]; exact hocc
        · exact h2 h
      · intro j hj
        obtain ⟨hne, hjp⟩ := hrest j hj
        refine ⟨(h5 j hjp).1, fun hu => ?_⟩
        rcases Finset.mem_insert.mp hu with h | h
        · exact hne h
        · exact (h5 j hjp).2 h
    · rw [h, slot_of_addr]
      refine ⟨h1, ?_, ?_, hnd, ?_, ?_⟩
      · intro j hj
        exact Finset.mem_erase.mpr ⟨fun h => by rw [h] at hj; exact hnu hj, h2 hj⟩
      · intro j hj
        exact h3 j (Finset.mem_of_mem_erase hj)
      · intro j hj
        obtain ⟨hne, hjp⟩ := hrest j hj
        exact ⟨Finset.mem_erase.mpr ⟨hne, (h5 j hjp).1⟩, (h5 j hjp).2⟩
      · rcases h6 with hw | hemp
        · exact Or.inl hw
        · rw [hemp] at hocc
          exact absurd hocc (Finset.not_mem_empty _)
  | fetch d p addr d1 _ hf ih =>
    obtain ⟨h1, h2, h3, h4, h5, h6⟩ := ih
    rcases fetchMessage_ring _ _ _ _ hf with h | ⟨i, hi, hcnt, h⟩
    · rw [h]
      exact ⟨h1, h2, h3, h4, h5, h6⟩
    · rw [h]
      refine ⟨?_, ?_, h3, h4, ?_, h6⟩
      · show (d.getRecvEp epId).msgCount - 1 = ((d.getRecvEp epId).unread.erase i).card
        rw [Finset.card_erase_of_mem hi, h1]
      · intro j hj
        exact h2 (Finset.mem_of_mem_erase hj)
      · intro j hj
        exact ⟨(h5 j hj).1, fun hu => (h5 j hj).2 (Finset.mem_of_mem_erase hu)⟩
  | ack d p msgAddr res d1 _ hnp hack ih =>
    obtain ⟨h1, h2, h3, h4, h5, h6⟩ := ih
    have hd1 : d1 = (ackMessage epId msgAddr d).2 := by rw [hack]
    rw [hd1]
    rcases ackMessage_ring epId msgAddr d with h | ⟨hocc, h⟩
    · rw [h]
      exact ⟨h1, h2, h3, h4, h5, h6⟩
    · rw [h]
      generalize (d.getRecvEp epId).msgToIdx msgAddr = i at hnp hocc
      refine ⟨?_, ?_, ?_, h4, ?_, ?_⟩
      · by_cases hu : i ∈ (d.getRecvEp epId).unread
        · show (if i ∈ (d.getRecvEp epId).unread then decMsgCount (d.getRecvEp epId).msgCount
            else (d.getRecvEp epId).msgCount) = ((d.getRecvEp epId).unread.erase i).card
          have hpos : 0 < (d.getRecvEp epId).msgCount := by
            rw [h1]
            exact Finset.card_pos.mpr ⟨i, hu⟩
          rw [if_pos hu, Finset.card_erase_of_mem hu, decMsgCount_pos _ hpos, h1]
        · show (if i ∈ (d.getRecvEp epId).unread then decMsgCount (d.getRecvEp epId).msgCount
            else (d.getRecvEp epId).msgCount) = ((d.getRecvEp epId).unread.erase i).card
          rw [if_neg hu, Finset.erase_eq_of_not_mem hu, h1]
      · intro j hj
        obtain ⟨hne, hju⟩ := Finset.mem_erase.mp hj
        exact Finset.mem_erase.mpr ⟨hne, h2 hju⟩
      · intro j hj
        exact h3 j (Finset.mem_of_mem_erase hj)
      · intro j hj
        have hne : j ≠ i := fun h => hnp (by rw [← h]; exact hj)
        exact ⟨Finset.mem_erase.mpr ⟨hne, (h5 j hj).1⟩,
          fun hu => (h5 j hj).2 (Finset.mem_of_mem_erase hu)⟩
      · rcases h6 with hw | hemp
        · exact Or.inl hw
        · rw [hemp] at hocc
          exact absurd hocc (Finset.not_mem_empty _)

/-- C1 as amended: the ring invariant of the data model holds in every state that is reached
from an empty ring by calls of `allocSlot`, `finishMsgReceive`, `fetchMessage` and
`ackMessage` that keep to the order of a reception (each completion is for a slot in flight,
no acknowledgement is for a slot in flight):
`msgCount = popcount(unread) ≤ popcount(occupied) ≤ 1 << size`, and every unread slot is
occupied. -/
theorem ring_invariant_of_reception_order (epId : Nat) (d0 d : State) (pending : List Nat)
    (hocc : (d0.getRecvEp epId).occupied = ∅) (hunr : (d0.getRecvEp epId).unread = ∅)
    (hcnt : (d0.getRecvEp epId).msgCount = 0) (hr : RingReach epId d0 d pending) :
    (d.getRecvEp epId).msgCount = (d.getRecvEp epId).unread.card ∧
      (d.getRecvEp epId).unread.card ≤ (d.getRecvEp epId).occupied.card ∧
      (d.getRecvEp epId).occupied.card ≤ 1 <<< (d.getRecvEp epId).size ∧
      (d.getRecvEp epId).unread ⊆ (d.getRecvEp epId).occupied := by
  have h0 : RingInv (d0.getRecvEp epId) [] := by
    refine ⟨by rw [hcnt, hunr]; rfl, by rw [hunr]; exact Finset.empty_subset _, ?_,
      List.nodup_nil, ?_, Or.inr hocc⟩
    · intro i hi
      rw [hocc] at hi
      exact absurd hi (Finset.not_mem_empty _)
    · intro i hi
      exact absurd hi (List.not_mem_nil _)
  obtain ⟨h1, h2, h3, _, _, _⟩ := ringReach_inv epId d0 h0 d pending hr
  refine ⟨h1, Finset.card_le_card h2, ?_, h2⟩
  have hsub : (d.getRecvEp epId).occupied ⊆ Finset.range (1 <<< (d.getRecvEp epId).size) :=
    fun i hi => Finset.mem_range.mpr (h3 i hi)
  have := Finset.card_le_card hsub
  rwa [Finset.card_range] at this

/-- C1, the claim refuted on the empty ring of B.EP4 (2 slots), in two ways.  First,
`finishMsgReceive` is called twice for slot 0, the index that the earlier `allocSlot`
returned: `msgCount` becomes 2 while only `unread[0]` is set.  Second, slot 0 is acknowledged
while its receive is still in flight (`ackMessage` returns `NONE` and clears `occupied[0]`)
and the receive then completes: the endpoint ends with `unread = {0}` and `occupied = ∅`, so
`popcount(unread) ≤ popcount(occupied)` fails, and the next `fetchMessage` stops at its
assertion `isOccupied(i)`. -/
theorem ring_invariant_counterexample :
    (∃ d1 d2 d3 ep1,
      allocSlot 33 4 ((Scenario.tileB 0 ∅ ∅ 0).getRecvEp 4) (Scenario.tileB 0 ∅ ∅ 0)
        = some (0, ep1, d1) ∧
      finishMsgReceive 4 0x1000 Scenario.msgHeader Error.NONE 0 d1 = some (Error.NONE, d2) ∧
      finishMsgReceive 4 0x1000 Scenario.msgHeader Error.NONE 0 d2 = some (Error.NONE, d3) ∧
      (d3.getRecvEp 4).msgCount = 2 ∧ (d3.getRecvEp 4).unread = {0} ∧
      (d3.getRecvEp 4).msgCount ≠ (d3.getRecvEp 4).unread.card) ∧
    (∃ d1 d2 d3 ep1,
      allocSlot 33 4 ((Scenario.tileB 0 ∅ ∅ 0).getRecvEp 4) (Scenario.tileB 0 ∅ ∅ 0)
        = some (0, ep1, d1) ∧
      ackMessage 4 0x1000 d1 = (Error.NONE, d2) ∧
      finishMsgReceive 4 0x1000 Scenario.msgHeader Error.NONE 0 d2 = some (Error.NONE, d3) ∧
      (d3.getRecvEp 4).unread = {0} ∧ (d3.getRecvEp 4).occupied = ∅ ∧
      (d3.getRecvEp 4).msgCount = 1 ∧
      ¬ ((d3.getRecvEp 4).unread.card ≤ (d3.getRecvEp 4).occupied.card) ∧
      fetchMessage 4 d3 = none) := by
  constructor
  · refine ⟨_, _, _, _, rfl, rfl, rfl, ?_, ?_, ?_⟩
    · decide
    · decide
    · decide
  · refine ⟨_, _, _, _, rfl, rfl, rfl, ?_, ?_, ?_, ?_, ?_⟩
    · decide
    · decide
    · decide
    · decide
    · rfl

/-- C1 as amended, on B.EP4: a message is given slot 0 and its receive completes; the state is
reached in the order of a reception, and the invariant holds in it with `msgCount = 1`. -/
theorem ring_invariant_of_reception_order_witness :
    ∃ d : State, RingReach 4 (Scenario.tileB 0 ∅ ∅ 0) d [] ∧
      (d.getRecvEp 4).msgCount = 1 ∧
      (d.getRecvEp 4).msgCount = (d.getRecvEp 4).unread.card ∧
      (d.getRecvEp 4).unread.card ≤ (d.getRecvEp 4).occupied.card ∧
      (d.getRecvEp 4).occupied.card ≤ 1 <<< (d.getRecvEp 4).size ∧
      (d.getRecvEp 4).unread ⊆ (d.getRecvEp 4).occupied := by
  have hr : ∃ d : State, RingReach 4 (Scenario.tileB 0 ∅ ∅ 0) d [] ∧
      (d.getRecvEp 4).msgCount = 1 := by
    refine ⟨_, RingReach.finish _ [0] 0 Scenario.msgHeader Error.NONE Error.NONE 0 _
      (RingReach.alloc _ [] 33 0 _ _ RingReach.init rfl) (by decide) rfl, ?_⟩
    decide
  obtain ⟨d, hd, hc⟩ := hr
  exact ⟨d, hd, hc,
    ring_invariant_of_reception_order 4 (Scenario.tileB 0 ∅ ∅ 0) d [] (by decide) (by decide)
      (by decide) hd⟩

/-- A scan that starts at the capacity visits the slots in the same order as one from 0. -/
theorem scanRing_cap (p : Nat → Bool) (cap : Nat) : scanRing p cap cap = scanRing p 0 cap := by
  have h1 : scanLoop p cap cap = none := by
    rw [scanLoop_none]
    intro j h1 h2
    omega
  have h2 : scanLoop p 0 0 = none := by
    rw [scanLoop_none]
    intro j h1 h2
    omega
  unfold scanRing
  rw [h1, h2]
  cases scanLoop p 0 cap <;> rfl

/-- C19, the claim as written fails: on the ring of two slots of `Scenario.recvEpB` with slot 0
occupied and the write position 1, `allocSlot` returns the last slot 1 and stores the write
position 2, which is the capacity and not `(1 + 1) mod 2 = 0`. -/
theorem allocSlot_last_slot_counterexample :
    (allocSlot 33 4 (Scenario.recvEpB 1 {0} {0} 1) (Scenario.tileB 1 {0} {0} 1)).map
        (fun r => (r.1, r.2.1.wrPos, 1 <<< r.2.1.size)) = some ((1 : Int), 2, 2) ∧
      (2 : Nat) ≠ (1 + 1) % 2 := by
  decide

/-- C19 (amended): a successful `allocSlot` that returns the index `i` on a ring whose write
position is at most the capacity `1 <<< size` stores `wrPos = i + 1` without reduction.  This
is `(i + 1) mod capacity` when `i` is not the last slot, it is the capacity itself when `i` is
the last slot, it is in all cases congruent to `i + 1` modulo the capacity and at most the
capacity, and the next scan from the stored position visits the slots in the order of a scan
from `(i + 1) mod capacity`. -/
theorem allocSlot_wrPos (msgSize epid i : Nat) (ep ep1 : RecvEp) (d d1 : State)
    (hw : ep.wrPos ≤ 1 <<< ep.size)
    (h : allocSlot msgSize epid ep d = some ((i : Int), ep1, d1)) :
    i < 1 <<< ep.size ∧ ep1.size = ep.size ∧ ep1.wrPos = i + 1 ∧
      ep1.wrPos ≤ 1 <<< ep1.size ∧
      ep1.wrPos % (1 <<< ep.size) = (i + 1) % (1 <<< ep.size) ∧
      (i + 1 < 1 <<< ep.size → ep1.wrPos = (i + 1) % (1 <<< ep.size)) ∧
      (i + 1 = 1 <<< ep.size → ep1.wrPos = 1 <<< ep.size ∧ (i + 1) % (1 <<< ep.size) = 0) ∧
      ∀ p : Nat → Bool, scanRing p ep1.wrPos (1 <<< ep.size)
        = scanRing p ((i + 1) % (1 <<< ep.size)) (1 <<< ep.size) := by
  unfold allocSlot at h
  by_cases hv : ep.bufAddr = 0
  · rw [if_pos hv] at h
    simp only [Option.some.injEq, Prod.mk.injEq] at h
    omega
  · rw [if_neg hv] at h
    by_cases hf : msgSize ≤ 1 <<< ep.msgSize
    · rw [if_neg (not_not.mpr hf)] at h
      cases hs : scanRing (fun j => !ep.isOccupied j) ep.wrPos (1 <<< ep.size) with
      | none =>
        rw [hs] at h
        simp only [Option.some.injEq, Prod.mk.injEq] at h
        omega
      | some j =>
        rw [hs] at h
        simp only [Option.some.injEq, Prod.mk.injEq, Nat.cast_inj] at h
        obtain ⟨h1, h2, _⟩ := h
        subst h1
        obtain ⟨hlt, _, _⟩ := scanRing_some_first _ _ _ _ hw hs
        have hsz : ep1.size = ep.size := by rw [← h2]; rfl
        have hwr : ep1.wrPos = j + 1 := by rw [← h2]
        refine ⟨hlt, hsz, hwr, ?_, ?_, ?_, ?_, ?_⟩
        · rw [hsz, hwr]; omega
        · rw [hwr]
        · intro hlt1
          rw [hwr, Nat.mod_eq_of_lt hlt1]
        · intro heq
          rw [hwr, heq]
          exact ⟨rfl, Nat.mod_self _⟩
        · intro p
          rw [hwr]
          rcases Nat.lt_or_ge (j + 1) (1 <<< ep.size) with hlt1 | hge
          · rw [Nat.mod_eq_of_lt hlt1]
          · have heq : j + 1 = 1 <<< ep.size := by omega
            rw [heq, Nat.mod_self]
            exact scanRing_cap p _
    · rw [if_pos hf] at h
      exact Option.noConfusion h

/-- C19 (amended) on the ring of two slots with slot 0 occupied and the write position 1:
`allocSlot` returns the last slot 1 and stores the write position 2, the capacity. -/
theorem allocSlot_wrPos_witness :
    ∃ (ep1 : RecvEp) (d1 : State),
      (Scenario.recvEpB 1 {0} {0} 1).wrPos ≤ 1 <<< (Scenario.recvEpB 1 {0} {0} 1).size ∧
      allocSlot 33 4 (Scenario.recvEpB 1 {0} {0} 1) (Scenario.tileB 1 {0} {0} 1)
        = some (((1 : Nat) : Int), ep1, d1) ∧
      ep1.wrPos = 1 + 1 ∧ ep1.wrPos = 1 <<< (Scenario.recvEpB 1 {0} {0} 1).size :=
  ⟨{ (Scenario.recvEpB 1 {0} {0} 1).setOccupied 1 true with wrPos := 1 + 1 },
    (Scenario.tileB 1 {0} {0} 1).setRecvEp 4
      { (Scenario.recvEpB 1 {0} {0} 1).setOccupied 1 true with wrPos := 1 + 1 },
    by decide, by rfl,
    (allocSlot_wrPos 33 4 1 (Scenario.recvEpB 1 {0} {0} 1) _ (Scenario.tileB 1 {0} {0} 1)
      ((Scenario.tileB 1 {0} {0} 1).setRecvEp 4
        { (Scenario.recvEpB 1 {0} {0} 1).setOccupied 1 true with wrPos := 1 + 1 })
      (by decide) (by rfl)).2.2.1,
    ((allocSlot_wrPos 33 4 1 (Scenario.recvEpB 1 {0} {0} 1) _ (Scenario.tileB 1 {0} {0} 1)
      ((Scenario.tileB 1 {0} {0} 1).setRecvEp 4
        { (Scenario.recvEpB 1 {0} {0} 1).setOccupied 1 true with wrPos := 1 + 1 })
      (by decide) (by rfl)).2.2.2.2.2.2.1 (by decide)).1⟩

/-- C12: a SEND on a valid send endpoint `cmd.epid` that has credits (its six-bit credit field
is not 0) and whose message fits starts exactly one transfer, and the header of that transfer
has the flags `REPLY_ENABLED`, this tile as the sender tile, the sender endpoint `cmd.epid`
when the credits are limited and `numEndpoints` when they are `CREDITS_UNLIM`, the reply
endpoint `cmd.arg`, the reply label of the `REPLY_LABEL` register, the reply size `msgSize`
of the receive endpoint `cmd.arg`, the length of the data register and the label of the
endpoint. -/
theorem send_header (cmd : Command) (d : State) (hop : cmd.opcode = SEND)
    (hvalid : (d.getSendEp cmd.epid).maxMsgSize ≠ 0)
    (hcrd : (d.getSendEp cmd.epid).curcrd ≠ 0)
    (hrange : (d.getSendEp cmd.epid).curcrd ≤ CREDITS_UNLIM)
    (hfit : d.dataReg.size + sizeofMessageHeader ≤ 1 <<< (d.getSendEp cmd.epid).maxMsgSize)
    (hnoc : d.dataReg.size + sizeofMessageHeader ≤ d.maxNocPacketSize) :
    ∃ (d1 : State) (x : SendXfer), startTransmission cmd d = some d1 ∧
      d1.sendXfers = d.sendXfers ++ [x] ∧
      x.header.flags = REPLY_ENABLED ∧
      x.header.senderCoreId = d.coreId ∧
      ((d.getSendEp cmd.epid).curcrd ≠ CREDITS_UNLIM → x.header.senderEpId = cmd.epid) ∧
      ((d.getSendEp cmd.epid).curcrd = CREDITS_UNLIM → x.header.senderEpId = d.numEndpoints) ∧
      x.header.replyEpId = cmd.arg ∧
      x.header.replyLabel = d.replyLabel ∧
      x.header.replySize = (d.getRecvEp cmd.arg).msgSize ∧
      x.header.length = d.dataReg.size ∧
      x.header.label = (d.getSendEp cmd.epid).label := by
  obtain ⟨info, hst⟩ := startTransmission_send cmd d hop hvalid hcrd hfit hnoc
  refine ⟨_, _, hst, rfl, rfl, rfl, ?_, ?_, rfl, rfl, rfl, rfl, rfl⟩
  · intro hlim
    have h1 : ¬ ((d.getSendEp cmd.epid).curcrd = CREDITS_UNLIM ∨
        (d.getSendEp cmd.epid).curcrd - 1 = CREDITS_UNLIM) := by
      intro hor
      rcases hor with h | h
      · exact hlim h
      · have hu : CREDITS_UNLIM = 63 := rfl
        rw [hu] at h hrange hlim
        omega
    exact if_neg h1
  · intro hu
    exact if_pos (Or.inl hu)

/-- C12 on A.EP2 with 2 of 2 credits: the header names endpoint 2 as the sender, endpoint 3
for the reply and the message size 6 of A.EP3. -/
theorem send_header_witness :
    ∃ (d1 : State) (x : SendXfer),
      startTransmission Scenario.sendCmd (Scenario.tileA 2 2) = some d1 ∧
      d1.sendXfers = [x] ∧ x.header = Scenario.msgHeader := by
  obtain ⟨d1, x, h1, h2, h3, h4, h5, _, h7, h8, h9, h10, h11⟩ :=
    send_header Scenario.sendCmd (Scenario.tileA 2 2) rfl (by decide) (by decide) (by decide)
      (by decide) (by decide)
  refine ⟨d1, x, h1, h2, ?_⟩
  have h5 := h5 (by decide)
  cases hx : x.header with
  | mk f sc se re len lab rl rs =>
    rw [hx] at h3 h4 h5 h7 h8 h9 h10 h11
    simp only at h3 h4 h5 h7 h8 h9 h10 h11
    subst h3 h4 h5 h7 h8 h9 h10 h11
    decide

/-- C29: on a valid receive endpoint `finishMsgReceive` with an error returns that error; it
clears `occupied[idx]` for the slot `idx` of the message address and changes no other field of
the receive endpoint (so `msgCount` and the unread bits stay), changes no other register (so
every send endpoint, with its credits, and every reply endpoint stays), and raises no
`MSG_RECV` event, no interrupt and no wakeup.  Hence after an `allocSlot` that returned the
slot `i`, the failed receive for the address of slot `i` restores the occupied bitset. -/
theorem finishMsgReceive_error (epId msgAddr : Nat) (header : MessageHeader) (error : Error)
    (xferFlags : Nat) (d : State) (hvalid : (d.getRecvEp epId).bufAddr ≠ 0)
    (herr : error ≠ Error.NONE) :
    (∃ d1, finishMsgReceive epId msgAddr header error xferFlags d = some (error, d1) ∧
      d1.getRecvEp epId = { d.getRecvEp epId with
        occupied := (d.getRecvEp epId).occupied.erase
          ((msgAddr - (d.getRecvEp epId).bufAddr) >>> (d.getRecvEp epId).msgSize) } ∧
      (d1.getRecvEp epId).isOccupied
        ((msgAddr - (d.getRecvEp epId).bufAddr) >>> (d.getRecvEp epId).msgSize) = false ∧
      (d1.getRecvEp epId).msgCount = (d.getRecvEp epId).msgCount ∧
      (d1.getRecvEp epId).unread = (d.getRecvEp epId).unread ∧
      (∀ n, n ≠ epId → d1.eps n = d.eps n) ∧ (∀ n, d1.getSendEp n = d.getSendEp n) ∧
      d1.events = d.events ∧ d1.irqs = d.irqs ∧ d1.wakeups = d.wakeups) ∧
    ∀ (d0 : State) (msgSize i : Nat) (ep1 : RecvEp),
      allocSlot msgSize epId (d0.getRecvEp epId) d0 = some ((i : Int), ep1, d) →
      ∃ d2, finishMsgReceive epId
          ((d.getRecvEp epId).bufAddr + (i <<< (d.getRecvEp epId).msgSize)) header error
          xferFlags d = some (error, d2) ∧
        (d2.getRecvEp epId).occupied = (d0.getRecvEp epId).occupied := by
  have hres : ∀ a : Nat, finishMsgReceive epId a header error xferFlags d = some (error,
      d.setRecvEp epId ((d.getRecvEp epId).setOccupied
        ((a - (d.getRecvEp epId).bufAddr) >>> (d.getRecvEp epId).msgSize) false)) := by
    intro a
    unfold finishMsgReceive
    simp only [if_neg hvalid, if_neg herr]
  constructor
  · refine ⟨_, hres msgAddr, ?_, ?_, ?_, ?_, ?_, ?_, rfl, rfl, rfl⟩
    · rw [getRecvEp_setRecvEp]
      simp [RecvEp.setOccupied]
    · rw [getRecvEp_setRecvEp]
      simp [RecvEp.setOccupied, RecvEp.isOccupied]
    · rw [getRecvEp_setRecvEp]
      rfl
    · rw [getRecvEp_setRecvEp]
      rfl
    · intro n hn
      simp [State.setRecvEp, Function.update, hn]
    · intro n
      exact getSendEp_setRecvEp d epId n _ hvalid
  · intro d0 msgSize i ep1 hal
    obtain ⟨hs, hd⟩ := allocSlot_some _ _ _ _ _ _ _ hal
    obtain ⟨hfree, _⟩ := scanRing_some _ _ _ _ hs
    have hni : i ∉ (d0.getRecvEp epId).occupied := by
      simpa [RecvEp.isOccupied] using hfree
    refine ⟨_, hres _, ?_⟩
    rw [getRecvEp_setRecvEp, slot_of_addr]
    have hep : d.getRecvEp epId = { d0.getRecvEp epId with
        occupied := insert i (d0.getRecvEp epId).occupied, wrPos := i + 1 } := by
      rw [hd, getRecvEp_setRecvEp]
    rw [hep]
    simp [RecvEp.setOccupied, Finset.erase_insert hni]

/-- C29 on B.EP4: `allocSlot` reserves slot 0 of the empty ring, the receive fails with
`ABORT`, and the occupied bitset is empty again. -/
theorem finishMsgReceive_error_witness :
    ∃ (ep1 : RecvEp) (d d2 : State),
      allocSlot 33 4 (Scenario.recvEpB 0 ∅ ∅ 0) (Scenario.tileB 0 ∅ ∅ 0)
        = some (((0 : Nat) : Int), ep1, d) ∧
      finishMsgReceive 4 0x1000 Scenario.msgHeader Error.ABORT 0 d = some (Error.ABORT, d2) ∧
      (d2.getRecvEp 4).occupied = ∅ ∧ d2.events = [] := by
  have hal : allocSlot 33 4 ((Scenario.tileB 0 ∅ ∅ 0).getRecvEp 4) (Scenario.tileB 0 ∅ ∅ 0)
      = some (((0 : Nat) : Int),
        { (Scenario.recvEpB 0 ∅ ∅ 0).setOccupied 0 true with wrPos := 0 + 1 },
        (Scenario.tileB 0 ∅ ∅ 0).setRecvEp 4
          { (Scenario.recvEpB 0 ∅ ∅ 0).setOccupied 0 true with wrPos := 0 + 1 }) := by rfl
  have hw := finishMsgReceive_error 4 0x1000 Scenario.msgHeader Error.ABORT 0
    ((Scenario.tileB 0 ∅ ∅ 0).setRecvEp 4
      { (Scenario.recvEpB 0 ∅ ∅ 0).setOccupied 0 true with wrPos := 0 + 1 })
    (by decide) (by decide)
  obtain ⟨d1, h1, _, _, _, _, _, _, h8, _⟩ := hw.1
  obtain ⟨d2, h2, h3⟩ := hw.2 (Scenario.tileB 0 ∅ ∅ 0) 33 0 _ hal
  have h2 : finishMsgReceive 4 0x1000 Scenario.msgHeader Error.ABORT 0
      ((Scenario.tileB 0 ∅ ∅ 0).setRecvEp 4
        { (Scenario.recvEpB 0 ∅ ∅ 0).setOccupied 0 true with wrPos := 0 + 1 })
      = some (Error.ABORT, d2) := h2
  have hd : d1 = d2 := by
    rw [h1] at h2
    exact (Prod.mk.inj (Option.some.inj h2)).2
  subst hd
  exact ⟨_, _, d1, hal, h2, h3, h8⟩

/-- C25, what the code does: `finishMsgReply` does not look at its error argument, so for
every error it acknowledges the message exactly as for `NONE`.  On B.EP4 with the message in
slot 0 unread and its reply endpoint 5 installed, `finishMsgReply(ABORT, 4, 0x1000)` clears
`occupied[0]` and `unread[0]`, takes the message off `msgCount` and invalidates endpoint 5,
where the claim has all of them unchanged. -/
theorem finishMsgReply_ignores_error :
    (∀ (error : Error) (epid msgAddr : Nat) (d : State),
      finishMsgReply error epid msgAddr d = finishMsgReply Error.NONE epid msgAddr d) ∧
    (((Scenario.tileB 1 {0} {0} 1).setSendEp 5
        { flags := FL_REPLY, targetCore := 0, targetEp := 3, crdEp := 2, maxcrd := 1,
          curcrd := 1, maxMsgSize := 6, label := 0xB }).getSendEp 5).maxMsgSize = 6 ∧
    ((finishMsgReply Error.ABORT 4 0x1000 ((Scenario.tileB 1 {0} {0} 1).setSendEp 5
        { flags := FL_REPLY, targetCore := 0, targetEp := 3, crdEp := 2, maxcrd := 1,
          curcrd := 1, maxMsgSize := 6, label := 0xB })).getRecvEp 4).occupied = ∅ ∧
    ((finishMsgReply Error.ABORT 4 0x1000 ((Scenario.tileB 1 {0} {0} 1).setSendEp 5
        { flags := FL_REPLY, targetCore := 0, targetEp := 3, crdEp := 2, maxcrd := 1,
          curcrd := 1, maxMsgSize := 6, label := 0xB })).getRecvEp 4).unread = ∅ ∧
    ((finishMsgReply Error.ABORT 4 0x1000 ((Scenario.tileB 1 {0} {0} 1).setSendEp 5
        { flags := FL_REPLY, targetCore := 0, targetEp := 3, crdEp := 2, maxcrd := 1,
          curcrd := 1, maxMsgSize := 6, label := 0xB })).getRecvEp 4).msgCount = 0 ∧
    (finishMsgReply Error.ABORT 4 0x1000 ((Scenario.tileB 1 {0} {0} 1).setSendEp 5
        { flags := FL_REPLY, targetCore := 0, targetEp := 3, crdEp := 2, maxcrd := 1,
          curcrd := 1, maxMsgSize := 6, label := 0xB })).eps 5 = Ep.invalid := by
  refine ⟨fun _ _ _ _ => rfl, by decide, by decide, by decide, by decide, by decide⟩

end MessageUnit

end Dtu

/-! # Theorems about the TCU -/

namespace Tcu

open Dtu.MessageUnit

namespace XferUnit

theorem eventAt_lt (x : XferUnit) (i : Nat) (ev : TransferEvent)
    (h : x.eventAt i = some ev) : i < x.bufs.length := by
  unfold eventAt at h
  by_contra hn
  rw [List.getElem?_eq_none (Nat.le_of_not_lt hn)] at h
  exact Option.noConfusion h

theorem eventAt_set_bufs (x : XferUnit) (i j : Nat) (b : Buffer) (hi : i < x.bufs.length) :
    ({ x with bufs := x.bufs.set i b } : XferUnit).eventAt j
      = if i = j then b.event else x.eventAt j := by
  unfold eventAt
  simp only [List.getElem?_set, hi, if_true]
  by_cases hij : i = j
  · simp [hij]
  · simp [hij]

/-- C13: the result of `allocateBuf` when it is not refused for `MSGRECV`.  The scan starts
at 0 if there is no TLB or `NOPF` is in the flags and at 1 otherwise.  If it returns no
buffer, the pool is unchanged and every buffer at or above the start index holds a live
transfer.  If it returns buffer `i`, then `i` is the lowest index at or above the start index
whose buffer held no live transfer, the transfer is bound to it with offset 0, the bytes of
the buffer and all other buffers are unchanged, and `i` is not 0 when a TLB is present and
`NOPF` is not in the flags. -/
theorem allocateBuf_first_free (event : TransferEvent) (flags : Nat) (x : XferUnit)
    (hnr : ¬ (flags &&& XferFlags.MSGRECV ≠ 0 ∧ x.bufs.any isLiveRecv = true)) :
    (x.tlb = none ∨ flags &&& XferFlags.NOPF ≠ 0 → x.allocStart flags = 0) ∧
    (x.tlb ≠ none → flags &&& XferFlags.NOPF = 0 → x.allocStart flags = 1) ∧
    ((allocateBuf event flags x).1 = none →
      (allocateBuf event flags x).2 = x ∧
      ∀ j, x.allocStart flags ≤ j → j < x.bufs.length → x.eventAt j ≠ none) ∧
    (∀ i, (allocateBuf event flags x).1 = some i →
      x.allocStart flags ≤ i ∧ i < x.bufs.length ∧ x.eventAt i = none ∧
      (∀ j, x.allocStart flags ≤ j → j < i → x.eventAt j ≠ none) ∧
      (allocateBuf event flags x).2.eventAt i = some event ∧
      (∃ b b1, x.bufs[i]? = some b ∧ (allocateBuf event flags x).2.bufs[i]? = some b1 ∧
        b1.offset = 0 ∧ b1.bytes = b.bytes) ∧
      (∀ j, j ≠ i → (allocateBuf event flags x).2.bufs[j]? = x.bufs[j]?) ∧
      (x.tlb ≠ none → flags &&& XferFlags.NOPF = 0 → i ≠ 0)) := by
  have hs0 : x.tlb = none ∨ flags &&& XferFlags.NOPF ≠ 0 → x.allocStart flags = 0 := by
    intro h
    unfold allocStart
    rw [if_pos]
    rcases h with h | h
    · left; rw [h]; rfl
    · right; exact h
  have hs1 : x.tlb ≠ none → flags &&& XferFlags.NOPF = 0 → x.allocStart flags = 1 := by
    intro h1 h2
    unfold allocStart
    rw [if_neg]
    intro hor
    rcases hor with h | h
    · exact h1 (Option.isNone_iff_eq_none.mp h)
    · exact h h2
  refine ⟨hs0, hs1, ?_, ?_⟩
  · intro h
    unfold allocateBuf at h ⊢
    rw [if_neg hnr] at h ⊢
    cases hs : scanLoop (fun i => (x.eventAt i).isNone) (x.allocStart flags) x.bufs.length with
    | some i =>
      rw [hs] at h
      exact Option.noConfusion h
    | none =>
      refine ⟨rfl, ?_⟩
      intro j h1 h2 hn
      have := (scanLoop_none _ _ _).mp hs j h1 h2
      rw [hn] at this
      exact Bool.noConfusion this
  · intro i h
    unfold allocateBuf at h ⊢
    rw [if_neg hnr] at h ⊢
    cases hs : scanLoop (fun i => (x.eventAt i).isNone) (x.allocStart flags) x.bufs.length with
    | none =>
      rw [hs] at h
      exact Option.noConfusion h
    | some k =>
      rw [hs] at h
      have hk : k = i := Option.some.inj h
      subst hk
      obtain ⟨h1, h2, h3, h4⟩ := scanLoop_some _ _ _ _ hs
      have hfree : x.eventAt k = none := Option.isNone_iff_eq_none.mp h3
      refine ⟨h1, h2, hfree, ?_, ?_, ?_, ?_, ?_⟩
      · intro j hj1 hj2 hn
        have := h4 j hj1 hj2
        rw [hn] at this
        exact Bool.noConfusion this
      · show XferUnit.eventAt { x with bufs := _ } k = some event
        rw [eventAt_set_bufs _ _ _ _ h2, if_pos rfl]
      · refine ⟨x.bufs[k], _, List.getElem?_eq_getElem h2, List.getElem?_set_self h2, rfl, ?_⟩
        simp [List.getD_eq_getElem?_getD, List.getElem?_eq_getElem h2]
      · intro j hj
        exact List.getElem?_set_ne (Ne.symm hj)
      · intro ht hf h0
        rw [hs1 ht hf] at h1
        omega

/-- C13 on the pool of four free buffers with a TLB: a transfer without `NOPF` gets
buffer 1, not buffer 0. -/
theorem allocateBuf_first_free_witness :
    (allocateBuf (Scenario.transfer 7 0 0x2000 16) 0
        (Scenario.xfer (some Scenario.hitTlb) 64 (List.replicate 4 Scenario.freeBuf) [])).1
      = some 1 ∧
    (allocateBuf (Scenario.transfer 7 0 0x2000 16) 0
        (Scenario.xfer (some Scenario.hitTlb) 64 (List.replicate 4 Scenario.freeBuf) [])).2.eventAt
        1 = some (Scenario.transfer 7 0 0x2000 16) :=
  ⟨by decide,
    ((allocateBuf_first_free (Scenario.transfer 7 0 0x2000 16) 0
      (Scenario.xfer (some Scenario.hitTlb) 64 (List.replicate 4 Scenario.freeBuf) [])
      (by decide)).2.2.2 1 (by decide)).2.2.2.2.1⟩

/-! ## What the functions of the transfer unit keep of the pool -/

theorem keepsTransfer_refl (b : Buffer) : keepsTransfer b b := by
  unfold keepsTransfer
  cases h : b.event with
  | none => exact Or.inl rfl
  | some ev => exact Or.inr ⟨ev, ev, rfl, rfl, rfl, rfl⟩

theorem keepsTransfer_trans (a b c : Buffer) (h1 : keepsTransfer a b) (h2 : keepsTransfer b c) :
    keepsTransfer a c := by
  unfold keepsTransfer at *
  rcases h2 with h2 | ⟨ev, ev1, h3, h4, h5, h6⟩
  · exact Or.inl h2
  · rcases h1 with h1 | ⟨ev0, ev', h7, h8, h9, h10⟩
    · rw [h1] at h3
      exact Option.noConfusion h3
    · rw [h8] at h3
      have := Option.some.inj h3
      subst this
      exact Or.inr ⟨ev0, ev1, h7, h4, h5.trans h9, h6.trans h10⟩

theorem poolKeeps_refl (l : List Buffer) : PoolKeeps l l := by
  unfold PoolKeeps
  induction l with
  | nil => exact List.Forall₂.nil
  | cons a l ih => exact List.Forall₂.cons (keepsTransfer_refl a) ih

theorem poolKeeps_trans (l1 l2 l3 : List Buffer) (h1 : PoolKeeps l1 l2) (h2 : PoolKeeps l2 l3) :
    PoolKeeps l1 l3 := by
  unfold PoolKeeps at *
  induction h1 generalizing l3 with
  | nil =>
    cases h2
    exact List.Forall₂.nil
  | cons hab _ ih =>
    cases h2 with
    | cons hbc hrest => exact List.Forall₂.cons (keepsTransfer_trans _ _ _ hab hbc) (ih _ hrest)

theorem poolKeeps_set (l : List Buffer) (i : Nat) (b nb : Buffer) (h : l[i]? = some b)
    (hk : keepsTransfer b nb) : PoolKeeps l (l.set i nb) := by
  unfold PoolKeeps
  induction l generalizing i with
  | nil => simp at h
  | cons a l ih =>
    cases i with
    | zero =>
      simp only [List.getElem?_cons_zero, Option.some.injEq] at h
      subst h
      exact List.Forall₂.cons hk (poolKeeps_refl l)
    | succ i =>
      simp only [List.getElem?_cons_succ] at h
      exact List.Forall₂.cons (keepsTransfer_refl a) (ih i h)

theorem poolKeeps_count (l l1 : List Buffer) (h : PoolKeeps l l1) :
    l1.countP isLiveRecv ≤ l.countP isLiveRecv := by
  unfold PoolKeeps at h
  induction h with
  | nil => exact Nat.le_refl _
  | @cons a b l l1 hab _ ih =>
    rw [List.countP_cons, List.countP_cons]
    have hb : isLiveRecv b = true → isLiveRecv a = true := by
      intro hb
      unfold keepsTransfer at hab
      unfold isLiveRecv at hb ⊢
      rcases hab with h0 | ⟨ev, ev1, h3, h4, h5, _⟩
      · rw [h0] at hb
        exact Bool.noConfusion hb
      · rw [h4] at hb
        rw [h3]
        simp only at hb ⊢
        rw [← h5]
        exact hb
    by_cases hlb : isLiveRecv b = true
    · rw [if_pos hlb, if_pos (hb hlb)]
      omega
    · rw [if_neg hlb]
      split <;> omega

/-- The transfer that a buffer of the later pool holds was in that buffer before, with the
same id and flags. -/
theorem poolKeeps_eventAt (x x1 : XferUnit) (h : PoolKeeps x.bufs x1.bufs) (i : Nat)
    (ev1 : TransferEvent) (he : x1.eventAt i = some ev1) :
    ∃ ev, x.eventAt i = some ev ∧ ev1.flags = ev.flags ∧ ev1.id = ev.id := by
  unfold eventAt at he ⊢
  unfold PoolKeeps at h
  generalize x.bufs = l at h
  generalize x1.bufs = l1 at h he
  induction h generalizing i with
  | nil => simp at he
  | cons hab _ ih =>
    cases i with
    | zero =>
      simp only [List.getElem?_cons_zero] at he ⊢
      unfold keepsTransfer at hab
      rcases hab with h0 | ⟨ev, ev', h3, h4, h5, h6⟩
      · rw [h0] at he
        exact Option.noConfusion he
      · rw [h4] at he
        have := Option.some.inj he
        subst this
        exact ⟨ev, h3, h5, h6⟩
    | succ i =>
      simp only [List.getElem?_cons_succ] at he ⊢
      exact ih i he

theorem setEvent_bufs (x : XferUnit) (b : Nat) (buf : Buffer) (e : Option TransferEvent)
    (h : x.bufs[b]? = some buf) :
    x.setEvent b e = { x with bufs := x.bufs.set b { buf with event := e } } := by
  unfold setEvent
  rw [h]

theorem eventAt_some (x : XferUnit) (b : Nat) (ev : TransferEvent) (h : x.eventAt b = some ev) :
    ∃ buf, x.bufs[b]? = some buf ∧ buf.event = some ev := by
  unfold eventAt at h
  cases hb : x.bufs[b]? with
  | none =>
    rw [hb] at h
    exact Option.noConfusion h
  | some buf =>
    rw [hb] at h
    exact ⟨buf, rfl, h⟩

/-- Replacing the transfer of buffer `b` by nothing or by a transfer with its id and flags
keeps the pool. -/
theorem setEvent_keeps (x : XferUnit) (b : Nat) (ev : TransferEvent) (e : Option TransferEvent)
    (h : x.eventAt b = some ev)
    (he : e = none ∨ ∃ e1, e = some e1 ∧ e1.flags = ev.flags ∧ e1.id = ev.id) :
    PoolKeeps x.bufs (x.setEvent b e).bufs := by
  obtain ⟨buf, hb, hev⟩ := eventAt_some x b ev h
  rw [setEvent_bufs x b buf e hb]
  refine poolKeeps_set _ _ buf _ hb ?_
  unfold keepsTransfer
  rcases he with he | ⟨e1, he1, hf, hi⟩
  · exact Or.inl he
  · exact Or.inr ⟨ev, e1, hev, he1, hf, hi⟩

theorem eventAt_of_buf (x : XferUnit) (b : Nat) (buf : Buffer) (h : x.bufs[b]? = some buf) :
    x.eventAt b = buf.event := by
  unfold eventAt
  rw [h]

theorem issueRequests_keeps (n b : Nat) (pageRemaining physAddr : Nat) (x x1 : XferUnit)
    (h : issueRequests n b pageRemaining physAddr x = some x1) :
    PoolKeeps x.bufs x1.bufs := by
  induction n generalizing pageRemaining physAddr x with
  | zero =>
    simp only [issueRequests, Option.some.injEq] at h
    rw [← h]
    exact poolKeeps_refl _
  | succ n ih =>
    cases hb : x.bufs[b]? with
    | none =>
      have he : x.eventAt b = none := by unfold eventAt; rw [hb]
      simp only [issueRequests, he, hb] at h
      exact Option.noConfusion h
    | some buf =>
      have he := eventAt_of_buf x b buf hb
      cases hev : buf.event with
      | none =>
        rw [hev] at he
        simp only [issueRequests, he, hb] at h
        exact Option.noConfusion h
      | some ev =>
        rw [hev] at he
        simp only [issueRequests, he, hb] at h
        by_cases hc : ev.freeSlots > 0 ∧ pageRemaining > 0
        · rw [if_pos hc] at h
          split at h
          · exact Option.noConfusion h
          · refine poolKeeps_trans _ _ _ ?_ (ih _ _ _ h)
            unfold issueOne
            refine poolKeeps_set _ _ buf _ hb ?_
            exact Or.inr ⟨ev, _, hev, rfl, rfl, rfl⟩
        · rw [if_neg hc, Option.some.injEq] at h
          rw [← h]
          exact poolKeeps_refl _

theorem countPagefault_bufs (res : TcuTlb.Result) (x : XferUnit) :
    (countPagefault res x).bufs = x.bufs := by
  unfold countPagefault
  split <;> rfl

theorem abortTranslation_bufs (b : Nat) (ev : TransferEvent) (x : XferUnit) :
    (abortTranslation b ev x).bufs = x.bufs := by
  unfold abortTranslation
  split <;> rfl

theorem deschedule_bufs (ev : TransferEvent) (x : XferUnit) :
    (deschedule ev x).bufs = x.bufs := by
  unfold deschedule
  split <;> rfl

theorem eventAt_congr (x y : XferUnit) (h : y.bufs = x.bufs) (b : Nat) :
    y.eventAt b = x.eventAt b := by
  unfold eventAt
  rw [h]

theorem startTranslate_keeps (b : Nat) (ev : TransferEvent) (access : Nat) (x : XferUnit)
    (hev : x.eventAt b = some ev) : PoolKeeps x.bufs (startTranslate b ev access x).bufs :=
  setEvent_keeps x b ev _ hev (Or.inr ⟨_, rfl, rfl, rfl⟩)

theorem setEvent_keeps_of (x y : XferUnit) (b : Nat) (ev : TransferEvent)
    (e : Option TransferEvent) (hy : y.bufs = x.bufs) (h : x.eventAt b = some ev)
    (he : e = none ∨ ∃ e1, e = some e1 ∧ e1.flags = ev.flags ∧ e1.id = ev.id) :
    PoolKeeps x.bufs (y.setEvent b e).bufs := by
  have hk := setEvent_keeps y b ev e (by rw [eventAt_congr x y hy]; exact h) he
  rw [hy] at hk
  exact hk

theorem markAborted_keeps (b : Nat) (ev : TransferEvent) (error : TcuError) (x : XferUnit)
    (hev : x.eventAt b = some ev) : PoolKeeps x.bufs (markAborted b ev error x).bufs := by
  unfold markAborted
  refine setEvent_keeps_of x _ b ev _ ?_ hev (Or.inr ⟨_, rfl, rfl, rfl⟩)
  rw [deschedule_bufs]
  exact abortTranslation_bufs b ev x

theorem complete_keeps (b : Nat) (ev : TransferEvent) (x y : XferUnit) (hy : y.bufs = x.bufs)
    (hev : x.eventAt b = some ev) : PoolKeeps x.bufs (complete b ev y).bufs := by
  have hk : PoolKeeps x.bufs (XferUnit.setEvent { y with
      finished := y.finished ++ [ev.id] } b none).bufs :=
    setEvent_keeps_of x _ b ev _ hy hev (Or.inl rfl)
  unfold complete
  simp only
  split
  · exact hk
  · exact hk

/-- The functions that drive a transfer never bind a transfer to a buffer and never change
the id or the flags of a live transfer. -/
theorem drive_keeps (n : Nat) :
    (∀ b x x1, process n b x = some x1 → PoolKeeps x.bufs x1.bufs) ∧
    (∀ b s p x x1, translateDone n b s p x = some x1 → PoolKeeps x.bufs x1.bufs) ∧
    (∀ b e x x1, abort n b e x = some x1 → PoolKeeps x.bufs x1.bufs) ∧
    (∀ i pkt x x1, recvMemResponse n i pkt x = some x1 → PoolKeeps x.bufs x1.bufs) ∧
    (∀ b x x1, continueTransfer n b x = some x1 → PoolKeeps x.bufs x1.bufs) := by
  induction n with
  | zero =>
    simp [process, translateDone, abort, recvMemResponse, continueTransfer]
  | succ n ih =>
    obtain ⟨ihp, iht, iha, ihr, ihc⟩ := ih
    refine ⟨?_, ?_, ?_, ?_, ?_⟩
    · intro b x x1 h
      cases hev : x.eventAt b with
      | none =>
        simp only [process, hev] at h
        exact Option.noConfusion h
      | some ev =>
        simp only [process, hev] at h
        by_cases h0 : ev.remaining = 0
        · rw [if_pos h0] at h
          exact ihc _ _ _ h
        · rw [if_neg h0] at h
          cases htlb : x.usedTlb ev with
          | none =>
            rw [htlb] at h
            exact iht _ _ _ _ _ h
          | some lookup =>
            rw [htlb] at h
            simp only at h
            by_cases hr : (lookup ev.localAddr ev.vpe (tlbAccess ev)).1 ≠ TcuTlb.Result.HIT
            · rw [if_pos hr] at h
              by_cases hp : (lookup ev.localAddr ev.vpe (tlbAccess ev)).1
                  = TcuTlb.Result.PAGEFAULT ∧ ev.flags &&& XferFlags.NOPF ≠ 0
              · rw [if_pos hp] at h
                have hk := iha _ _ _ _ h
                rw [countPagefault_bufs] at hk
                exact hk
              · rw [if_neg hp, Option.some.injEq] at h
                rw [← h]
                have hk := startTranslate_keeps b ev (tlbAccess ev)
                  (countPagefault (lookup ev.localAddr ev.vpe (tlbAccess ev)).1 x)
                  (by rw [eventAt_congr _ _ (countPagefault_bufs _ _)]; exact hev)
                rw [countPagefault_bufs] at hk
                exact hk
            · rw [if_neg hr] at h
              exact iht _ _ _ _ _ h
    · intro b s p x x1 h
      cases hev : x.eventAt b with
      | none =>
        simp only [translateDone, hev] at h
        exact Option.noConfusion h
      | some ev =>
        simp only [translateDone, hev] at h
        have hk : PoolKeeps x.bufs (x.setEvent b (some { ev with trans := false })).bufs :=
          setEvent_keeps _ b ev _ hev (Or.inr ⟨_, rfl, rfl, rfl⟩)
        by_cases hres : ev.result ≠ TcuError.NONE
        · rw [if_pos hres, Option.some.injEq] at h
          rw [← h]
          exact poolKeeps_refl _
        · rw [if_neg hres] at h
          cases s with
          | false =>
            simp only [Bool.not_false, if_true] at h
            exact poolKeeps_trans _ _ _ hk (iha _ _ _ _ h)
          | true =>
            simp only [Bool.not_true, Bool.false_eq_true, if_false] at h
            by_cases h0 : ev.remaining = 0
            · rw [if_pos h0, Option.some.injEq] at h
              rw [← h]
              exact hk
            · rw [if_neg h0] at h
              exact poolKeeps_trans _ _ _ hk (issueRequests_keeps _ _ _ _ _ _ h)
    · intro b e x x1 h
      cases hev : x.eventAt b with
      | none =>
        simp only [abort, hev] at h
        exact Option.noConfusion h
      | some ev =>
        simp only [abort, hev] at h
        refine poolKeeps_trans _ _ _ ?_ (ihr _ _ _ _ h)
        exact markAborted_keeps b ev e x hev
    · intro i pkt x x1 h
      simp only [recvMemResponse] at h
      cases hg : x.getBuffer (i &&& 0xFFFFFFFF) with
      | none =>
        rw [hg] at h
        simp only [Option.some.injEq] at h
        rw [← h]
        exact poolKeeps_refl _
      | some b =>
        rw [hg] at h
        simp only at h
        cases hb : x.bufs[b]? with
        | none =>
          have he : x.eventAt b = none := by unfold eventAt; rw [hb]
          rw [he] at h
          simp only [Option.some.injEq] at h
          rw [← h]
          exact poolKeeps_refl _
        | some buf =>
          have he := eventAt_of_buf x b buf hb
          cases hev : buf.event with
          | none =>
            rw [hev] at he
            rw [he] at h
            simp only [Option.some.injEq] at h
            rw [← h]
            exact poolKeeps_refl _
          | some ev =>
            rw [hev] at he
            rw [he, hb] at h
            simp only at h
            cases pkt with
            | none =>
              simp only at h
              exact ihc _ _ _ h
            | some pk =>
              simp only at h
              split at h
              · exact Option.noConfusion h
              · refine poolKeeps_trans _ _ _ ?_ (ihc _ _ _ h)
                refine poolKeeps_set _ _ buf _ hb ?_
                exact Or.inr ⟨ev, _, hev, rfl, rfl, rfl⟩
    · intro b x x1 h
      cases hev : x.eventAt b with
      | none =>
        simp only [continueTransfer, hev] at h
        exact Option.noConfusion h
      | some ev =>
        simp only [continueTransfer, hev] at h
        split at h
        · split at h
          · rw [Option.some.injEq] at h
            rw [← h]
            exact poolKeeps_refl _
          · rw [Option.some.injEq] at h
            rw [← h]
            exact complete_keeps b ev x _ rfl hev
        · split at h
          · exact ihp _ _ _ h
          · rw [Option.some.injEq] at h
            rw [← h]
            exact poolKeeps_refl _

theorem allocateBuf_count (ev : TransferEvent) (x : XferUnit) (h : x.liveRecvCount ≤ 1) :
    (allocateBuf ev ev.flags x).2.liveRecvCount ≤ 1 := by
  unfold allocateBuf
  by_cases hr : ev.flags &&& XferFlags.MSGRECV ≠ 0 ∧ x.bufs.any isLiveRecv = true
  · rw [if_pos hr]
    exact h
  · rw [if_neg hr]
    cases hs : scanLoop (fun i => (x.eventAt i).isNone) (x.allocStart ev.flags)
        x.bufs.length with
    | none => exact h
    | some i =>
      obtain ⟨_, hlt, hfree, _⟩ := scanLoop_some _ _ _ _ hs
      have hnone : x.eventAt i = none := Option.isNone_iff_eq_none.mp hfree
      have hbi : x.bufs[i].event = none := by
        unfold eventAt at hnone
        rw [List.getElem?_eq_getElem hlt] at hnone
        exact hnone
      have hold : isLiveRecv x.bufs[i] = false := by
        unfold isLiveRecv
        rw [hbi]
      show List.countP isLiveRecv (x.bufs.set i _) ≤ 1
      rw [List.countP_set _ _ _ _ hlt, hold]
      simp only [Bool.false_eq_true, if_false, Nat.sub_zero]
      by_cases hm : ev.flags &&& XferFlags.MSGRECV ≠ 0
      · have hany : ¬ x.bufs.any isLiveRecv = true := fun ha => hr ⟨hm, ha⟩
        have hz : List.countP isLiveRecv x.bufs = 0 := by
          rw [List.countP_eq_zero]
          intro a ha hla
          exact hany (List.any_eq_true.mpr ⟨a, ha, hla⟩)
        rw [hz]
        split <;> omega
      · have hnew : isLiveRecv { x.bufs.getD i ⟨none, 0, []⟩ with
            event := some ev, offset := 0 } = false := by
          unfold isLiveRecv
          simp only [bne_eq_false_iff_eq]
          exact not_not.mp hm
        rw [hnew]
        simp only [Bool.false_eq_true, if_false, Nat.add_zero]
        exact h

theorem tryStart_count (ev : TransferEvent) (x : XferUnit) (h : x.liveRecvCount ≤ 1) :
    (tryStart ev x).liveRecvCount ≤ 1 := by
  have ha := allocateBuf_count { ev with vpe := x.curVpe } x h
  unfold tryStart
  simp only
  generalize allocateBuf { ev with vpe := x.curVpe } ev.flags x = r at ha
  obtain ⟨r1, x1⟩ := r
  cases r1 with
  | none => exact ha
  | some b =>
    simp only
    unfold start
    cases hev : XferUnit.eventAt { x1 with
        transferStarts := x1.transferStarts ++ [ev.id] } b with
    | none => exact ha
    | some e =>
      simp only
      have hk := setEvent_keeps_of x1 { x1 with
        transferStarts := x1.transferStarts ++ [ev.id] } b e
        (some { e with scheduled := true }) rfl hev (Or.inr ⟨_, rfl, rfl, rfl⟩)
      exact Nat.le_trans (poolKeeps_count _ _ hk) ha

/-- C14: message reception is serialised.  In every state of the transfer unit that is
reached from a pool without a live transfer by `allocateBuf` (called, as `tryStart` calls it,
with the flags of the transfer), by `tryStart` and by the functions that drive and complete
transfers, at most one buffer holds a live transfer with the flag `MSGRECV`; and in every
state `allocateBuf` with `MSGRECV` in the flags returns no buffer and changes nothing when
some buffer holds a live `MSGRECV` transfer, whatever buffers are free. -/
theorem msgrecv_serialised (x0 x : XferUnit) (h0 : ∀ b ∈ x0.bufs, b.event = none)
    (hr : PoolReach x0 x) :
    x.liveRecvCount ≤ 1 ∧
      ∀ (ev : TransferEvent) (flags : Nat), flags &&& XferFlags.MSGRECV ≠ 0 →
        (∃ b ∈ x.bufs, isLiveRecv b = true) → allocateBuf ev flags x = (none, x) := by
  constructor
  · induction hr with
    | init =>
      have hz : List.countP isLiveRecv x0.bufs = 0 := by
        rw [List.countP_eq_zero]
        intro a ha hla
        unfold isLiveRecv at hla
        rw [h0 a ha] at hla
        exact Bool.noConfusion hla
      show List.countP isLiveRecv x0.bufs ≤ 1
      omega
    | allocated x ev _ ih => exact allocateBuf_count ev x ih
    | started x ev _ ih => exact tryStart_count ev x ih
    | processed x fuel b x1 _ h ih =>
      exact Nat.le_trans (poolKeeps_count _ _ ((drive_keeps fuel).1 _ _ _ h)) ih
    | translated x fuel b s p x1 _ h ih =>
      exact Nat.le_trans (poolKeeps_count _ _ ((drive_keeps fuel).2.1 _ _ _ _ _ h)) ih
    | aborted x fuel b e x1 _ h ih =>
      exact Nat.le_trans (poolKeeps_count _ _ ((drive_keeps fuel).2.2.1 _ _ _ _ h)) ih
    | responded x fuel i pkt x1 _ h ih =>
      exact Nat.le_trans (poolKeeps_count _ _ ((drive_keeps fuel).2.2.2.1 _ _ _ _ h)) ih
    | continued x fuel b x1 _ h ih =>
      exact Nat.le_trans (poolKeeps_count _ _ ((drive_keeps fuel).2.2.2.2 _ _ _ h)) ih
  · intro ev flags hm hex
    unfold allocateBuf
    rw [if_pos ⟨hm, List.any_eq_true.mpr hex⟩]

/-- C14 on the pool of four buffers: after a message receive has got buffer 1, a second
message receive gets no buffer although buffers 2 and 3 are free. -/
theorem msgrecv_serialised_witness :
    (allocateBuf (Scenario.transfer 1 XferFlags.MSGRECV 0x1000 16) XferFlags.MSGRECV
        (Scenario.xfer (some Scenario.hitTlb) 64
          (List.replicate 4 Scenario.freeBuf) [])).2.liveRecvCount ≤ 1 ∧
      (allocateBuf (Scenario.transfer 2 XferFlags.MSGRECV 0x1040 16) XferFlags.MSGRECV
        (allocateBuf (Scenario.transfer 1 XferFlags.MSGRECV 0x1000 16) XferFlags.MSGRECV
          (Scenario.xfer (some Scenario.hitTlb) 64
            (List.replicate 4 Scenario.freeBuf) [])).2).1 = none ∧
      (allocateBuf (Scenario.transfer 1 XferFlags.MSGRECV 0x1000 16) XferFlags.MSGRECV
        (Scenario.xfer (some Scenario.hitTlb) 64
          (List.replicate 4 Scenario.freeBuf) [])).2.eventAt 2 = none :=
  ⟨(msgrecv_serialised _ _ (by decide)
      (PoolReach.allocated _ (Scenario.transfer 1 XferFlags.MSGRECV 0x1000 16)
        PoolReach.init)).1,
    congrArg Prod.fst ((msgrecv_serialised
      (Scenario.xfer (some Scenario.hitTlb) 64 (List.replicate 4 Scenario.freeBuf) []) _
      (by decide)
      (PoolReach.allocated _ (Scenario.transfer 1 XferFlags.MSGRECV 0x1000 16)
        PoolReach.init)).2
      (Scenario.transfer 2 XferFlags.MSGRECV 0x1040 16) XferFlags.MSGRECV (by decide)
      (by decide)),
    by decide⟩

/-! ## Abort and completion -/

theorem eventAt_setEvent (x : XferUnit) (b j : Nat) (e : Option TransferEvent)
    (hb : b < x.bufs.length) :
    (x.setEvent b e).eventAt j = if b = j then e else x.eventAt j := by
  rw [setEvent_bufs x b x.bufs[b] e (List.getElem?_eq_getElem hb)]
  exact eventAt_set_bufs x b j _ hb

theorem length_setEvent (x : XferUnit) (b : Nat) (e : Option TransferEvent) :
    (x.setEvent b e).bufs.length = x.bufs.length := by
  unfold setEvent
  cases x.bufs[b]? with
  | none => rfl
  | some buf => exact List.length_set _ _ _

/-- The function `getBuffer` reads only the ids of the live transfers. -/
theorem getBuffer_congr (x y : XferUnit) (hl : y.bufs.length = x.bufs.length)
    (h : ∀ j, (y.eventAt j).map TransferEvent.id = (x.eventAt j).map TransferEvent.id)
    (i : Nat) : y.getBuffer i = x.getBuffer i := by
  unfold getBuffer
  rw [hl]
  congr 1
  funext j
  have hj := h j
  cases hy : y.eventAt j with
  | none =>
    rw [hy] at hj
    cases hx : x.eventAt j with
    | none => rfl
    | some e =>
      rw [hx] at hj
      exact Option.noConfusion hj
  | some e1 =>
    rw [hy] at hj
    cases hx : x.eventAt j with
    | none =>
      rw [hx] at hj
      exact Option.noConfusion hj
    | some e =>
      rw [hx] at hj
      simp only [Option.map_some', Option.some.injEq] at hj
      simp only [hj]

/-- The state that `abort` hands to `recvMemResponse`, field by field. -/
theorem markAborted_eq (b : Nat) (ev : TransferEvent) (error : TcuError) (x : XferUnit)
    (buf : Buffer) (hb : x.bufs[b]? = some buf) :
    markAborted b ev error x = { x with
      aborts := x.aborts + 1
      abortedTranslations :=
        if ev.trans then x.abortedTranslations ++ [b] else x.abortedTranslations
      descheduled := if ev.scheduled then x.descheduled ++ [ev.id] else x.descheduled
      bufs := x.bufs.set b { buf with event := some { ev with
        result := error, trans := false, scheduled := false, remaining := 0 } } } := by
  unfold markAborted abortTranslation deschedule setEvent
  by_cases ht : ev.trans = true <;> by_cases hs : ev.scheduled = true <;> simp [ht, hs, hb]

theorem eventAt_markAborted (b j : Nat) (ev : TransferEvent) (error : TcuError) (x : XferUnit)
    (hev : x.eventAt b = some ev) :
    (markAborted b ev error x).eventAt j = if b = j then some { ev with
      result := error, trans := false, scheduled := false, remaining := 0 }
      else x.eventAt j := by
  obtain ⟨buf, hb, _⟩ := eventAt_some x b ev hev
  rw [markAborted_eq b ev error x buf hb]
  exact eventAt_set_bufs x b j _ (eventAt_lt x b ev hev)

theorem getBuffer_markAborted (b i : Nat) (ev : TransferEvent) (error : TcuError)
    (x : XferUnit) (hev : x.eventAt b = some ev) :
    (markAborted b ev error x).getBuffer i = x.getBuffer i := by
  obtain ⟨buf, hb, _⟩ := eventAt_some x b ev hev
  apply getBuffer_congr
  · rw [markAborted_eq b ev error x buf hb]
    exact List.length_set _ _ _
  · intro j
    rw [eventAt_markAborted b j ev error x hev]
    by_cases hj : b = j
    · rw [if_pos hj, ← hj, hev]
      rfl
    · rw [if_neg hj]

theorem abort_eq (n b : Nat) (error : TcuError) (x : XferUnit) (ev : TransferEvent)
    (hev : x.eventAt b = some ev) :
    abort (n + 1) b error x = recvMemResponse n ev.id none (markAborted b ev error x) := by
  simp only [abort, hev]

theorem recvMemResponse_null (n i b : Nat) (x : XferUnit) (ev : TransferEvent)
    (hg : x.getBuffer (i &&& 0xFFFFFFFF) = some b) (hev : x.eventAt b = some ev) :
    recvMemResponse (n + 1) i none x = continueTransfer n b x := by
  obtain ⟨buf, hb, _⟩ := eventAt_some x b ev hev
  simp only [recvMemResponse, hg, hev, hb]

theorem continueTransfer_done (n b : Nat) (x : XferUnit) (ev : TransferEvent)
    (hev : x.eventAt b = some ev)
    (hd : ev.result ≠ TcuError.NONE ∨ (ev.remaining = 0 ∧ ev.freeSlots = x.reqCount)) :
    continueTransfer (n + 1) b x =
      if !x.transferDone ev then
        some { x with doneCalls := x.doneCalls ++ [(ev.id, ev.result)] }
      else some (complete b ev { x with doneCalls := x.doneCalls ++ [(ev.id, ev.result)] }) := by
  simp only [continueTransfer, hev, if_pos hd]

/-- The state after the completion of the transfer in buffer `b`, field by field. -/
theorem complete_eq (b : Nat) (ev : TransferEvent) (y : XferUnit) (buf : Buffer)
    (hb : y.bufs[b]? = some buf) :
    complete b ev y = { y with
      finished := y.finished ++ [ev.id]
      bufs := y.bufs.set b { buf with event := none }
      queue := y.queue.tail
      scheduledEvents := y.scheduledEvents ++ y.queue.head?.toList } := by
  unfold complete setEvent
  simp only [hb]
  cases hq : y.queue with
  | nil => simp
  | cons e rest => simp

/-- An abort with an error, of a transfer that `getBuffer` finds by its id, runs through
`recvMemResponse` into the completion branch of `continueTransfer`. -/
theorem abort_done (n b : Nat) (error : TcuError) (x : XferUnit) (ev : TransferEvent)
    (hev : x.eventAt b = some ev) (herr : error ≠ TcuError.NONE)
    (hid : x.getBuffer (ev.id &&& 0xFFFFFFFF) = some b) :
    abort (n + 3) b error x =
      if !x.transferDone { ev with
          result := error, trans := false, scheduled := false, remaining := 0 } then
        some { markAborted b ev error x with doneCalls := x.doneCalls ++ [(ev.id, error)] }
      else some (complete b { ev with
          result := error, trans := false, scheduled := false, remaining := 0 }
        { markAborted b ev error x with doneCalls := x.doneCalls ++ [(ev.id, error)] }) := by
  obtain ⟨buf, hb, _⟩ := eventAt_some x b ev hev
  have hev1 : (markAborted b ev error x).eventAt b = some { ev with
      result := error, trans := false, scheduled := false, remaining := 0 } := by
    rw [eventAt_markAborted b b ev error x hev, if_pos rfl]
  have hg : (markAborted b ev error x).getBuffer (ev.id &&& 0xFFFFFFFF) = some b := by
    rw [getBuffer_markAborted b _ ev error x hev]
    exact hid
  rw [abort_eq _ _ _ _ _ hev, recvMemResponse_null (n + 1) ev.id b _ _ hg hev1,
    continueTransfer_done n b _ _ hev1 (Or.inl herr)]
  rw [markAborted_eq b ev error x buf hb]

/-- The function `getBuffer` finds buffer `b` for the id of its transfer when no buffer before
`b` holds a transfer with that id. -/
theorem getBuffer_first (x : XferUnit) (b : Nat) (ev : TransferEvent)
    (hev : x.eventAt b = some ev)
    (hfirst : ∀ j ev1, j < b → x.eventAt j = some ev1 → ev1.id ≠ ev.id) :
    x.getBuffer ev.id = some b := by
  have hlt := eventAt_lt x b ev hev
  unfold getBuffer
  cases h : scanLoop (fun i => match x.eventAt i with
      | some ev1 => ev1.id == ev.id
      | none => false) 0 x.bufs.length with
  | none =>
    have hb := (scanLoop_none _ _ _).mp h b (Nat.zero_le _) hlt
    simp only [hev, beq_self_eq_true] at hb
    exact Bool.noConfusion hb
  | some k =>
    obtain ⟨_, _, hk, hbelow⟩ := scanLoop_some _ _ _ _ h
    rcases Nat.lt_trichotomy k b with hkb | hkb | hkb
    · cases hek : x.eventAt k with
      | none =>
        simp only [hek] at hk
        exact Bool.noConfusion hk
      | some ev1 =>
        simp only [hek, beq_iff_eq] at hk
        exact absurd hk (hfirst k ev1 hkb hek)
    · rw [hkb]
    · have hb := hbelow b (Nat.zero_le _) hkb
      simp only [hev, beq_self_eq_true] at hb
      exact Bool.noConfusion hb

/-- C16 (as stated, refuted): a transfer that owns a buffer and is not released by its
abort.  The transfer with the id 2^32 owns the only buffer, transfer 8 waits in the queue, and
`transferDone` returns true when asked.  `abort(ABORT)` sets the result and `remaining = 0`
and calls `recvMemResponse(id, NULL)`, which looks for the id 0, the low 32 bits, and finds no
buffer: `transferDone` is not called, the buffer keeps the transfer, and transfer 8 stays in
the queue. -/
theorem abort_wide_id_counterexample :
    (abort 3 0 TcuError.ABORT
        (Scenario.xfer none 64
          [Scenario.liveBuf (Scenario.transfer 4294967296 0 0x2000 16)]
          [Scenario.transfer 8 0 0x3000 16])).map
      (fun x1 => ((x1.eventAt 0).map TransferEvent.id, (x1.eventAt 0).map TransferEvent.result,
        (x1.eventAt 0).map TransferEvent.remaining))
      = some (some 4294967296, some TcuError.ABORT, some 0) ∧
    (abort 3 0 TcuError.ABORT
        (Scenario.xfer none 64
          [Scenario.liveBuf (Scenario.transfer 4294967296 0 0x2000 16)]
          [Scenario.transfer 8 0 0x3000 16])).map
      (fun x1 => (x1.doneCalls, x1.finished, x1.queue.map TransferEvent.id,
        x1.scheduledEvents.map TransferEvent.id))
      = some ([], [], [8], []) := by
  constructor <;> decide

/-- C16 (amended): `abort(error)` with `error != NONE` of the transfer `ev` that owns buffer
`b`, whose id is below `2^32` and is the id of no transfer in a buffer before `b` (so that
`getBuffer` finds `b` by the low 32 bits of the id), returns, for every depth bound of at
least 3.  It counts the abort, aborts the attached translation if there is one, deschedules
the event if it was scheduled, and calls `transferDone` once, with the result `error`, for the
transfer with `result = error`, `remaining = 0` and no translation; it starts no translation
and sends no memory request and leaves the other buffers alone.  If `transferDone` returns
false the transfer stays in its buffer in that state.  If `transferDone` returns true the
buffer holds no live transfer afterwards, so that `allocateBuf` takes it for free, `finish`
has been called, and the head of the wait queue, if there is one, has been taken off the
queue and scheduled. -/
theorem abort_releases (n b : Nat) (error : TcuError) (x : XferUnit) (ev : TransferEvent)
    (hev : x.eventAt b = some ev) (herr : error ≠ TcuError.NONE)
    (hid32 : ev.id < 2 ^ 32)
    (hfirst : ∀ j ev1, j < b → x.eventAt j = some ev1 → ev1.id ≠ ev.id) :
    ∃ x1, abort (n + 3) b error x = some x1 ∧
      x1.aborts = x.aborts + 1 ∧
      x1.abortedTranslations =
        (if ev.trans then x.abortedTranslations ++ [b] else x.abortedTranslations) ∧
      x1.descheduled = (if ev.scheduled then x.descheduled ++ [ev.id] else x.descheduled) ∧
      x1.doneCalls = x.doneCalls ++ [(ev.id, error)] ∧
      x1.translations = x.translations ∧ x1.memRequests = x.memRequests ∧
      (∀ j, j ≠ b → x1.bufs[j]? = x.bufs[j]?) ∧
      (x.transferDone { ev with
          result := error, trans := false, scheduled := false, remaining := 0 } = false →
        x1.eventAt b = some { ev with
          result := error, trans := false, scheduled := false, remaining := 0 } ∧
        x1.queue = x.queue ∧ x1.scheduledEvents = x.scheduledEvents ∧
        x1.finished = x.finished) ∧
      (x.transferDone { ev with
          result := error, trans := false, scheduled := false, remaining := 0 } = true →
        x1.eventAt b = none ∧ x1.finished = x.finished ++ [ev.id] ∧
        x1.queue = x.queue.tail ∧
        x1.scheduledEvents = x.scheduledEvents ++ x.queue.head?.toList) := by
  have hid : x.getBuffer (ev.id &&& 0xFFFFFFFF) = some b := by
    have h2 : (0xFFFFFFFF : Nat) = 2 ^ 32 - 1 := by norm_num
    rw [h2, Nat.and_pow_two_sub_one_eq_mod, Nat.mod_eq_of_lt hid32]
    exact getBuffer_first x b ev hev hfirst
  obtain ⟨buf, hb, _⟩ := eventAt_some x b ev hev
  have hlt := eventAt_lt x b ev hev
  rw [abort_done n b error x ev hev herr hid]
  cases hd : x.transferDone { ev with
      result := error, trans := false, scheduled := false, remaining := 0 } with
  | false =>
    simp only [Bool.not_false, if_true]
    refine ⟨_, rfl, ?_⟩
    rw [markAborted_eq b ev error x buf hb]
    refine ⟨rfl, rfl, rfl, rfl, rfl, rfl, ?_, ?_, ?_⟩
    · intro j hj
      exact List.getElem?_set_ne (Ne.symm hj)
    · intro _
      refine ⟨?_, rfl, rfl, rfl⟩
      unfold eventAt
      simp only [List.getElem?_set_self hlt]
    · intro hc
      exact Bool.noConfusion hc
  | true =>
    simp only [Bool.not_true, Bool.false_eq_true, if_false]
    refine ⟨_, rfl, ?_⟩
    rw [markAborted_eq b ev error x buf hb]
    rw [complete_eq b _ _ _ (List.getElem?_set_self hlt)]
    refine ⟨rfl, rfl, rfl, rfl, rfl, rfl, ?_, ?_, ?_⟩
    · intro j hj
      simp only [List.set_set]
      exact List.getElem?_set_ne (Ne.symm hj)
    · intro hc
      exact Bool.noConfusion hc
    · intro _
      refine ⟨?_, rfl, rfl, rfl⟩
      unfold eventAt
      simp only [List.set_set, List.getElem?_set_self hlt]

/-- C16 on a pool with a TLB: the transfer 7 in buffer 1 waits for a translation and transfer
8 waits for a buffer; the abort of transfer 7 releases buffer 1, aborts the translation and
schedules transfer 8. -/
theorem abort_releases_witness :
    ∃ x1, abort 3 1 TcuError.ABORT
        (Scenario.xfer (some Scenario.missTlb) 64
          [Scenario.freeBuf, Scenario.liveBuf { Scenario.transfer 7 0 0x2000 16 with
            trans := true }]
          [Scenario.transfer 8 0 0x3000 16]) = some x1 ∧
      x1.eventAt 1 = none ∧ x1.abortedTranslations = [1] ∧ x1.queue = [] ∧
      x1.scheduledEvents = [Scenario.transfer 8 0 0x3000 16] ∧
      x1.doneCalls = [(7, TcuError.ABORT)] := by
  obtain ⟨x1, h1, _, h3, _, h5, _, _, _, _, h10⟩ := abort_releases 0 1 TcuError.ABORT
    (Scenario.xfer (some Scenario.missTlb) 64
      [Scenario.freeBuf, Scenario.liveBuf { Scenario.transfer 7 0 0x2000 16 with
        trans := true }]
      [Scenario.transfer 8 0 0x3000 16])
    { Scenario.transfer 7 0 0x2000 16 with trans := true } (by decide) (by decide) (by decide)
    (by
      intro j ev1 hj h
      have hj0 : j = 0 := by omega
      subst hj0
      exact Option.noConfusion (show (none : Option TransferEvent) = some ev1 from h))
  obtain ⟨h11, _, h13, h14⟩ := h10 rfl
  exact ⟨x1, h1, h11, h3, h13, h14, h5⟩

/-! ## The TLB lookup of `process` -/

/-- From an address below a multiple `NP` of the block size, the rest of the block ends at or
before `NP`. -/
theorem block_rest_le (bs L NP : Nat) (hbs : 0 < bs) (hd : bs ∣ NP) (hL : L < NP) :
    bs - L % bs ≤ NP - L := by
  obtain ⟨m, rfl⟩ := hd
  have h1 : L / bs < m := Nat.div_lt_of_lt_mul hL
  have h2 : bs * (L / bs + 1) ≤ bs * m := Nat.mul_le_mul_left bs h1
  have h3 := Nat.div_add_mod L bs
  have h4 := Nat.mod_lt L hbs
  rw [Nat.mul_add, Nat.mul_one] at h2
  omega

theorem pow_dvd_page (k : Nat) (hk : k ≤ 12) : 2 ^ k ∣ 4096 := by
  have h : (4096 : Nat) = 2 ^ 12 := by norm_num
  rw [h]
  exact Nat.pow_dvd_pow 2 hk

theorem subWrap64_eq (a b : Nat) (hb : b ≤ a) (ha : a < 2 ^ 64) : subWrap64 a b = a - b := by
  unfold subWrap64
  have hb2 : b % 2 ^ 64 = b := Nat.mod_eq_of_lt (Nat.lt_of_le_of_lt hb ha)
  rw [hb2]
  have h : a + 2 ^ 64 - b = (a - b) + 2 ^ 64 := by omega
  rw [h, Nat.add_mod_right]
  exact Nat.mod_eq_of_lt (by omega)

theorem reqSize_pow (x : XferUnit) (ev : TransferEvent) (k : Nat) (hbs : x.blockSize = 2 ^ k) :
    x.reqSize ev = min ev.remaining (2 ^ k - ev.localAddr % 2 ^ k) := by
  unfold reqSize
  rw [hbs, Nat.and_pow_two_sub_one_eq_mod]

theorem pageBase_eq (a : Nat) : pageBase a = a - a % 4096 := by
  unfold pageBase
  have h : TcuTlb.PAGE_MASK = 2 ^ 12 - 1 := by decide
  rw [h, Nat.and_pow_two_sub_one_eq_mod]

theorem eventAt_issueOne (b : Nat) (ev : TransferEvent) (buf : Buffer) (pa : Nat)
    (x : XferUnit) (hlt : b < x.bufs.length) :
    (x.issueOne b ev buf pa).eventAt b = some { ev with
      localAddr := ev.localAddr + x.reqSize ev
      remaining := ev.remaining - x.reqSize ev
      freeSlots := ev.freeSlots - 1 } := by
  unfold eventAt
  simp only [issueOne, List.getElem?_set_self hlt]

/-- The requests of the loop of `translateDone` for a block size `2 ^ k` that divides the page
size, from a transfer at `L = ev.localAddr` inside the page that ends at `NP`: every request
starts at or after `L`, has a positive size, ends at or before `NP`, and its size is the
minimum of the bytes that remain when it is issued and of the rest of its block. -/
theorem issueRequests_sizes (k : Nat) (hk : k ≤ 12) (n b : Nat) :
    ∀ (pr pa : Nat) (x x1 : XferUnit) (ev : TransferEvent) (NP : Nat),
      x.blockSize = 2 ^ k → x.eventAt b = some ev → 4096 ∣ NP →
      ev.localAddr ≤ NP → NP ≤ ev.localAddr + 4096 →
      pr = min ev.remaining (NP - ev.localAddr) →
      issueRequests n b pr pa x = some x1 →
      ∃ new, x1.memRequests = x.memRequests ++ new ∧ ∀ r ∈ new,
        ev.localAddr ≤ r.virt ∧ 0 < r.size ∧ r.virt + r.size ≤ NP ∧
        r.size = min (ev.remaining - (r.virt - ev.localAddr)) (2 ^ k - r.virt % 2 ^ k) ∧
        r.physAddr = pa + (r.virt - ev.localAddr) := by
  induction n with
  | zero =>
    intro pr pa x x1 ev NP _ _ _ _ _ _ h
    simp only [issueRequests, Option.some.injEq] at h
    subst h
    exact ⟨[], (List.append_nil _).symm, by intro r hr; cases hr⟩
  | succ n ih =>
    intro pr pa x x1 ev NP hbs hev hNP hL hP hpr h
    obtain ⟨buf, hb, hbe⟩ := eventAt_some x b ev hev
    have hlt := eventAt_lt x b ev hev
    simp only [issueRequests, hev, hb] at h
    by_cases hc : ev.freeSlots > 0 ∧ pr > 0
    · rw [if_pos hc] at h
      by_cases hw : ev.isWrite = true ∧ ¬ (buf.offset + x.reqSize ev ≤ x.bufSize)
      · rw [if_pos hw] at h
        exact Option.noConfusion h
      · rw [if_neg hw] at h
        have hs := reqSize_pow x ev k hbs
        have hpos : 0 < 2 ^ k := Nat.two_pow_pos k
        have hmod := Nat.mod_lt ev.localAddr hpos
        have hprpos : 0 < pr := hc.2
        have hR : 0 < ev.remaining ∧ ev.localAddr < NP := by omega
        have hrest := block_rest_le (2 ^ k) ev.localAddr NP hpos
          (Dvd.dvd.trans (pow_dvd_page k hk) hNP) hR.2
        have hev1 := eventAt_issueOne b ev buf pa x hlt
        have hreq : ∃ req : MemRequest,
            (x.issueOne b ev buf pa).memRequests = x.memRequests ++ [req] ∧
            req.virt = ev.localAddr ∧ req.size = x.reqSize ev ∧ req.physAddr = pa :=
          ⟨_, rfl, rfl, rfl, rfl⟩
        have hbs1 : (x.issueOne b ev buf pa).blockSize = 2 ^ k := hbs
        generalize x.issueOne b ev buf pa = y at h hev1 hreq hbs1
        generalize x.reqSize ev = s at h hs hev1 hreq
        have hspr : s ≤ pr := by omega
        have hprlt : pr < 2 ^ 64 := by
          have : pr ≤ 4096 := by omega
          have : (4096 : Nat) < 2 ^ 64 := by norm_num
          omega
        rw [subWrap64_eq pr s hspr hprlt] at h
        obtain ⟨new, hnew, hall⟩ := ih (pr - s) (pa + s) y x1 _ NP hbs1 hev1 hNP
          (by show ev.localAddr + s ≤ NP; omega)
          (by show NP ≤ ev.localAddr + s + 4096; omega)
          (by show pr - s = min (ev.remaining - s) (NP - (ev.localAddr + s)); omega) h
        obtain ⟨req, hreq, hv, hsz, hpa⟩ := hreq
        refine ⟨req :: new, ?_, ?_⟩
        · rw [hnew, hreq, List.append_assoc]
          rfl
        · intro r hr
          rcases List.mem_cons.mp hr with hr | hr
          · subst hr
            rw [hv, hsz, hpa]
            refine ⟨Nat.le_refl _, ?_, ?_, ?_, ?_⟩ <;> omega
          · obtain ⟨h1, h2, h3, h4, h5⟩ := hall r hr
            have h1 : ev.localAddr + s ≤ r.virt := h1
            have h4 : r.size = min (ev.remaining - s - (r.virt - (ev.localAddr + s)))
              (2 ^ k - r.virt % 2 ^ k) := h4
            have h5 : r.physAddr = pa + s + (r.virt - (ev.localAddr + s)) := h5
            refine ⟨by omega, h2, h3, ?_, by omega⟩
            rw [h4]
            have : ev.remaining - s - (r.virt - (ev.localAddr + s))
                = ev.remaining - (r.virt - ev.localAddr) := by omega
            rw [this]
    · rw [if_neg hc, Option.some.injEq] at h
      subst h
      exact ⟨[], (List.append_nil _).symm, by intro r hr; cases hr⟩

theorem translateDone_loop (n b phys : Nat) (x : XferUnit) (ev : TransferEvent) (buf : Buffer)
    (hev : x.eventAt b = some ev) (hb : x.bufs[b]? = some buf)
    (hres : ev.result = TcuError.NONE) (hrem : ev.remaining ≠ 0) :
    translateDone (n + 1) b true phys x =
      issueRequests ev.freeSlots b
        (min ev.remaining (pageBase (ev.localAddr + TcuTlb.PAGE_SIZE) - ev.localAddr))
        (x.nocToPhys (pageBase phys) + (ev.localAddr &&& TcuTlb.PAGE_MASK))
        { x with bufs := x.bufs.set b { buf with event := some { ev with trans := false } } } := by
  simp only [translateDone, hev, hres, ne_eq, not_true, if_false, Bool.not_true,
    Bool.false_eq_true, if_neg hrem]
  rw [setEvent_bufs x b buf _ hb]

/-- C20, the claim as written fails: with blocks of 8192 bytes, for the read transfer 7 of
8192 bytes at the local address 0 with four free slots, `translateDone` issues a first request
of 8192 bytes at address 0, which is not `min(8192, 8192 - 0, 4096 - 0) = 4096` and crosses
the page boundary at 4096; `pageRemaining -= reqSize` then wraps, and the loop spends the
other three slots on requests of size 0. -/
theorem translateDone_request_counterexample :
    (translateDone 1 0 true 0
        { Scenario.xfer none 8192 [Scenario.liveBuf (Scenario.transfer 7 0 0 8192)] [] with
          bufSize := 8192 }).map
      (fun x1 => x1.memRequests.map (fun r => (r.virt, r.size)))
      = some [(0, 8192), (8192, 0), (8192, 0), (8192, 0)] ∧
    (8192 : Nat) ≠ min 8192 (min (8192 - 0 % 8192) (pageBase (0 + TcuTlb.PAGE_SIZE) - 0)) ∧
    ¬ (0 % TcuTlb.PAGE_SIZE + 8192 ≤ TcuTlb.PAGE_SIZE) := by
  decide

/-- The request loop returns for a read transfer, which has no assertion to pass. -/
theorem issueRequests_returns_read (n b : Nat) :
    ∀ (pr pa : Nat) (x : XferUnit) (ev : TransferEvent), x.eventAt b = some ev →
      ev.isWrite = false → ∃ x1, issueRequests n b pr pa x = some x1 := by
  induction n with
  | zero =>
    intro pr pa x ev _ _
    exact ⟨x, rfl⟩
  | succ n ih =>
    intro pr pa x ev hev hread
    obtain ⟨buf, hb, _⟩ := eventAt_some x b ev hev
    have hlt := eventAt_lt x b ev hev
    simp only [issueRequests, hev, hb]
    by_cases hc : ev.freeSlots > 0 ∧ pr > 0
    · rw [if_pos hc, if_neg (by rw [hread]; simp)]
      exact ih _ _ _ _ (eventAt_issueOne b ev buf pa x hlt) hread
    · rw [if_neg hc]
      exact ⟨x, rfl⟩

/-- C20 (amended): for a block size `2 ^ k` with `k ≤ 12`, a power of two that is at most the
page size, every request that `translateDone` issues for the transfer `ev` of buffer `b`
has the size that the code computes, `min(remaining, blockSize - localOff)` with
`localOff = local & (blockSize - 1)`, and this is
`min(remaining, blockSize - localOff, nextPage - local)` with `localOff = local mod blockSize`
and `nextPage` the next page boundary above `local`, all taken when the request is issued:
then `local` is the address `r.virt` of the request and `remaining` is what the earlier
requests, which cover `ev.localAddr .. r.virt`, have left.  The size is positive and the
request lies inside one page, at the page offset of `r.virt` in the translated page.  For a
read transfer `translateDone` returns (a write transfer has to pass the assertion on the
buffer size). -/
theorem translateDone_request_sizes (k : Nat) (hk : k ≤ 12) (n b phys : Nat)
    (x : XferUnit) (ev : TransferEvent) (hbs : x.blockSize = 2 ^ k)
    (hev : x.eventAt b = some ev) :
    (∀ x1, translateDone (n + 1) b true phys x = some x1 →
      ∃ new, x1.memRequests = x.memRequests ++ new ∧ ∀ r ∈ new,
        ev.localAddr ≤ r.virt ∧
        r.size = min (ev.remaining - (r.virt - ev.localAddr))
          (x.blockSize - (r.virt &&& (x.blockSize - 1))) ∧
        r.size = min (ev.remaining - (r.virt - ev.localAddr))
          (min (x.blockSize - r.virt % x.blockSize)
            (pageBase (r.virt + TcuTlb.PAGE_SIZE) - r.virt)) ∧
        0 < r.size ∧ r.virt % TcuTlb.PAGE_SIZE + r.size ≤ TcuTlb.PAGE_SIZE ∧
        r.physAddr = x.nocToPhys (pageBase phys) + r.virt % TcuTlb.PAGE_SIZE) ∧
    (ev.isWrite = false → ∃ x1, translateDone (n + 1) b true phys x = some x1) := by
  obtain ⟨buf, hb, _⟩ := eventAt_some x b ev hev
  have hlt := eventAt_lt x b ev hev
  refine ⟨?_, ?_⟩
  swap
  · intro hread
    by_cases hres : ev.result = TcuError.NONE
    · by_cases hrem : ev.remaining = 0
      · simp only [translateDone, hev, hres, ne_eq, not_true, if_false, Bool.not_true,
          Bool.false_eq_true, if_pos hrem]
        exact ⟨_, rfl⟩
      · rw [translateDone_loop n b phys x ev buf hev hb hres hrem]
        exact issueRequests_returns_read _ b _ _ _ { ev with trans := false }
          (by unfold eventAt; simp only [List.getElem?_set_self hlt]) hread
    · simp only [translateDone, hev, ne_eq, hres, not_false_eq_true, if_true]
      exact ⟨_, rfl⟩
  intro x1 h
  have hnil : ∃ new, x.memRequests = x.memRequests ++ new ∧ ∀ r ∈ new,
      ev.localAddr ≤ r.virt ∧
      r.size = min (ev.remaining - (r.virt - ev.localAddr))
        (x.blockSize - (r.virt &&& (x.blockSize - 1))) ∧
      r.size = min (ev.remaining - (r.virt - ev.localAddr))
        (min (x.blockSize - r.virt % x.blockSize)
          (pageBase (r.virt + TcuTlb.PAGE_SIZE) - r.virt)) ∧
      0 < r.size ∧ r.virt % TcuTlb.PAGE_SIZE + r.size ≤ TcuTlb.PAGE_SIZE ∧
      r.physAddr = x.nocToPhys (pageBase phys) + r.virt % TcuTlb.PAGE_SIZE :=
    ⟨[], (List.append_nil _).symm, by intro r hr; cases hr⟩
  by_cases hres : ev.result = TcuError.NONE
  · by_cases hrem : ev.remaining = 0
    · simp only [translateDone, hev, hres, ne_eq, not_true, if_false, Bool.not_true,
        Bool.false_eq_true, if_pos hrem, Option.some.injEq] at h
      rw [setEvent_bufs x b buf _ hb] at h
      rw [← h]
      exact hnil
    · rw [translateDone_loop n b phys x ev buf hev hb hres hrem] at h
      generalize x.nocToPhys (pageBase phys) = base at h ⊢
      have hps : TcuTlb.PAGE_SIZE = 4096 := by decide
      have hpm : ev.localAddr &&& TcuTlb.PAGE_MASK = ev.localAddr % 4096 := by
        have hm : TcuTlb.PAGE_MASK = 2 ^ 12 - 1 := by decide
        rw [hm, Nat.and_pow_two_sub_one_eq_mod]
      rw [hpm, hps, pageBase_eq] at h
      have hNP : (4096 : Nat) ∣ ev.localAddr + 4096 - (ev.localAddr + 4096) % 4096 :=
        Nat.dvd_sub_mod _
      obtain ⟨new, hnew, hall⟩ := issueRequests_sizes k hk ev.freeSlots b _ _
        { x with bufs := x.bufs.set b { buf with event := some { ev with trans := false } } }
        x1 { ev with trans := false }
        (ev.localAddr + 4096 - (ev.localAddr + 4096) % 4096) hbs
        (by unfold eventAt; simp only [List.getElem?_set_self hlt]) hNP
        (by show ev.localAddr ≤ _; omega) (by show _ ≤ ev.localAddr + 4096; omega) rfl h
      refine ⟨new, hnew, ?_⟩
      intro r hr
      obtain ⟨h1, h2, h3, h4, h5⟩ := hall r hr
      have h1 : ev.localAddr ≤ r.virt := h1
      have h4 : r.size = min (ev.remaining - (r.virt - ev.localAddr))
        (2 ^ k - r.virt % 2 ^ k) := h4
      have h5 : r.physAddr = base + ev.localAddr % 4096 + (r.virt - ev.localAddr) := h5
      have hpos : 0 < 2 ^ k := Nat.two_pow_pos k
      have hrest := block_rest_le (2 ^ k) r.virt
        (ev.localAddr + 4096 - (ev.localAddr + 4096) % 4096) hpos
        (Dvd.dvd.trans (pow_dvd_page k hk) hNP) (by omega)
      rw [hps, pageBase_eq, hbs, Nat.and_pow_two_sub_one_eq_mod]
      refine ⟨h1, h4, ?_, h2, ?_, ?_⟩
      · have hnp : r.virt + 4096 - (r.virt + 4096) % 4096
            = ev.localAddr + 4096 - (ev.localAddr + 4096) % 4096 := by omega
        rw [hnp, h4]
        omega
      · omega
      · rw [h5]
        omega
  · simp only [translateDone, hev, ne_eq, hres, not_false_eq_true, if_true,
      Option.some.injEq] at h
    rw [← h]
    exact hnil

/-- C20 (amended) with blocks of 64 bytes: the read transfer 7 of 200 bytes at `0x2F80` gets
the two requests of 64 bytes that fit into its page, and both stay inside the page. -/
theorem translateDone_request_sizes_witness :
    (translateDone 1 0 true 0x2F80
        (Scenario.xfer none 64 [Scenario.liveBuf (Scenario.transfer 7 0 0x2F80 200)] [])).map
      (fun x1 => x1.memRequests.map (fun r => (r.virt, r.size)))
      = some [(0x2F80, 64), (0x2FC0, 64)] ∧
    ∃ x1 new, translateDone 1 0 true 0x2F80
        (Scenario.xfer none 64 [Scenario.liveBuf (Scenario.transfer 7 0 0x2F80 200)] [])
        = some x1 ∧
      x1.memRequests = [] ++ new ∧
      ∀ r ∈ new, 0 < r.size ∧ r.virt % TcuTlb.PAGE_SIZE + r.size ≤ TcuTlb.PAGE_SIZE := by
  refine ⟨by decide, ?_⟩
  have hw := translateDone_request_sizes 6 (by decide) 0 0 0x2F80
    (Scenario.xfer none 64 [Scenario.liveBuf (Scenario.transfer 7 0 0x2F80 200)] [])
    (Scenario.transfer 7 0 0x2F80 200) (by decide) (by decide)
  obtain ⟨x1, hx1⟩ := hw.2 rfl
  obtain ⟨new, h1, h2⟩ := hw.1 x1 hx1
  exact ⟨x1, new, hx1, h1, fun r hr => ⟨(h2 r hr).2.2.2.1, (h2 r hr).2.2.2.2.1⟩⟩

/-! ## Responses for transfers that are gone -/

theorem getBuffer_none (x : XferUnit) (i : Nat)
    (h : ∀ j ev, x.eventAt j = some ev → ev.id ≠ i) : x.getBuffer i = none := by
  unfold getBuffer
  rw [scanLoop_none]
  intro j _ _
  cases hev : x.eventAt j with
  | none => rfl
  | some ev =>
    simp only [beq_eq_false_iff_ne]
    exact h j ev hev

/-- C22: a memory response whose event id (the low 32 bits of its tag) is the id of no live
transfer is ignored: `getBuffer` finds no buffer, and `recvMemResponse` returns, for every
depth bound of at least 1 and with or without a packet, the state it was called in, so that no
byte of a buffer and no `freeSlots` change, and no transfer is continued or completed. -/
theorem recvMemResponse_ignored (n evId : Nat) (pkt : Option MemResponse) (x : XferUnit)
    (h : ∀ j ev, x.eventAt j = some ev → ev.id ≠ evId &&& 0xFFFFFFFF) :
    x.getBuffer (evId &&& 0xFFFFFFFF) = none ∧ recvMemResponse (n + 1) evId pkt x = some x := by
  have hg := getBuffer_none x (evId &&& 0xFFFFFFFF) h
  refine ⟨hg, ?_⟩
  simp only [recvMemResponse, hg]

/-- C22 on a pool in which only transfer 7 is live: a response with data for transfer 9 at
the buffer offset 16 leaves the state as it is. -/
theorem recvMemResponse_ignored_witness :
    recvMemResponse 1 (9 ||| (16 <<< 32)) (some ⟨4, [1, 2, 3, 4]⟩)
        (Scenario.xfer none 64
          [Scenario.liveBuf (Scenario.transfer 7 0 0x2000 16), Scenario.freeBuf] [])
      = some (Scenario.xfer none 64
          [Scenario.liveBuf (Scenario.transfer 7 0 0x2000 16), Scenario.freeBuf] []) :=
  (recvMemResponse_ignored 0 (9 ||| (16 <<< 32)) (some ⟨4, [1, 2, 3, 4]⟩)
    (Scenario.xfer none 64
      [Scenario.liveBuf (Scenario.transfer 7 0 0x2000 16), Scenario.freeBuf] [])
    (by
      intro j ev hj
      match j, hj with
      | 0, hj =>
        have : ev = Scenario.transfer 7 0 0x2000 16 := (Option.some.inj hj).symm
        rw [this]
        decide
      | 1, hj => exact Option.noConfusion hj
      | _ + 2, hj => exact Option.noConfusion hj)).2

/-! ## The wait queue -/

/-- What an allocation that found buffer `b` has done. -/
theorem allocateBuf_some (event : TransferEvent) (flags : Nat) (x : XferUnit) (b : Nat)
    (h : (allocateBuf event flags x).1 = some b) :
    b < x.bufs.length ∧ x.eventAt b = none ∧
      (allocateBuf event flags x).2.eventAt b = some event ∧
      (allocateBuf event flags x).2.bufs.length = x.bufs.length ∧
      (allocateBuf event flags x).2.queue = x.queue ∧
      (allocateBuf event flags x).2.delays = x.delays ∧
      (allocateBuf event flags x).2.scheduledEvents = x.scheduledEvents := by
  unfold allocateBuf at h ⊢
  by_cases hr : flags &&& XferFlags.MSGRECV ≠ 0 ∧ x.bufs.any isLiveRecv = true
  · rw [if_pos hr] at h
    exact Option.noConfusion h
  · rw [if_neg hr] at h ⊢
    cases hs : scanLoop (fun i => (x.eventAt i).isNone) (x.allocStart flags) x.bufs.length with
    | none =>
      rw [hs] at h
      exact Option.noConfusion h
    | some k =>
      rw [hs] at h
      have hk : k = b := Option.some.inj h
      subst hk
      obtain ⟨_, h2, h3, _⟩ := scanLoop_some _ _ _ _ hs
      refine ⟨h2, Option.isNone_iff_eq_none.mp h3, ?_, ?_, rfl, rfl, rfl⟩
      · show XferUnit.eventAt { x with bufs := _ } k = some event
        rw [eventAt_set_bufs _ _ _ _ h2, if_pos rfl]
      · exact List.length_set _ _ _

theorem setEvent_fields (x : XferUnit) (b : Nat) (e : Option TransferEvent) :
    (x.setEvent b e).queue = x.queue ∧ (x.setEvent b e).delays = x.delays ∧
      (x.setEvent b e).scheduledEvents = x.scheduledEvents ∧
      (x.setEvent b e).finished = x.finished ∧ (x.setEvent b e).doneCalls = x.doneCalls := by
  unfold setEvent
  split <;> exact ⟨rfl, rfl, rfl, rfl, rfl⟩

theorem allocateBuf_none (event : TransferEvent) (flags : Nat) (x : XferUnit)
    (h : (allocateBuf event flags x).1 = none) : (allocateBuf event flags x).2 = x := by
  unfold allocateBuf at h ⊢
  by_cases hr : flags &&& XferFlags.MSGRECV ≠ 0 ∧ x.bufs.any isLiveRecv = true
  · rw [if_pos hr]
  · rw [if_neg hr] at h ⊢
    cases hs : scanLoop (fun i => (x.eventAt i).isNone) (x.allocStart flags) x.bufs.length with
    | none => rfl
    | some k =>
      rw [hs] at h
      exact Option.noConfusion h

/-- C24, the claim as written fails: on a pool of one buffer, whose read transfer 5 has all its
bytes and slots back, the transfers 7 and 8 wait in the queue.  The completion of transfer 5
frees the buffer and takes transfer 7 off the queue to schedule it; transfer 9, which tries to
start next, is given the buffer, while transfer 8 is still in the wait queue and transfer 7
has not had its turn. -/
theorem tryStart_overtakes_counterexample :
    (continueTransfer 1 0 (Scenario.xfer none 64
        [Scenario.liveBuf (Scenario.transfer 5 0 0x2000 0)]
        [Scenario.transfer 7 0 0x3000 16, Scenario.transfer 8 0 0x4000 16])).map
      (fun x1 => (x1.queue.map TransferEvent.id, x1.scheduledEvents.map TransferEvent.id,
        (x1.eventAt 0).map TransferEvent.id,
        ((tryStart (Scenario.transfer 9 0 0x5000 16) x1).eventAt 0).map TransferEvent.id,
        (tryStart (Scenario.transfer 9 0 0x5000 16) x1).queue.map TransferEvent.id))
      = some ([8], [7], none, some 9, [8]) := by
  decide

/-- C24 (amended): the wait queue is served in the order of queueing, and `tryStart` does not
look at it.  A transfer for which `allocateBuf` finds no buffer is appended at the back of
the queue, the pool staying as it is; a transfer for which `allocateBuf` finds buffer `b` is
bound to `b` and scheduled, whatever transfers wait in the queue, which stays as it is; and a
completion in `continueTransfer` (the transfer is done and `transferDone` returns true) frees
the buffer, takes the transfer at the front off the queue and schedules it. -/
theorem wait_queue_order (ev : TransferEvent) (x : XferUnit) :
    ((allocateBuf { ev with vpe := x.curVpe } ev.flags x).1 = none →
      (tryStart ev x).queue = x.queue ++ [{ ev with vpe := x.curVpe }] ∧
      (tryStart ev x).bufs = x.bufs ∧ (tryStart ev x).delays = x.delays + 1 ∧
      (tryStart ev x).scheduledEvents = x.scheduledEvents) ∧
    (∀ b, (allocateBuf { ev with vpe := x.curVpe } ev.flags x).1 = some b →
      x.eventAt b = none ∧
      (tryStart ev x).eventAt b = some { ev with vpe := x.curVpe, scheduled := true } ∧
      (tryStart ev x).queue = x.queue ∧ (tryStart ev x).delays = x.delays ∧
      (tryStart ev x).scheduledEvents = x.scheduledEvents) ∧
    (∀ n b done, x.eventAt b = some done →
      done.result ≠ TcuError.NONE ∨ (done.remaining = 0 ∧ done.freeSlots = x.reqCount) →
      x.transferDone done = true →
      ∃ x1, continueTransfer (n + 1) b x = some x1 ∧ x1.eventAt b = none ∧
        x1.queue = x.queue.tail ∧
        x1.scheduledEvents = x.scheduledEvents ++ x.queue.head?.toList) := by
  refine ⟨?_, ?_, ?_⟩
  · intro h
    have h2 := allocateBuf_none _ _ _ h
    unfold tryStart
    simp only
    generalize allocateBuf { ev with vpe := x.curVpe } ev.flags x = r at h h2
    obtain ⟨r1, r2⟩ := r
    simp only at h h2
    subst h h2
    exact ⟨rfl, rfl, rfl, rfl⟩
  · intro b h
    obtain ⟨hlt, hfree, h3, h4, h5, h6, h7⟩ := allocateBuf_some _ _ _ _ h
    unfold tryStart
    simp only
    generalize allocateBuf { ev with vpe := x.curVpe } ev.flags x = r at h h3 h4 h5 h6 h7
    obtain ⟨r1, r2⟩ := r
    simp only at h h3 h4 h5 h6 h7
    subst h
    simp only
    have hev : XferUnit.eventAt { r2 with
        transferStarts := r2.transferStarts ++ [ev.id] } b
        = some { ev with vpe := x.curVpe } := h3
    unfold start
    rw [hev]
    simp only
    obtain ⟨g1, g2, g3, _, _⟩ := setEvent_fields { r2 with
      transferStarts := r2.transferStarts ++ [ev.id] } b
      (some { ev with vpe := x.curVpe, scheduled := true })
    refine ⟨hfree, ?_, ?_, ?_, ?_⟩
    · rw [eventAt_setEvent _ _ _ _ (by show b < r2.bufs.length; rw [h4]; exact hlt), if_pos rfl]
    · rw [g1]
      exact h5
    · rw [g2]
      exact h6
    · rw [g3]
      exact h7
  · intro n b done hev hd ht
    obtain ⟨buf, hb, _⟩ := eventAt_some x b done hev
    have hlt := eventAt_lt x b done hev
    rw [continueTransfer_done n b x done hev hd, ht]
    simp only [Bool.not_true, Bool.false_eq_true, if_false]
    rw [complete_eq b done { x with doneCalls := x.doneCalls ++ [(done.id, done.result)] }
      buf hb]
    refine ⟨_, rfl, ?_, rfl, rfl⟩
    unfold eventAt
    simp only [List.getElem?_set_self hlt]

/-- C24 (amended) on a pool with a TLB whose buffer 1 is taken: transfer 8, which may cause a
pagefault, finds no buffer and is appended to the queue behind transfer 7. -/
theorem wait_queue_order_witness :
    (tryStart (Scenario.transfer 8 0 0x4000 16)
        (Scenario.xfer (some Scenario.hitTlb) 64
          [Scenario.freeBuf, Scenario.liveBuf (Scenario.transfer 5 0 0x2000 16)]
          [Scenario.transfer 7 0 0x3000 16])).queue
      = [Scenario.transfer 7 0 0x3000 16, Scenario.transfer 8 0 0x4000 16] :=
  ((wait_queue_order (Scenario.transfer 8 0 0x4000 16)
    (Scenario.xfer (some Scenario.hitTlb) 64
      [Scenario.freeBuf, Scenario.liveBuf (Scenario.transfer 5 0 0x2000 16)]
      [Scenario.transfer 7 0 0x3000 16])).1 (by decide)).1

/-! ## One run of the request loop -/

theorem issueOne_buf (b : Nat) (ev : TransferEvent) (buf : Buffer) (pa : Nat) (x : XferUnit)
    (hlt : b < x.bufs.length) :
    (x.issueOne b ev buf pa).bufs[b]? = some { buf with
      event := some { ev with
        localAddr := ev.localAddr + x.reqSize ev
        remaining := ev.remaining - x.reqSize ev
        freeSlots := ev.freeSlots - 1 }
      offset := buf.offset + x.reqSize ev } := by
  simp only [issueOne, List.getElem?_set_self hlt]

/-- One run of the loop of `translateDone` for a block size `2 ^ k` that divides the page
size, with `f` free slots, from a transfer at `L = ev.localAddr` inside the page that ends at
`NP`, and with room in the buffer for the bytes of a write.  The loop returns after `new.length
≤ f` requests; each has a size of at least 1 and lies inside one block; the transfer and the
buffer have moved on by the sum of the sizes, and the loop has stopped because the slots or the
bytes of the page are used up. -/
theorem issueRequests_run (k : Nat) (hk : k ≤ 12) (b : Nat) (f : Nat) :
    ∀ (pr pa : Nat) (x : XferUnit) (ev : TransferEvent) (buf : Buffer) (NP : Nat),
      x.blockSize = 2 ^ k → x.bufs[b]? = some buf → buf.event = some ev → ev.freeSlots = f →
      4096 ∣ NP → ev.localAddr ≤ NP → NP ≤ ev.localAddr + 4096 →
      pr = min ev.remaining (NP - ev.localAddr) →
      (ev.isWrite = true → buf.offset + pr ≤ x.bufSize) →
      ∃ x1 new ev1 buf1, issueRequests f b pr pa x = some x1 ∧
        x1.memRequests = x.memRequests ++ new ∧
        x1.bufs[b]? = some buf1 ∧ buf1.event = some ev1 ∧
        new.length ≤ f ∧ ev1.freeSlots = f - new.length ∧
        (∀ r ∈ new, 1 ≤ r.size ∧ r.virt % 2 ^ k + r.size ≤ 2 ^ k) ∧
        ev1.remaining + (new.map MemRequest.size).sum = ev.remaining ∧
        ev1.localAddr = ev.localAddr + (new.map MemRequest.size).sum ∧
        buf1.offset = buf.offset + (new.map MemRequest.size).sum ∧
        (ev1.freeSlots = 0 ∨ (new.map MemRequest.size).sum = pr) := by
  induction f with
  | zero =>
    intro pr pa x ev buf NP _ hb hbe hf _ _ _ _ _
    refine ⟨x, [], ev, buf, rfl, (List.append_nil _).symm, hb, hbe, Nat.le_refl _, hf, ?_,
      rfl, rfl, rfl, Or.inl hf⟩
    intro r hr
    cases hr
  | succ f ih =>
    intro pr pa x ev buf NP hbs hb hbe hf hNP hL hP hpr hroom
    have hev : x.eventAt b = some ev := by rw [eventAt_of_buf x b buf hb]; exact hbe
    have hlt := eventAt_lt x b ev hev
    simp only [issueRequests, hev, hb]
    by_cases hc : ev.freeSlots > 0 ∧ pr > 0
    · rw [if_pos hc]
      have hs := reqSize_pow x ev k hbs
      have hpos : 0 < 2 ^ k := Nat.two_pow_pos k
      have hmod := Nat.mod_lt ev.localAddr hpos
      have hprpos : 0 < pr := hc.2
      have hR : 0 < ev.remaining ∧ ev.localAddr < NP := by omega
      have hrest := block_rest_le (2 ^ k) ev.localAddr NP hpos
        (Dvd.dvd.trans (pow_dvd_page k hk) hNP) hR.2
      have hspr : x.reqSize ev ≤ pr := by omega
      have hw : ¬ (ev.isWrite = true ∧ ¬ (buf.offset + x.reqSize ev ≤ x.bufSize)) := by
        rintro ⟨hwr, hno⟩
        have := hroom hwr
        omega
      rw [if_neg hw]
      have hprlt : pr < 2 ^ 64 := by
        have : pr ≤ 4096 := by omega
        have : (4096 : Nat) < 2 ^ 64 := by norm_num
        omega
      rw [subWrap64_eq pr _ hspr hprlt]
      have hb1 := issueOne_buf b ev buf pa x hlt
      have hreq : ∃ req : MemRequest,
          (x.issueOne b ev buf pa).memRequests = x.memRequests ++ [req] ∧
          req.virt = ev.localAddr ∧ req.size = x.reqSize ev :=
        ⟨_, rfl, rfl, rfl⟩
      have hbs1 : (x.issueOne b ev buf pa).blockSize = 2 ^ k := hbs
      have hbsz : (x.issueOne b ev buf pa).bufSize = x.bufSize := rfl
      generalize x.issueOne b ev buf pa = y at hb1 hreq hbs1 hbsz
      generalize x.reqSize ev = s at hs hspr hb1 hreq
      obtain ⟨req, hreq, hv, hsz⟩ := hreq
      obtain ⟨x1, new, ev1, buf1, h1, h2, h3, h4, h5, h6, h7, h8, h9, h10, h11⟩ :=
        ih (pr - s) (pa + s) y _ _ NP hbs1 hb1 rfl (by show ev.freeSlots - 1 = f; omega) hNP
          (by show ev.localAddr + s ≤ NP; omega)
          (by show NP ≤ ev.localAddr + s + 4096; omega)
          (by show pr - s = min (ev.remaining - s) (NP - (ev.localAddr + s)); omega)
          (by
            intro hwr
            have := hroom hwr
            show buf.offset + s + (pr - s) ≤ y.bufSize
            rw [hbsz]
            omega)
      have h8 : ev1.remaining + (new.map MemRequest.size).sum = ev.remaining - s := h8
      have h9 : ev1.localAddr = ev.localAddr + s + (new.map MemRequest.size).sum := h9
      have h10 : buf1.offset = buf.offset + s + (new.map MemRequest.size).sum := h10
      refine ⟨x1, req :: new, ev1, buf1, h1, ?_, h3, h4, ?_, ?_, ?_, ?_, ?_, ?_, ?_⟩
      · rw [h2, hreq, List.append_assoc]
        rfl
      · simp only [List.length_cons]
        omega
      · simp only [List.length_cons]
        omega
      · intro r hr
        rcases List.mem_cons.mp hr with hr | hr
        · subst hr
          rw [hv, hsz]
          omega
        · exact h7 r hr
      · simp only [List.map_cons, List.sum_cons, hsz]
        omega
      · simp only [List.map_cons, List.sum_cons, hsz]
        omega
      · simp only [List.map_cons, List.sum_cons, hsz]
        omega
      · simp only [List.map_cons, List.sum_cons, hsz]
        rcases h11 with h11 | h11
        · exact Or.inl h11
        · exact Or.inr (by omega)
    · rw [if_neg hc]
      refine ⟨x, [], ev, buf, rfl, (List.append_nil _).symm, hb, hbe, Nat.zero_le _, ?_, ?_,
        rfl, rfl, rfl, Or.inr ?_⟩
      · simpa using hf
      · intro r hr
        cases hr
      · show 0 = pr
        omega

/-- C27, the claim as written fails: 8192 is a power of two, and with blocks of 8192 bytes, for
the read transfer 7 of 6000 bytes at the local address 0 with four free slots, the loop of
`translateDone` issues one request of 6000 bytes and then, `pageRemaining` having wrapped,
three requests of size 0. -/
theorem request_loop_counterexample :
    (8192 : Nat) = 2 ^ 13 ∧
    (translateDone 1 0 true 0
        { Scenario.xfer none 8192 [Scenario.liveBuf (Scenario.transfer 7 0 0 6000)] [] with
          bufSize := 8192 }).map
      (fun x1 => (x1.memRequests.map MemRequest.size,
        (x1.eventAt 0).map TransferEvent.remaining,
        (x1.eventAt 0).map TransferEvent.freeSlots))
      = some ([6000, 0, 0, 0], some 0, some 0) := by
  decide

/-- C27 (amended): for a block size `2 ^ k` with `k ≤ 12`, a power of two that is at most the
page size, and a transfer `ev` without a result, with `remaining > 0` and `f = ev.freeSlots`
free slots, whose bytes fit into the buffer if it is a write, the loop of `translateDone`
returns after issuing `new.length ≤ f` requests.  Each request has a size of at least 1 and
lies inside one block.  Afterwards `remaining` is smaller, and `local` and the offset of the
buffer are larger, by exactly the sum of the sizes, so that `local + remaining` and
`offset + remaining` are unchanged; `freeSlots` is `f - new.length`; and the loop has stopped
because no slot is free or the bytes up to the end of the page are requested. -/
theorem translateDone_loop_run (k : Nat) (hk : k ≤ 12) (n b phys : Nat) (x : XferUnit)
    (ev : TransferEvent) (buf : Buffer) (hbs : x.blockSize = 2 ^ k)
    (hb : x.bufs[b]? = some buf) (hbe : buf.event = some ev)
    (hres : ev.result = TcuError.NONE) (hrem : 0 < ev.remaining)
    (hroom : ev.isWrite = true → buf.offset + ev.remaining ≤ x.bufSize) :
    ∃ x1 new ev1 buf1, translateDone (n + 1) b true phys x = some x1 ∧
      x1.memRequests = x.memRequests ++ new ∧
      x1.bufs[b]? = some buf1 ∧ buf1.event = some ev1 ∧
      new.length ≤ ev.freeSlots ∧ ev1.freeSlots = ev.freeSlots - new.length ∧
      (∀ r ∈ new, 1 ≤ r.size ∧ r.virt % x.blockSize + r.size ≤ x.blockSize) ∧
      ev1.remaining + (new.map MemRequest.size).sum = ev.remaining ∧
      ev1.localAddr = ev.localAddr + (new.map MemRequest.size).sum ∧
      buf1.offset = buf.offset + (new.map MemRequest.size).sum ∧
      ev1.localAddr + ev1.remaining = ev.localAddr + ev.remaining ∧
      buf1.offset + ev1.remaining = buf.offset + ev.remaining ∧
      (ev1.freeSlots = 0 ∨ (new.map MemRequest.size).sum
        = min ev.remaining (pageBase (ev.localAddr + TcuTlb.PAGE_SIZE) - ev.localAddr)) := by
  have hev : x.eventAt b = some ev := by rw [eventAt_of_buf x b buf hb]; exact hbe
  have hlt := eventAt_lt x b ev hev
  rw [translateDone_loop n b phys x ev buf hev hb hres (by omega)]
  have hps : TcuTlb.PAGE_SIZE = 4096 := by decide
  rw [hps, pageBase_eq (ev.localAddr + 4096)]
  have hNP : (4096 : Nat) ∣ ev.localAddr + 4096 - (ev.localAddr + 4096) % 4096 :=
    Nat.dvd_sub_mod _
  obtain ⟨x1, new, ev1, buf1, h1, h2, h3, h4, h5, h6, h7, h8, h9, h10, h11⟩ :=
    issueRequests_run k hk b ev.freeSlots
      (min ev.remaining (ev.localAddr + 4096 - (ev.localAddr + 4096) % 4096 - ev.localAddr))
      (x.nocToPhys (pageBase phys) + (ev.localAddr &&& TcuTlb.PAGE_MASK))
      { x with bufs := x.bufs.set b { buf with event := some { ev with trans := false } } }
      { ev with trans := false } { buf with event := some { ev with trans := false } }
      (ev.localAddr + 4096 - (ev.localAddr + 4096) % 4096) hbs
      (by simp only [List.getElem?_set_self hlt]) rfl rfl hNP
      (by show ev.localAddr ≤ _; omega) (by show _ ≤ ev.localAddr + 4096; omega) rfl
      (by
        intro hw
        have := hroom hw
        show buf.offset + min ev.remaining _ ≤ x.bufSize
        omega)
  have h8 : ev1.remaining + (new.map MemRequest.size).sum = ev.remaining := h8
  have h9 : ev1.localAddr = ev.localAddr + (new.map MemRequest.size).sum := h9
  have h10 : buf1.offset = buf.offset + (new.map MemRequest.size).sum := h10
  refine ⟨x1, new, ev1, buf1, h1, h2, h3, h4, h5, h6, ?_, h8, h9, h10, by omega, by omega,
    h11⟩
  rw [hbs]
  exact h7

/-- C27 (amended) with blocks of 64 bytes and four slots: the read transfer 7 of 200 bytes at
`0x2F80` gets two requests, has 72 bytes and two slots left, and stands at the end of its
page. -/
theorem translateDone_loop_run_witness :
    ∃ x1 new ev1 buf1, translateDone 1 0 true 0x2F80
        (Scenario.xfer none 64 [Scenario.liveBuf (Scenario.transfer 7 0 0x2F80 200)] [])
        = some x1 ∧
      x1.memRequests = [] ++ new ∧ x1.bufs[0]? = some buf1 ∧ buf1.event = some ev1 ∧
      new.length ≤ 4 ∧ ev1.freeSlots = 4 - new.length ∧
      ev1.localAddr + ev1.remaining = 0x2F80 + 200 := by
  obtain ⟨x1, new, ev1, buf1, h1, h2, h3, h4, h5, h6, _, _, _, _, h11, _⟩ :=
    translateDone_loop_run 6 (by decide) 0 0 0x2F80
      (Scenario.xfer none 64 [Scenario.liveBuf (Scenario.transfer 7 0 0x2F80 200)] [])
      (Scenario.transfer 7 0 0x2F80 200) (Scenario.liveBuf (Scenario.transfer 7 0 0x2F80 200))
      (by decide) (by decide) rfl rfl (by decide) (by decide)
  exact ⟨x1, new, ev1, buf1, h1, h2, h3, h4, h5, h6, h11⟩

/-! ## A relation that the steps of the driving functions keep -/

theorem issueRequests_rel (R : XferUnit → XferUnit → Prop) (hrefl : ∀ x, R x x)
    (htrans : ∀ x y z, R x y → R y z → R x z)
    (hissue : ∀ x b ev buf pa, x.eventAt b = some ev → x.bufs[b]? = some buf →
      R x (x.issueOne b ev buf pa))
    (n b : Nat) (pr pa : Nat) (x x1 : XferUnit)
    (h : issueRequests n b pr pa x = some x1) : R x x1 := by
  induction n generalizing pr pa x with
  | zero =>
    simp only [issueRequests, Option.some.injEq] at h
    rw [← h]
    exact hrefl _
  | succ n ih =>
    cases hb : x.bufs[b]? with
    | none =>
      have he : x.eventAt b = none := by unfold eventAt; rw [hb]
      simp only [issueRequests, he, hb] at h
      exact Option.noConfusion h
    | some buf =>
      have he := eventAt_of_buf x b buf hb
      cases hev : buf.event with
      | none =>
        rw [hev] at he
        simp only [issueRequests, he, hb] at h
        exact Option.noConfusion h
      | some ev =>
        rw [hev] at he
        simp only [issueRequests, he, hb] at h
        by_cases hc : ev.freeSlots > 0 ∧ pr > 0
        · rw [if_pos hc] at h
          split at h
          · exact Option.noConfusion h
          · exact htrans _ _ _ (hissue x b ev buf pa he hb) (ih _ _ _ h)
        · rw [if_neg hc, Option.some.injEq] at h
          rw [← h]
          exact hrefl _

/-- A reflexive and transitive relation that each single step of the driving functions
keeps is kept by `process`, `translateDone`, `abort`, `continueTransfer` and by
`recvMemResponse` without a packet, for every depth bound. -/
theorem drive_rel (R : XferUnit → XferUnit → Prop) (hrefl : ∀ x, R x x)
    (htrans : ∀ x y z, R x y → R y z → R x z)
    (hcount : ∀ x res, R x (countPagefault res x))
    (htransl : ∀ x b ev access, x.eventAt b = some ev → R x (startTranslate b ev access x))
    (hclear : ∀ x b ev, x.eventAt b = some ev →
      R x (x.setEvent b (some { ev with trans := false })))
    (hissue : ∀ x b ev buf pa, x.eventAt b = some ev → x.bufs[b]? = some buf →
      R x (x.issueOne b ev buf pa))
    (hmark : ∀ x b ev error, x.eventAt b = some ev → R x (markAborted b ev error x))
    (hretry : ∀ (x : XferUnit) b ev, x.eventAt b = some ev → x.transferDone ev = false →
      R x { x with doneCalls := x.doneCalls ++ [(ev.id, ev.result)] })
    (hdone : ∀ (x : XferUnit) b ev, x.eventAt b = some ev → x.transferDone ev = true →
      R x (complete b ev { x with doneCalls := x.doneCalls ++ [(ev.id, ev.result)] }))
    (n : Nat) :
    (∀ b x x1, process n b x = some x1 → R x x1) ∧
    (∀ b s p x x1, translateDone n b s p x = some x1 → R x x1) ∧
    (∀ b e x x1, abort n b e x = some x1 → R x x1) ∧
    (∀ i x x1, recvMemResponse n i none x = some x1 → R x x1) ∧
    (∀ b x x1, continueTransfer n b x = some x1 → R x x1) := by
  induction n with
  | zero =>
    simp [process, translateDone, abort, recvMemResponse, continueTransfer]
  | succ n ih =>
    obtain ⟨ihp, iht, iha, ihr, ihc⟩ := ih
    refine ⟨?_, ?_, ?_, ?_, ?_⟩
    · intro b x x1 h
      cases hev : x.eventAt b with
      | none =>
        simp only [process, hev] at h
        exact Option.noConfusion h
      | some ev =>
        simp only [process, hev] at h
        by_cases h0 : ev.remaining = 0
        · rw [if_pos h0] at h
          exact ihc _ _ _ h
        · rw [if_neg h0] at h
          cases htlb : x.usedTlb ev with
          | none =>
            rw [htlb] at h
            exact iht _ _ _ _ _ h
          | some lookup =>
            rw [htlb] at h
            simp only at h
            by_cases hr : (lookup ev.localAddr ev.vpe (tlbAccess ev)).1 ≠ TcuTlb.Result.HIT
            · rw [if_pos hr] at h
              by_cases hp : (lookup ev.localAddr ev.vpe (tlbAccess ev)).1
                  = TcuTlb.Result.PAGEFAULT ∧ ev.flags &&& XferFlags.NOPF ≠ 0
              · rw [if_pos hp] at h
                exact htrans _ _ _ (hcount x _) (iha _ _ _ _ h)
              · rw [if_neg hp, Option.some.injEq] at h
                rw [← h]
                exact htrans _ _ _ (hcount x _) (htransl _ b ev _
                  (by rw [eventAt_congr _ _ (countPagefault_bufs _ _)]; exact hev))
            · rw [if_neg hr] at h
              exact iht _ _ _ _ _ h
    · intro b s p x x1 h
      cases hev : x.eventAt b with
      | none =>
        simp only [translateDone, hev] at h
        exact Option.noConfusion h
      | some ev =>
        simp only [translateDone, hev] at h
        have hk := hclear x b ev hev
        by_cases hres : ev.result ≠ TcuError.NONE
        · rw [if_pos hres, Option.some.injEq] at h
          rw [← h]
          exact hrefl _
        · rw [if_neg hres] at h
          cases s with
          | false =>
            simp only [Bool.not_false, if_true] at h
            exact htrans _ _ _ hk (iha _ _ _ _ h)
          | true =>
            simp only [Bool.not_true, Bool.false_eq_true, if_false] at h
            by_cases h0 : ev.remaining = 0
            · rw [if_pos h0, Option.some.injEq] at h
              rw [← h]
              exact hk
            · rw [if_neg h0] at h
              exact htrans _ _ _ hk (issueRequests_rel R hrefl htrans hissue _ _ _ _ _ _ h)
    · intro b e x x1 h
      cases hev : x.eventAt b with
      | none =>
        simp only [abort, hev] at h
        exact Option.noConfusion h
      | some ev =>
        simp only [abort, hev] at h
        exact htrans _ _ _ (hmark x b ev e hev) (ihr _ _ _ h)
    · intro i x x1 h
      simp only [recvMemResponse] at h
      cases hg : x.getBuffer (i &&& 0xFFFFFFFF) with
      | none =>
        rw [hg] at h
        simp only [Option.some.injEq] at h
        rw [← h]
        exact hrefl _
      | some b =>
        rw [hg] at h
        simp only at h
        cases hb : x.bufs[b]? with
        | none =>
          have he : x.eventAt b = none := by unfold eventAt; rw [hb]
          rw [he] at h
          simp only [Option.some.injEq] at h
          rw [← h]
          exact hrefl _
        | some buf =>
          have he := eventAt_of_buf x b buf hb
          cases hev : buf.event with
          | none =>
            rw [hev] at he
            rw [he] at h
            simp only [Option.some.injEq] at h
            rw [← h]
            exact hrefl _
          | some ev =>
            rw [hev] at he
            rw [he, hb] at h
            simp only at h
            exact ihc _ _ _ h
    · intro b x x1 h
      cases hev : x.eventAt b with
      | none =>
        simp only [continueTransfer, hev] at h
        exact Option.noConfusion h
      | some ev =>
        simp only [continueTransfer, hev] at h
        split at h
        · cases hd : x.transferDone ev with
          | false =>
            simp only [hd, Bool.not_false, if_true, Option.some.injEq] at h
            rw [← h]
            exact hretry x b ev hev hd
          | true =>
            simp only [hd, Bool.not_true, Bool.false_eq_true, if_false,
              Option.some.injEq] at h
            rw [← h]
            exact hdone x b ev hev hd
        · split at h
          · exact ihp _ _ _ h
          · rw [Option.some.injEq] at h
            rw [← h]
            exact hrefl _

/-! ## The tag of a memory request and the bytes of the buffers -/

theorem tag_decode (i off : Nat) (hi : i < 2 ^ 32) (hoff : off < 2 ^ 32) :
    ((i ||| off <<< 32) % 2 ^ 64) &&& 0xFFFFFFFF = i ∧
      ((i ||| off <<< 32) % 2 ^ 64) >>> 32 = off := by
  have h1 : i ||| off <<< 32 = off * 2 ^ 32 + i := by
    rw [Nat.or_comm, Nat.shiftLeft_eq, Nat.mul_comm, ← Nat.mul_add_lt_is_or hi]
  have h2 : (0xFFFFFFFF : Nat) = 2 ^ 32 - 1 := by norm_num
  rw [h1, h2, Nat.and_pow_two_sub_one_eq_mod, Nat.shiftRight_eq_div_pow]
  constructor <;> omega

theorem map_set_same {α β : Type} (f : α → β) (l : List α) (i : Nat) (a a1 : α)
    (h : l[i]? = some a) (hf : f a1 = f a) : (l.set i a1).map f = l.map f := by
  apply List.ext_getElem?
  intro j
  simp only [List.getElem?_map, List.getElem?_set]
  by_cases hij : i = j
  · subst hij
    rw [if_pos rfl, h]
    have hlt : i < l.length := by
      rcases Nat.lt_or_ge i l.length with hlt | hge
      · exact hlt
      · rw [List.getElem?_eq_none hge] at h
        exact Option.noConfusion h
    rw [if_pos hlt]
    simp [hf]
  · rw [if_neg hij]

theorem setEvent_bytes (x : XferUnit) (b : Nat) (e : Option TransferEvent) :
    (x.setEvent b e).bufs.map Buffer.bytes = x.bufs.map Buffer.bytes := by
  unfold setEvent
  cases hb : x.bufs[b]? with
  | none => rfl
  | some buf => exact map_set_same Buffer.bytes x.bufs b buf _ hb rfl

/-- The functions that drive a transfer on without a packet leave the bytes of every buffer as
they are. -/
theorem drive_bytes (n : Nat) :
    (∀ b x x1, process n b x = some x1 → x1.bufs.map Buffer.bytes = x.bufs.map Buffer.bytes) ∧
    (∀ b s p x x1, translateDone n b s p x = some x1 →
      x1.bufs.map Buffer.bytes = x.bufs.map Buffer.bytes) ∧
    (∀ b e x x1, abort n b e x = some x1 →
      x1.bufs.map Buffer.bytes = x.bufs.map Buffer.bytes) ∧
    (∀ i x x1, recvMemResponse n i none x = some x1 →
      x1.bufs.map Buffer.bytes = x.bufs.map Buffer.bytes) ∧
    (∀ b x x1, continueTransfer n b x = some x1 →
      x1.bufs.map Buffer.bytes = x.bufs.map Buffer.bytes) := by
  refine drive_rel (fun x x1 => x1.bufs.map Buffer.bytes = x.bufs.map Buffer.bytes)
    (fun _ => rfl) (fun _ _ _ h1 h2 => h2.trans h1) ?_ ?_ ?_ ?_ ?_ ?_ ?_ n
  · intro x res
    show (countPagefault res x).bufs.map Buffer.bytes = _
    rw [countPagefault_bufs]
  · intro x b ev access _
    exact setEvent_bytes x b _
  · intro x b ev _
    exact setEvent_bytes x b _
  · intro x b ev buf pa _ hb
    exact map_set_same Buffer.bytes x.bufs b buf _ hb rfl
  · intro x b ev error _
    show (markAborted b ev error x).bufs.map Buffer.bytes = _
    unfold markAborted
    rw [setEvent_bytes]
    simp only [deschedule, abortTranslation]
    split <;> split <;> rfl
  · intro x b ev _ _
    rfl
  · intro x b ev _ _
    show (complete b ev _).bufs.map Buffer.bytes = _
    unfold complete
    simp only
    split
    · exact setEvent_bytes _ b none
    · exact setEvent_bytes _ b none

/-- A read transfer that is the first live one with its id is driven on to a result by
`continueTransfer` at every depth bound from 5 on. -/
theorem continueTransfer_returns_read (n b : Nat) (x : XferUnit) (ev : TransferEvent)
    (hev : x.eventAt b = some ev) (hread : ev.isWrite = false)
    (hg : x.getBuffer (ev.id &&& 0xFFFFFFFF) = some b) :
    ∃ x1, continueTransfer (n + 5) b x = some x1 := by
  obtain ⟨buf, hb, hbe⟩ := eventAt_some x b ev hev
  by_cases hd : ev.result ≠ TcuError.NONE ∨ (ev.remaining = 0 ∧ ev.freeSlots = x.reqCount)
  · rw [continueTransfer_done _ b x ev hev hd]
    split
    · exact ⟨_, rfl⟩
    · exact ⟨_, rfl⟩
  · have hres : ev.result = TcuError.NONE := by
      by_contra hne
      exact hd (Or.inl hne)
    have hloop : ∀ phys, ev.remaining ≠ 0 → ∃ x1, translateDone (n + 3) b true phys x = some x1 := by
      intro phys hrem
      rw [translateDone_loop (n + 2) b phys x ev buf hev hb hres hrem]
      apply issueRequests_returns_read _ b _ _ _ { ev with trans := false }
      · rw [eventAt_set_bufs x b b _ (eventAt_lt x b ev hev), if_pos rfl]
      · exact hread
    simp only [continueTransfer, hev, if_neg hd]
    by_cases hrem : ev.remaining > 0
    · rw [if_pos hrem]
      have hrem0 : ev.remaining ≠ 0 := by omega
      simp only [process, hev, if_neg hrem0]
      cases htlb : x.usedTlb ev with
      | none => exact hloop _ hrem0
      | some lookup =>
        simp only
        by_cases hr : (lookup ev.localAddr ev.vpe (tlbAccess ev)).1 ≠ TcuTlb.Result.HIT
        · rw [if_pos hr]
          by_cases hp : (lookup ev.localAddr ev.vpe (tlbAccess ev)).1
              = TcuTlb.Result.PAGEFAULT ∧ ev.flags &&& XferFlags.NOPF ≠ 0
          · rw [if_pos hp]
            have hbufs := countPagefault_bufs (lookup ev.localAddr ev.vpe (tlbAccess ev)).1 x
            have hev1 := (eventAt_congr x _ hbufs b).trans hev
            have hg1 : (countPagefault (lookup ev.localAddr ev.vpe (tlbAccess ev)).1 x).getBuffer
                (ev.id &&& 0xFFFFFFFF) = some b := by
              rw [getBuffer_congr x _ (by rw [hbufs]) (fun j => by rw [eventAt_congr x _ hbufs j])]
              exact hg
            rw [abort_done n b TcuError.PAGEFAULT _ ev hev1 (by decide) hg1]
            split
            · exact ⟨_, rfl⟩
            · exact ⟨_, rfl⟩
          · rw [if_neg hp]
            exact ⟨_, rfl⟩
        · rw [if_neg hr]
          exact hloop _ hrem0
    · rw [if_neg hrem]
      exact ⟨_, rfl⟩

/-- C26 (as stated, refuted): the tag does not return every transfer id.  The transfer with
the id 2^32 in buffer 1 issues its request at offset 0 with the tag 2^32, which
`recvMemResponse` decodes to the id 0 and the offset 1; the read data of the response is copied
to `bytes[1]` of buffer 0, which holds the transfer with the id 0, and buffer 1 gets none of
it. -/
theorem tag_wide_id_counterexample :
    ((Scenario.xfer none 64 [Scenario.liveBuf (Scenario.transfer 0 0 0x1000 16),
        Scenario.liveBuf (Scenario.transfer 4294967296 0 0x2000 16)] []).issueOne 1
        (Scenario.transfer 4294967296 0 0x2000 16)
        (Scenario.liveBuf (Scenario.transfer 4294967296 0 0x2000 16)) 0x2000).memRequests.map
        MemRequest.tag = [4294967296] ∧
      (4294967296 &&& 0xFFFFFFFF = 0 ∧ 4294967296 >>> 32 = 1) ∧
      (recvMemResponse 6 4294967296 (some ⟨4, [1, 2, 3, 4]⟩)
        ((Scenario.xfer none 64 [Scenario.liveBuf (Scenario.transfer 0 0 0x1000 16),
          Scenario.liveBuf (Scenario.transfer 4294967296 0 0x2000 16)] []).issueOne 1
          (Scenario.transfer 4294967296 0 0x2000 16)
          (Scenario.liveBuf (Scenario.transfer 4294967296 0 0x2000 16)) 0x2000)).map
        (fun x => x.bufs.map (fun buf => buf.bytes.take 5))
        = some [[0, 1, 2, 3, 4], [0, 0, 0, 0, 0]] := by
  decide

/-- C26 (amended): for a transfer id and a buffer offset below 2^32, the 64-bit tag
`id | (offset << 32)` that `translateDone` attaches to a request is decoded by
`recvMemResponse` to the original pair.  So a response with that tag and a packet that fits
the buffer, for a read transfer that is live in buffer `b` as the first one with its id,
returns at every depth bound from 6 on, with the data of the packet at `bytes[offset]` of
buffer `b` and all other bytes of the pool as they were. -/
theorem response_data_at_offset (n b off : Nat) (x : XferUnit) (ev : TransferEvent)
    (buf : Buffer) (p : MemResponse)
    (hid : ev.id < 2 ^ 32) (hoff : off < 2 ^ 32)
    (hg : x.getBuffer ev.id = some b) (hb : x.bufs[b]? = some buf) (hev : buf.event = some ev)
    (hread : ev.isWrite = false) (hsz : off + p.size ≤ x.bufSize) :
    (∀ (y : XferUnit) (buf0 : Buffer) (pa : Nat), buf0.offset = off →
      (y.issueOne b ev buf0 pa).memRequests.getLast?.map MemRequest.tag
        = some ((ev.id ||| off <<< 32) % 2 ^ 64)) ∧
      ((ev.id ||| off <<< 32) % 2 ^ 64) &&& 0xFFFFFFFF = ev.id ∧
      ((ev.id ||| off <<< 32) % 2 ^ 64) >>> 32 = off ∧
      ∃ x1, recvMemResponse (n + 6) ((ev.id ||| off <<< 32) % 2 ^ 64) (some p) x = some x1 ∧
        x1.bufs.map Buffer.bytes = (x.bufs.map Buffer.bytes).set b
          (buf.bytes.take off ++ p.data ++ buf.bytes.drop (off + p.size)) := by
  obtain ⟨hlow, hhigh⟩ := tag_decode ev.id off hid hoff
  have hmask : ev.id &&& 0xFFFFFFFF = ev.id := by
    have h2 : (0xFFFFFFFF : Nat) = 2 ^ 32 - 1 := by norm_num
    rw [h2, Nat.and_pow_two_sub_one_eq_mod, Nat.mod_eq_of_lt hid]
  have hlt : b < x.bufs.length := by
    rcases Nat.lt_or_ge b x.bufs.length with hlt | hge
    · exact hlt
    · rw [List.getElem?_eq_none hge] at hb
      exact Option.noConfusion hb
  have hevx : x.eventAt b = some ev := by rw [eventAt_of_buf x b buf hb, hev]
  refine ⟨?_, hlow, hhigh, ?_⟩
  · intro y buf0 pa h0
    simp [issueOne, h0]
  · have hnot : ¬ ((!ev.isWrite) = true ∧ ¬ (off + p.size ≤ x.bufSize)) := fun h => h.2 hsz
    have hr : (!ev.isWrite) = true := by rw [hread]; rfl
    simp only [recvMemResponse, hlow, hhigh, hg, hevx, hb, if_neg hnot, if_pos hr]
    have hev1 : ({ x with bufs := x.bufs.set b { buf with
        event := some { ev with freeSlots := ev.freeSlots + 1 }
        bytes := buf.bytes.take off ++ p.data ++ buf.bytes.drop (off + p.size) } } :
        XferUnit).eventAt b = some { ev with freeSlots := ev.freeSlots + 1 } := by
      rw [eventAt_set_bufs x b b _ hlt, if_pos rfl]
    have hg1 : ({ x with bufs := x.bufs.set b { buf with
        event := some { ev with freeSlots := ev.freeSlots + 1 }
        bytes := buf.bytes.take off ++ p.data ++ buf.bytes.drop (off + p.size) } } :
        XferUnit).getBuffer (ev.id &&& 0xFFFFFFFF) = some b := by
      rw [hmask, getBuffer_congr x _ (by simp) _ ev.id]
      · exact hg
      · intro j
        rw [eventAt_set_bufs x b j _ hlt]
        by_cases hbj : b = j
        · rw [if_pos hbj, ← hbj, hevx]
          rfl
        · rw [if_neg hbj]
    obtain ⟨x1, hx1⟩ := continueTransfer_returns_read n b _ _ hev1 hread hg1
    refine ⟨x1, hx1, ?_⟩
    rw [(drive_bytes (n + 5)).2.2.2.2 b _ x1 hx1]
    simp [List.map_set]

/-- C26: the amended claim holds for the read transfer with the id 7 in buffer 0 and a tag
with the offset 16. -/
theorem response_data_at_offset_witness :
    ((7 ||| 16 <<< 32) % 2 ^ 64) &&& 0xFFFFFFFF = 7 ∧ ((7 ||| 16 <<< 32) % 2 ^ 64) >>> 32 = 16 ∧
      ∃ x1, recvMemResponse 6 ((7 ||| 16 <<< 32) % 2 ^ 64) (some ⟨4, [1, 2, 3, 4]⟩)
          (Scenario.xfer none 64
            [Scenario.liveBuf (Scenario.transfer 7 0 0x2000 16), Scenario.freeBuf] [])
          = some x1 ∧
        x1.bufs.map Buffer.bytes = ((Scenario.xfer none 64
            [Scenario.liveBuf (Scenario.transfer 7 0 0x2000 16), Scenario.freeBuf]
            []).bufs.map Buffer.bytes).set 0
          ((Scenario.liveBuf (Scenario.transfer 7 0 0x2000 16)).bytes.take 16 ++ [1, 2, 3, 4] ++
            (Scenario.liveBuf (Scenario.transfer 7 0 0x2000 16)).bytes.drop (16 + 4)) :=
  (response_data_at_offset 0 0 16
    (Scenario.xfer none 64
      [Scenario.liveBuf (Scenario.transfer 7 0 0x2000 16), Scenario.freeBuf] [])
    (Scenario.transfer 7 0 0x2000 16) (Scenario.liveBuf (Scenario.transfer 7 0 0x2000 16))
    ⟨4, [1, 2, 3, 4]⟩ (by decide) (by decide) (by decide) (by rfl) (by rfl) (by rfl)
    (by decide)).2

/-! ## Calls of `transferDone` and finished transfers -/

theorem countP_set_eq {α : Type} (p : α → Bool) (l : List α) (i : Nat) (a a1 : α)
    (h : l[i]? = some a) :
    (l.set i a1).countP p + (if p a then 1 else 0) = l.countP p + (if p a1 then 1 else 0) := by
  induction l generalizing i with
  | nil => simp at h
  | cons c l ih =>
    cases i with
    | zero =>
      simp only [List.getElem?_cons_zero, Option.some.injEq] at h
      subst h
      simp only [List.set_cons_zero, List.countP_cons]
      omega
    | succ i =>
      simp only [List.getElem?_cons_succ] at h
      simp only [List.set_cons_succ, List.countP_cons]
      have := ih i h
      omega

theorem conserves_refl (x : XferUnit) : Conserves x x :=
  ⟨rfl, fun _ => rfl, fun _ _ => rfl⟩

theorem conserves_trans (x y z : XferUnit) (h1 : Conserves x y) (h2 : Conserves y z) :
    Conserves x z := by
  refine ⟨h2.1.trans h1.1, fun i => (h2.2.1 i).trans (h1.2.1 i), fun hall i => ?_⟩
  have hy : ∀ ev, y.transferDone ev = true := by
    intro ev
    rw [h1.1]
    exact hall ev
  exact (h2.2.2 hy i).trans (h1.2.2 hall i)

theorem conserves_of_eq (x y : XferUnit) (ht : y.transferDone = x.transferDone)
    (hf : y.finished = x.finished) (hd : y.doneCalls = x.doneCalls)
    (hl : ∀ i, y.liveCount i = x.liveCount i) : Conserves x y := by
  refine ⟨ht, fun i => by rw [hf, hl], fun _ i => ?_⟩
  unfold doneCount
  rw [hd, hl]

/-- A step that puts a transfer with the same id into a buffer and leaves the hook and the
logs of calls and finished transfers conserves. -/
theorem conserves_set (x y : XferUnit) (b : Nat) (buf buf1 : Buffer) (ev : TransferEvent)
    (hb : x.bufs[b]? = some buf) (hbe : buf.event = some ev)
    (hy : y.bufs = x.bufs.set b buf1) (h1 : buf1.event.map TransferEvent.id = some ev.id)
    (ht : y.transferDone = x.transferDone) (hf : y.finished = x.finished)
    (hd : y.doneCalls = x.doneCalls) : Conserves x y := by
  apply conserves_of_eq x y ht hf hd
  intro i
  unfold liveCount
  rw [hy]
  have h := countP_set_eq (hasId i) x.bufs b buf buf1 hb
  have hsame : hasId i buf1 = hasId i buf := by
    cases hb1 : buf1.event with
    | none =>
      rw [hb1] at h1
      exact Option.noConfusion h1
    | some ev1 =>
      rw [hb1] at h1
      simp only [Option.map_some', Option.some.injEq] at h1
      simp [hasId, hbe, hb1, h1]
  rw [hsame] at h
  exact Nat.add_right_cancel h

theorem setEvent_hook (x : XferUnit) (b : Nat) (e : Option TransferEvent) :
    (x.setEvent b e).transferDone = x.transferDone := by
  unfold setEvent
  split <;> rfl

theorem conserves_setEvent (x : XferUnit) (b : Nat) (ev ev1 : TransferEvent)
    (hev : x.eventAt b = some ev) (hid : ev1.id = ev.id) :
    Conserves x (x.setEvent b (some ev1)) := by
  obtain ⟨buf, hb, hbe⟩ := eventAt_some x b ev hev
  have hf := setEvent_fields x b (some ev1)
  refine conserves_set x _ b buf { buf with event := some ev1 } ev hb hbe ?_
    (congrArg some hid) (setEvent_hook x b _) hf.2.2.2.1 hf.2.2.2.2
  rw [setEvent_bufs x b buf _ hb]

theorem conserves_complete (x : XferUnit) (b : Nat) (ev : TransferEvent)
    (hev : x.eventAt b = some ev) :
    Conserves x (complete b ev { x with doneCalls := x.doneCalls ++ [(ev.id, ev.result)] }) := by
  obtain ⟨buf, hb, hbe⟩ := eventAt_some x b ev hev
  rw [complete_eq b ev { x with doneCalls := x.doneCalls ++ [(ev.id, ev.result)] } buf hb]
  have h := fun i => countP_set_eq (hasId i) x.bufs b buf { buf with event := none } hb
  have h0 : ∀ i, hasId i { buf with event := none } = false := fun i => rfl
  have h1 : ∀ i, hasId i buf = (ev.id == i) := fun i => by simp [hasId, hbe]
  refine ⟨rfl, fun i => ?_, fun _ i => ?_⟩
  · have hi := h i
    rw [h0, h1] at hi
    simp only [liveCount, List.count_append, List.count_singleton]
    simp only [Bool.false_eq_true, if_false] at hi
    by_cases hid : ev.id = i
    · simp only [hid, beq_self_eq_true, if_true] at hi ⊢
      omega
    · have hne : (ev.id == i) = false := by simpa using hid
      have hne1 : (i == ev.id) = false := by simpa using fun h : i = ev.id => hid h.symm
      simp only [hne, hne1, Bool.false_eq_true, if_false] at hi ⊢
      omega
  · have hi := h i
    rw [h0, h1] at hi
    simp only [liveCount, doneCount, List.map_append, List.map_cons, List.map_nil,
      List.count_append, List.count_singleton]
    simp only [Bool.false_eq_true, if_false] at hi
    by_cases hid : ev.id = i
    · simp only [hid, beq_self_eq_true, if_true] at hi ⊢
      omega
    · have hne : (ev.id == i) = false := by simpa using hid
      have hne1 : (i == ev.id) = false := by simpa using fun h : i = ev.id => hid h.symm
      simp only [hne, hne1, Bool.false_eq_true, if_false] at hi ⊢
      omega

/-- Each of the driving functions conserves, for every depth bound. -/
theorem drive_conserves (n : Nat) :
    (∀ b x x1, process n b x = some x1 → Conserves x x1) ∧
    (∀ b s p x x1, translateDone n b s p x = some x1 → Conserves x x1) ∧
    (∀ b e x x1, abort n b e x = some x1 → Conserves x x1) ∧
    (∀ i x x1, recvMemResponse n i none x = some x1 → Conserves x x1) ∧
    (∀ b x x1, continueTransfer n b x = some x1 → Conserves x x1) := by
  refine drive_rel Conserves conserves_refl conserves_trans ?_ ?_ ?_ ?_ ?_ ?_ ?_ n
  · intro x res
    unfold countPagefault
    split
    · exact ⟨rfl, fun _ => rfl, fun _ _ => rfl⟩
    · exact conserves_refl x
  · intro x b ev access hev
    have h := conserves_setEvent x b ev { ev with trans := true } hev rfl
    exact ⟨h.1, h.2.1, h.2.2⟩
  · intro x b ev hev
    exact conserves_setEvent x b ev _ hev rfl
  · intro x b ev buf pa hev hb
    have hbe : buf.event = some ev := by rw [← eventAt_of_buf x b buf hb, hev]
    exact conserves_set x _ b buf _ ev hb hbe rfl rfl rfl rfl rfl
  · intro x b ev error hev
    obtain ⟨buf, hb, hbe⟩ := eventAt_some x b ev hev
    rw [markAborted_eq b ev error x buf hb]
    exact conserves_set x _ b buf _ ev hb hbe rfl rfl rfl rfl rfl
  · intro x b ev _ hd
    refine ⟨rfl, fun _ => rfl, fun hall => ?_⟩
    rw [hall ev] at hd
    exact Bool.noConfusion hd
  · intro x b ev hev _
    exact conserves_complete x b ev hev

/-- A memory response, with or without a packet, conserves. -/
theorem respond_conserves (n i : Nat) (pkt : Option MemResponse) (x x1 : XferUnit)
    (h : recvMemResponse n i pkt x = some x1) : Conserves x x1 := by
  cases pkt with
  | none => exact (drive_conserves n).2.2.2.1 i x x1 h
  | some p =>
    cases n with
    | zero =>
      simp only [recvMemResponse] at h
      exact Option.noConfusion h
    | succ n =>
      simp only [recvMemResponse] at h
      cases hg : x.getBuffer (i &&& 0xFFFFFFFF) with
      | none =>
        rw [hg] at h
        simp only [Option.some.injEq] at h
        rw [← h]
        exact conserves_refl x
      | some b =>
        rw [hg] at h
        simp only at h
        cases hb : x.bufs[b]? with
        | none =>
          have he : x.eventAt b = none := by unfold eventAt; rw [hb]
          rw [he] at h
          simp only [Option.some.injEq] at h
          rw [← h]
          exact conserves_refl x
        | some buf =>
          have he := eventAt_of_buf x b buf hb
          cases hev : buf.event with
          | none =>
            rw [hev] at he
            rw [he] at h
            simp only [Option.some.injEq] at h
            rw [← h]
            exact conserves_refl x
          | some ev =>
            rw [hev] at he
            rw [he, hb] at h
            simp only at h
            split at h
            · exact Option.noConfusion h
            · refine conserves_trans _ _ _ ?_ ((drive_conserves n).2.2.2.2 b _ x1 h)
              exact conserves_set x _ b buf _ ev hb hev rfl rfl rfl rfl rfl

/-- Every sequence of memory responses, aborts and calls of the driving functions
conserves. -/
theorem driven_conserves (x0 x : XferUnit) (h : Driven x0 x) : Conserves x0 x := by
  induction h with
  | init => exact conserves_refl x0
  | responded y fuel evId pkt y1 _ hr ih =>
    exact conserves_trans _ _ _ ih (respond_conserves fuel evId pkt y y1 hr)
  | aborted y fuel b error y1 _ hr ih =>
    exact conserves_trans _ _ _ ih ((drive_conserves fuel).2.2.1 b error y y1 hr)
  | continued y fuel b y1 _ hr ih =>
    exact conserves_trans _ _ _ ih ((drive_conserves fuel).2.2.2.2 b y y1 hr)
  | processed y fuel b y1 _ hr ih =>
    exact conserves_trans _ _ _ ih ((drive_conserves fuel).1 b y y1 hr)
  | translated y fuel b success phys y1 _ hr ih =>
    exact conserves_trans _ _ _ ih ((drive_conserves fuel).2.1 b success phys y y1 hr)

/-- C21 (as stated, refuted): a transfer whose hook `transferDone` returns false is not
finished, and the next call of `continueTransfer` invokes the hook again.  The transfer with
the id 7, which is done, has two calls of its hook after two calls of `continueTransfer`, and
a third one after an abort, and is not finished. -/
theorem transferDone_retry_counterexample :
    (((continueTransfer 1 0
        (Scenario.retryXfer [Scenario.liveBuf (Scenario.transfer 7 0 0x2000 0)])).bind
        (continueTransfer 1 0)).bind (abort 3 0 TcuError.ABORT)).map
        (fun x => (x.doneCalls, x.doneCount 7, x.finished))
      = some ([(7, TcuError.NONE), (7, TcuError.NONE), (7, TcuError.ABORT)], 3, []) := by
  decide

/-- C21 (amended): over every sequence of memory responses, aborts and calls of
`continueTransfer` (and of `process` and `translateDone`), a transfer whose id is live in at
most one buffer is finished, which happens when its hook `transferDone` returns true, at
most once; and if the hook returns true whenever it is invoked, it is invoked at most once
for the transfer.  A hook that returns false is invoked again by each later call of
`continueTransfer`. -/
theorem transferDone_once (x0 x : XferUnit) (i : Nat) (h : Driven x0 x)
    (hlive : x0.liveCount i ≤ 1) :
    x.finished.count i ≤ x0.finished.count i + 1 ∧
      ((∀ ev, x0.transferDone ev = true) → x.doneCount i ≤ x0.doneCount i + 1) := by
  obtain ⟨_, hf, hd⟩ := driven_conserves x0 x h
  refine ⟨?_, fun hall => ?_⟩
  · have := hf i
    omega
  · have := hd hall i
    omega

/-- C21: the amended claim on the transfer with the id 7, which is done and is finished by a
call of `continueTransfer`; a late response with its tag changes nothing. -/
theorem transferDone_once_witness :
    ((recvMemResponse 1 7 (some ⟨4, [1, 2, 3, 4]⟩)
        ((continueTransfer 1 0
          (Scenario.xfer none 64 [Scenario.liveBuf (Scenario.transfer 7 0 0x2000 0)] [])).getD
          (Scenario.xfer none 64 [Scenario.liveBuf (Scenario.transfer 7 0 0x2000 0)]
            []))).getD
        (Scenario.xfer none 64 [Scenario.liveBuf (Scenario.transfer 7 0 0x2000 0)]
          [])).finished.count 7
      ≤ (Scenario.xfer none 64 [Scenario.liveBuf (Scenario.transfer 7 0 0x2000 0)]
          []).finished.count 7 + 1 :=
  (transferDone_once
    (Scenario.xfer none 64 [Scenario.liveBuf (Scenario.transfer 7 0 0x2000 0)] []) _ 7
    (Driven.responded _ 1 7 (some ⟨4, [1, 2, 3, 4]⟩) _
      (Driven.continued _ 1 0
        ((continueTransfer 1 0
          (Scenario.xfer none 64 [Scenario.liveBuf (Scenario.transfer 7 0 0x2000 0)] [])).getD
          (Scenario.xfer none 64 [Scenario.liveBuf (Scenario.transfer 7 0 0x2000 0)] []))
        Driven.init (by rfl))
      (by rfl))
    (by decide)).1

end XferUnit

namespace TcuSlavePort

theorem recvFunctional_fields (pkt : Nat) (p : TcuSlavePort) :
    (recvFunctional pkt p).busy = p.busy ∧ (recvFunctional pkt p).sendReqRetry = p.sendReqRetry ∧
      (recvFunctional pkt p).retries = p.retries ∧ (recvFunctional pkt p).kind = p.kind ∧
      ∀ h ∈ (recvFunctional pkt p).handled, h ∈ p.handled ∨ h.2 = true := by
  unfold recvFunctional handleRequest
  cases hk : p.kind with
  | noc => simp
  | cache ic =>
    cases ha : p.tcuAccepts pkt true <;> simp [ha]
  | llc =>
    cases ha : p.tcuAccepts pkt true <;> simp [ha]

theorem recvTimingReq_busy (pkt : Nat) (p : TcuSlavePort) (hb : p.busy = true) :
    recvTimingReq pkt p = some (false, { p with sendReqRetry := true }) := by
  unfold recvTimingReq
  rw [if_pos hb]

/-- While a port is busy it rejects every timing request and hands none to the TCU; the
functional requests change neither `busy` nor `sendReqRetry`. -/
theorem arrive_busy (l : List Arrival) (p : TcuSlavePort) (hb : p.busy = true) :
    ∃ rs p1, arrive l p = some (rs, p1) ∧ (∀ r ∈ rs, r = false) ∧
      rs.length = timingCount l ∧ p1.busy = true ∧ p1.retries = p.retries ∧
      p1.sendReqRetry = (p.sendReqRetry || decide (0 < timingCount l)) ∧
      ∀ h ∈ p1.handled, h ∈ p.handled ∨ h.2 = true := by
  induction l generalizing p with
  | nil =>
    refine ⟨[], p, rfl, ?_, rfl, hb, rfl, ?_, ?_⟩
    · intro r hr
      cases hr
    · simp [timingCount]
    · intro h hh
      exact Or.inl hh
  | cons a l ih =>
    cases a with
    | timing pkt =>
      obtain ⟨rs, p1, h1, h2, h3, h4, h5, h6, h7⟩ :=
        ih { p with sendReqRetry := true } hb
      refine ⟨false :: rs, p1, ?_, ?_, ?_, h4, h5, ?_, h7⟩
      · simp only [arrive, recvTimingReq_busy pkt p hb, h1]
      · intro r hr
        rcases List.mem_cons.mp hr with hr | hr
        · exact hr
        · exact h2 r hr
      · simp [timingCount, List.countP_cons] at h3 ⊢
        exact h3
      · rw [h6]
        simp [timingCount, List.countP_cons]
    | functional pkt =>
      obtain ⟨hf1, hf2, hf3, _, hf5⟩ := recvFunctional_fields pkt p
      obtain ⟨rs, p1, h1, h2, h3, h4, h5, h6, h7⟩ :=
        ih (recvFunctional pkt p) (by rw [hf1]; exact hb)
      refine ⟨rs, p1, ?_, h2, ?_, h4, by rw [h5, hf3], ?_, ?_⟩
      · simp only [arrive, h1]
      · simp [timingCount, List.countP_cons] at h3 ⊢
        exact h3
      · rw [h6, hf2]
        simp [timingCount, List.countP_cons]
      · intro h hh
        rcases h7 h hh with hh | hh
        · exact hf5 h hh
        · exact Or.inr hh

/-- C17: a busy slave port rejects a timing request: `recvTimingReq` returns false, marks a
retry as needed and hands nothing to the TCU.  From the moment the port became busy (`busy`
set, `sendReqRetry` clear), after any arrivals of timing and functional requests, every timing
request has been rejected, only functional requests have been handled, and the next
`requestFinished` returns, clears `busy` and the retry mark, and sends exactly one
request-retry if at least one timing request was rejected and none otherwise. -/
theorem busy_port_retries_once (p : TcuSlavePort) (l : List Arrival) (hb : p.busy = true)
    (hr : p.sendReqRetry = false) :
    (∀ pkt, recvTimingReq pkt p = some (false, { p with sendReqRetry := true })) ∧
    ∃ rs p1 p2, arrive l p = some (rs, p1) ∧ (∀ r ∈ rs, r = false) ∧
      rs.length = timingCount l ∧
      (∀ h ∈ p1.handled, h ∈ p.handled ∨ h.2 = true) ∧
      p1.busy = true ∧ (p1.sendReqRetry = true ↔ 0 < timingCount l) ∧
      requestFinished p1 = some p2 ∧ p2.busy = false ∧ p2.sendReqRetry = false ∧
      p2.retries = p.retries + (if 0 < timingCount l then 1 else 0) := by
  refine ⟨fun pkt => recvTimingReq_busy pkt p hb, ?_⟩
  obtain ⟨rs, p1, h1, h2, h3, h4, h5, h6, h7⟩ := arrive_busy l p hb
  rw [hr, Bool.false_or] at h6
  have hiff : p1.sendReqRetry = true ↔ 0 < timingCount l := by
    rw [h6]
    exact decide_eq_true_iff
  by_cases ht : 0 < timingCount l
  · have hs : p1.sendReqRetry = true := hiff.mpr ht
    refine ⟨rs, p1, { p1 with busy := false, sendReqRetry := false, retries := p1.retries + 1 },
      h1, h2, h3, h7, h4, hiff, ?_, rfl, rfl, ?_⟩
    · unfold requestFinished
      simp [h4, hs]
    · show p1.retries + 1 = _
      rw [h5, if_pos ht]
  · have hs : p1.sendReqRetry = false := by
      cases hq : p1.sendReqRetry with
      | false => rfl
      | true => exact absurd (hiff.mp hq) ht
    refine ⟨rs, p1, { p1 with busy := false }, h1, h2, h3, h7, h4, hiff, ?_, rfl, hs, ?_⟩
    · unfold requestFinished
      simp [h4, hs]
    · show p1.retries = _
      rw [h5, if_neg ht]
      rfl

/-- C17 on a busy NoC port: two timing requests and a functional request arrive; both timing
requests are rejected and the completion sends one retry. -/
theorem busy_port_retries_once_witness :
    ∃ rs p1 p2, arrive [Arrival.timing 1, Arrival.functional 2, Arrival.timing 3]
        ⟨PortKind.noc, true, false, 0, [], fun _ _ => true, []⟩ = some (rs, p1) ∧
      rs = [false, false] ∧ requestFinished p1 = some p2 ∧ p2.busy = false ∧
      p2.sendReqRetry = false ∧ p2.retries = 1 := by
  obtain ⟨rs, p1, p2, h1, h2, h3, _, _, _, h7, h8, h9, h10⟩ :=
    (busy_port_retries_once ⟨PortKind.noc, true, false, 0, [], fun _ _ => true, []⟩
      [Arrival.timing 1, Arrival.functional 2, Arrival.timing 3] rfl rfl).2
  refine ⟨rs, p1, p2, h1, ?_, h7, h8, h9, h10⟩
  have h3 : rs.length = 2 := h3
  match rs, h2, h3 with
  | [a, c], h2, _ =>
    rw [h2 a (by simp), h2 c (by simp)]

theorem recvTimingReq_idle (pkt : Nat) (p : TcuSlavePort) (hb : p.busy = false)
    (hr : p.sendReqRetry = false) :
    recvTimingReq pkt p = some ((p.handleRequest pkt false false).1,
      { (p.handleRequest pkt false false).2.2 with
        busy := (p.handleRequest pkt false false).2.1 }) := by
  unfold recvTimingReq
  simp [hb, hr]

theorem handleRequest_fields (p : TcuSlavePort) (pkt : Nat) (busy functional : Bool) :
    (p.handleRequest pkt busy functional).1 = true ∧
      (p.handleRequest pkt busy functional).2.1 = (busy || decide (p.kind = PortKind.noc)) ∧
      (p.handleRequest pkt busy functional).2.2.handled = p.handled ++ [(pkt, functional)] ∧
      (p.handleRequest pkt busy functional).2.2.sendReqRetry = p.sendReqRetry ∧
      (p.handleRequest pkt busy functional).2.2.retries = p.retries ∧
      (p.handleRequest pkt busy functional).2.2.kind = p.kind ∧
      (p.handleRequest pkt busy functional).2.2.busy = p.busy := by
  unfold handleRequest
  cases hk : p.kind with
  | noc => simp
  | cache ic => cases ha : p.tcuAccepts pkt functional <;> simp [ha]
  | llc => cases ha : p.tcuAccepts pkt functional <;> simp [ha]

/-- An idle port accepts a timing request, hands it to the TCU, and is busy afterwards
exactly when it is the NoC port. -/
theorem recvTimingReq_idle_fields (pkt : Nat) (p : TcuSlavePort) (hb : p.busy = false)
    (hr : p.sendReqRetry = false) :
    ∃ p1, recvTimingReq pkt p = some (true, p1) ∧ p1.handled = p.handled ++ [(pkt, false)] ∧
      p1.sendReqRetry = false ∧ p1.busy = decide (p.kind = PortKind.noc) ∧
      p1.kind = p.kind := by
  obtain ⟨h1, h2, h3, h4, _, h6, _⟩ := handleRequest_fields p pkt false false
  rw [recvTimingReq_idle pkt p hb hr, h1]
  refine ⟨_, rfl, h3, ?_, ?_, h6⟩
  · show (p.handleRequest pkt false false).2.2.sendReqRetry = false
    rw [h4, hr]
  · show (p.handleRequest pkt false false).2.1 = _
    rw [h2, Bool.false_or]

/-- C23, the claim as written fails: an idle data cache port, and likewise an idle LLC port,
accepts a timing request and stays idle, and it accepts and handles a second timing request
that arrives before any `requestFinished`. -/
theorem cache_port_counterexample :
    (arrive [Arrival.timing 1, Arrival.timing 2]
        ⟨PortKind.cache false, false, false, 0, [], fun _ _ => true, []⟩).map
      (fun r => (r.1, r.2.busy, r.2.handled)) = some ([true, true], false, [(1, false), (2, false)]) ∧
    (arrive [Arrival.timing 1, Arrival.timing 2]
        ⟨PortKind.llc, false, false, 0, [], fun _ _ => true, []⟩).map
      (fun r => (r.1, r.2.busy, r.2.handled)) = some ([true, true], false, [(1, false), (2, false)]) := by
  decide

/-- C23 (amended): an idle port of every kind accepts a timing request and hands it to the
TCU.  The NoC slave port is busy afterwards, and a second timing request that arrives before
`requestFinished` is rejected and marks a retry.  A cache or LLC slave port is idle
afterwards, as its `handleRequest` does not touch the busy flag, and it accepts a second
timing request as well. -/
theorem idle_port_accepts (p : TcuSlavePort) (pkt pkt2 : Nat) (hb : p.busy = false)
    (hr : p.sendReqRetry = false) :
    ∃ p1, recvTimingReq pkt p = some (true, p1) ∧ p1.handled = p.handled ++ [(pkt, false)] ∧
      p1.sendReqRetry = false ∧
      (p.kind = PortKind.noc → p1.busy = true ∧
        recvTimingReq pkt2 p1 = some (false, { p1 with sendReqRetry := true })) ∧
      (p.kind ≠ PortKind.noc → p1.busy = false ∧
        ∃ p2, recvTimingReq pkt2 p1 = some (true, p2) ∧
          p2.handled = p.handled ++ [(pkt, false), (pkt2, false)] ∧ p2.busy = false) := by
  obtain ⟨p1, h1, h2, h3, h4, h5⟩ := recvTimingReq_idle_fields pkt p hb hr
  refine ⟨p1, h1, h2, h3, ?_, ?_⟩
  · intro hk
    have hbusy : p1.busy = true := by
      rw [h4]
      simp [hk]
    exact ⟨hbusy, recvTimingReq_busy pkt2 p1 hbusy⟩
  · intro hk
    have hbusy : p1.busy = false := by
      rw [h4]
      simp [hk]
    obtain ⟨p2, g1, g2, _, g4, _⟩ := recvTimingReq_idle_fields pkt2 p1 hbusy h3
    refine ⟨hbusy, p2, g1, ?_, ?_⟩
    · rw [g2, h2, List.append_assoc]
      rfl
    · rw [g4, h5]
      simp [hk]

/-- C23 (amended) on an idle NoC port: the first request makes it busy and the second is
rejected. -/
theorem idle_port_accepts_witness :
    ∃ p1, recvTimingReq 1 ⟨PortKind.noc, false, false, 0, [], fun _ _ => true, []⟩
        = some (true, p1) ∧
      p1.busy = true ∧ recvTimingReq 2 p1 = some (false, { p1 with sendReqRetry := true }) := by
  obtain ⟨p1, h1, _, _, h4, _⟩ := idle_port_accepts
    ⟨PortKind.noc, false, false, 0, [], fun _ _ => true, []⟩ 1 2 rfl rfl
  exact ⟨p1, h1, (h4 rfl).1, (h4 rfl).2⟩

/-- C28: in every state of a slave port that is reached from a state with `sendReqRetry`
clear, as the constructor leaves it, through `recvTimingReq`, `recvFunctional` and
`requestFinished` (which returns only while the port is busy), `sendReqRetry` implies `busy`; hence `recvTimingReq`
returns in every such state, its assertion `!sendReqRetry` holding whenever the port is not
busy, and `recvFunctional` changes neither `busy` nor `sendReqRetry`. -/
theorem retry_implies_busy (p0 p : TcuSlavePort) (hr0 : p0.sendReqRetry = false)
    (hreach : PortReach p0 p) :
    (p.sendReqRetry = true → p.busy = true) ∧
    (∀ pkt, ∃ r p1, recvTimingReq pkt p = some (r, p1)) ∧
    (∀ pkt, (recvFunctional pkt p).busy = p.busy ∧
      (recvFunctional pkt p).sendReqRetry = p.sendReqRetry) := by
  have hinv : p.sendReqRetry = true → p.busy = true := by
    induction hreach with
    | init =>
      intro h
      rw [hr0] at h
      exact Bool.noConfusion h
    | timing q pkt r p1 _ h ih =>
      cases hq : q.busy with
      | true =>
        rw [recvTimingReq_busy pkt q hq] at h
        have h2 := (Prod.mk.inj (Option.some.inj h)).2
        intro _
        rw [← h2]
        exact hq
      | false =>
        have hqr : q.sendReqRetry = false := by
          cases hs : q.sendReqRetry with
          | false => rfl
          | true =>
            rw [ih hs] at hq
            exact Bool.noConfusion hq
        rw [recvTimingReq_idle pkt q hq hqr] at h
        have h2 := (Prod.mk.inj (Option.some.inj h)).2
        intro hs
        rw [← h2] at hs
        have hs : (q.handleRequest pkt false false).2.2.sendReqRetry = true := hs
        rw [(handleRequest_fields q pkt false false).2.2.2.1, hqr] at hs
        exact Bool.noConfusion hs
    | functional q pkt _ ih =>
      obtain ⟨hf1, hf2, _⟩ := recvFunctional_fields pkt q
      rw [hf1, hf2]
      exact ih
    | finished q p1 _ h ih =>
      unfold requestFinished at h
      intro hs
      cases hq : q.busy with
      | false =>
        rw [hq] at h
        exact Option.noConfusion h
      | true =>
        rw [hq] at h
        simp only [Bool.not_true, Bool.false_eq_true, if_false] at h
        split at h
        · rw [← Option.some.inj h] at hs
          exact Bool.noConfusion hs
        · rename_i hns
          rw [← Option.some.inj h] at hs
          exact absurd hs hns
  refine ⟨hinv, ?_, ?_⟩
  · intro pkt
    cases hq : p.busy with
    | true => exact ⟨_, _, recvTimingReq_busy pkt p hq⟩
    | false =>
      have hpr : p.sendReqRetry = false := by
        cases hs : p.sendReqRetry with
        | false => rfl
        | true =>
          rw [hinv hs] at hq
          exact Bool.noConfusion hq
      exact ⟨_, _, recvTimingReq_idle pkt p hq hpr⟩
  · intro pkt
    obtain ⟨hf1, hf2, _⟩ := recvFunctional_fields pkt p
    exact ⟨hf1, hf2⟩

/-- C28 on a NoC port after a request was accepted, a second one was rejected and a
functional request came in: the retry mark is set and the port is busy. -/
theorem retry_implies_busy_witness :
    ∃ p : TcuSlavePort,
      PortReach ⟨PortKind.noc, false, false, 0, [], fun _ _ => true, []⟩ p ∧
      p.sendReqRetry = true ∧ p.busy = true ∧ ∃ r p1, recvTimingReq 4 p = some (r, p1) := by
  have hreach : PortReach ⟨PortKind.noc, false, false, 0, [], fun _ _ => true, []⟩
      (recvFunctional 3
        ⟨PortKind.noc, true, true, 0, [(1, false)], fun _ _ => true, []⟩) :=
    PortReach.functional _ 3
      (PortReach.timing ⟨PortKind.noc, true, false, 0, [(1, false)], fun _ _ => true, []⟩ 2
        false _
        (PortReach.timing _ 1 true _ PortReach.init rfl) rfl)
  have hw := retry_implies_busy _ _ rfl hreach
  exact ⟨_, hreach, rfl, hw.1 rfl, hw.2.1 4⟩

end TcuSlavePort

namespace CoreRequests

theorem eraseP_eq_filter (id : Nat) (l : List Request) (hn : (l.map Request.id).Nodup) :
    l.eraseP (fun r => r.id == id) = l.filter (fun r => r.id != id) := by
  induction l with
  | nil => rfl
  | cons a l ih =>
    rw [List.map_cons, List.nodup_cons] at hn
    rw [List.eraseP_cons, List.filter_cons]
    by_cases ha : a.id = id
    · have hall : ∀ r ∈ l, (r.id != id) = true := by
        intro r hr
        rw [bne_iff_ne]
        intro hrid
        exact hn.1 (List.mem_map.mpr ⟨r, hr, by rw [hrid, ha]⟩)
      simp [ha, List.filter_eq_self.mpr hall]
    · have hb : (a.id == id) = false := by simpa using ha
      rw [hb]
      simp [ha, ih hn.2]

theorem find_none_filter (id : Nat) (l : List Request)
    (h : l.find? (fun r => r.id == id) = none) : l.filter (fun r => r.id != id) = l := by
  rw [List.filter_eq_self]
  intro r hr
  have := List.find?_eq_none.mp h r hr
  simpa using this

/-- Starting the head of a queue whose head has been started before changes no request. -/
theorem startNextReq_reqs (x : CoreRequests)
    (h : ∀ r rest, x.reqs = r :: rest → r.waiting = false) : (startNextReq x).reqs = x.reqs := by
  unfold startNextReq
  cases hq : x.reqs with
  | nil => simp [hq]
  | cons r rest =>
    have hw := h r rest hq
    cases r with
    | mk i e a w =>
      simp only at hw
      subst hw
      simp [setCoreReq]

theorem startNextReq_ident (x : CoreRequests) :
    (startNextReq x).reqs.map ident = x.reqs.map ident := by
  unfold startNextReq
  cases hq : x.reqs with
  | nil => simp [hq]
  | cons r rest => simp [setCoreReq, ident]

theorem startNextReq_writes (x : CoreRequests) :
    (startNextReq x).regWrites = x.regWrites ++
      (match x.reqs with
        | [] => []
        | r :: _ => [CoreMsg.FOREIGN_REQ r.epId r.actId]) := by
  unfold startNextReq
  cases hq : x.reqs with
  | nil => simp
  | cons r rest => simp [setCoreReq]

theorem startNextReq_started (x : CoreRequests) (hn : (x.reqs.map Request.id).Nodup)
    (h : ∀ r rest, x.reqs = r :: rest → ∀ q ∈ rest, q.waiting = true) :
    Started (startNextReq x) := by
  unfold Started
  have hid : (startNextReq x).reqs.map Request.id = x.reqs.map Request.id := by
    have := congrArg (List.map (fun t : Nat × Nat × Nat => t.1)) (startNextReq_ident x)
    simpa [List.map_map, Function.comp_def, ident] using this
  refine ⟨by rw [hid]; exact hn, ?_⟩
  cases hq : x.reqs with
  | nil =>
    have he : (startNextReq x).reqs = [] := by
      unfold startNextReq
      simp [hq]
    rw [he]
    trivial
  | cons r rest =>
    have he : (startNextReq x).reqs = { r with waiting := false } :: rest := by
      unfold startNextReq
      simp [hq, setCoreReq]
    rw [he]
    exact ⟨rfl, h r rest hq⟩

/-- The loop of `abortReq`: the state in which `startNextReq` is called. -/
theorem abortReq_eq (id : Nat) (x : CoreRequests) (hn : (x.reqs.map Request.id).Nodup) :
    ∃ xr, abortReq id x = startNextReq xr ∧
      xr.reqs = x.reqs.filter (fun r => r.id != id) ∧
      xr.regWrites = x.regWrites ++
        (if ∃ r ∈ x.reqs, r.id = id ∧ r.waiting = false then [CoreMsg.IDLE] else []) ∧
      xr.coreReq = (if ∃ r ∈ x.reqs, r.id = id ∧ r.waiting = false then CoreMsg.IDLE
        else x.coreReq) ∧
      xr.irqs = x.irqs := by
  cases hf : x.reqs.find? (fun r => r.id == id) with
  | none =>
    have hno : ¬ ∃ r ∈ x.reqs, r.id = id ∧ r.waiting = false := by
      rintro ⟨r, hr, hid, _⟩
      have := List.find?_eq_none.mp hf r hr
      simp [hid] at this
    refine ⟨x, ?_, (find_none_filter id _ hf).symm, ?_, ?_, rfl⟩
    · unfold abortReq
      rw [hf]
    · rw [if_neg hno, List.append_nil]
    · rw [if_neg hno]
  | some r =>
    have hr : r ∈ x.reqs := List.mem_of_find?_eq_some hf
    have hid : r.id = id := by
      have := List.find?_some hf
      simpa using this
    have hiff : (∃ q ∈ x.reqs, q.id = id ∧ q.waiting = false) ↔ r.waiting = false := by
      constructor
      · rintro ⟨q, hq, hqid, hqw⟩
        have hqr : q = r :=
          List.inj_on_of_nodup_map hn hq hr (by rw [hqid, hid])
        rw [← hqr]
        exact hqw
      · intro hw
        exact ⟨r, hr, hid, hw⟩
    refine ⟨{ (if !r.waiting then x.setCoreReq CoreMsg.IDLE else x) with
      reqs := x.reqs.eraseP (fun r => r.id == id) }, ?_, eraseP_eq_filter id _ hn, ?_, ?_, ?_⟩
    · unfold abortReq
      rw [hf]
      cases hw : r.waiting <;> simp [setCoreReq, hw]
    · by_cases hw : r.waiting = false
      · rw [if_pos (hiff.mpr hw)]
        simp [hw, setCoreReq]
      · rw [if_neg (fun h => hw (hiff.mp h))]
        have hw1 : r.waiting = true := by simpa using hw
        simp [hw1]
    · by_cases hw : r.waiting = false
      · rw [if_pos (hiff.mpr hw)]
        simp [hw, setCoreReq]
      · rw [if_neg (fun h => hw (hiff.mp h))]
        have hw1 : r.waiting = true := by simpa using hw
        simp [hw1]
    · cases hw : r.waiting <;> simp [setCoreReq]

/-- C18 (as stated, refuted): the abort of the request in flight does not leave `CORE_REQ`
cleared when another request waits.  With request 0 (endpoint 4) in flight and request 1
(endpoint 5) waiting, `abortReq(0)` writes `IDLE`, erases request 0, and `startNextReq` starts
request 1: `CORE_REQ` holds the descriptor of request 1 afterwards. -/
theorem abortReq_restart_counterexample :
    abortReq 0 ⟨[⟨0, 4, 1, false⟩, ⟨1, 5, 1, true⟩], CoreMsg.FOREIGN_REQ 4 1, [], 1⟩
      = ⟨[⟨1, 5, 1, false⟩], CoreMsg.FOREIGN_REQ 5 1,
        [CoreMsg.IDLE, CoreMsg.FOREIGN_REQ 5 1], 2⟩ ∧
    (abortReq 0 ⟨[⟨0, 4, 1, false⟩, ⟨1, 5, 1, true⟩], CoreMsg.FOREIGN_REQ 4 1, [], 1⟩).coreReq
      ≠ CoreMsg.IDLE := by
  decide

/-- C18 (amended): in a state that the functions of `CoreRequests` keep (distinct ids, the
head of the queue started and no other request), `abortReq(id)` leaves in the queue exactly
the requests whose id is not `id`, in their order, and leaves the queue as it is when no
request has that id.  It writes `IDLE` to `CORE_REQ` if and only if the removed request was
not waiting, that is, was the one in flight; `startNextReq` then writes the descriptor of the
head of the remaining queue, if there is one, and raises its interrupt, so that `CORE_REQ`
holds that descriptor if a request remains, `IDLE` if none remains and the removed request
was in flight, and its old value otherwise.  The state that results is again one that the
functions keep. -/
theorem abortReq_removes (id : Nat) (x : CoreRequests) (hs : Started x) :
    (abortReq id x).reqs.map ident = (x.reqs.filter (fun r => r.id != id)).map ident ∧
    ((∀ r ∈ x.reqs, r.id ≠ id) → (abortReq id x).reqs = x.reqs) ∧
    (abortReq id x).regWrites = x.regWrites ++
      (if ∃ r ∈ x.reqs, r.id = id ∧ r.waiting = false then [CoreMsg.IDLE] else []) ++
      (match x.reqs.filter (fun r => r.id != id) with
        | [] => []
        | r :: _ => [CoreMsg.FOREIGN_REQ r.epId r.actId]) ∧
    (abortReq id x).coreReq =
      (match x.reqs.filter (fun r => r.id != id) with
        | [] => if ∃ r ∈ x.reqs, r.id = id ∧ r.waiting = false then CoreMsg.IDLE
          else x.coreReq
        | r :: _ => CoreMsg.FOREIGN_REQ r.epId r.actId) ∧
    Started (abortReq id x) := by
  obtain ⟨hn, hhead⟩ := hs
  obtain ⟨xr, he, hq, hw, hc, _⟩ := abortReq_eq id x hn
  rw [he]
  refine ⟨?_, ?_, ?_, ?_, ?_⟩
  · rw [startNextReq_ident, hq]
  · intro hall
    have hfl : x.reqs.filter (fun r => r.id != id) = x.reqs := by
      rw [List.filter_eq_self]
      intro r hr
      rw [bne_iff_ne]
      exact hall r hr
    rw [hfl] at hq
    rw [startNextReq_reqs xr, hq]
    intro r rest hrr
    rw [hq] at hrr
    rw [hrr] at hhead
    exact hhead.1
  · rw [startNextReq_writes, hw, hq]
  · unfold startNextReq
    rw [hq]
    cases hfl : x.reqs.filter (fun r => r.id != id) with
    | nil => exact hc
    | cons r rest => rfl
  · apply startNextReq_started
    · rw [hq]
      exact (List.filter_sublist _).map Request.id |>.nodup hn
    · intro r rest hrr q hqm
      rw [hq] at hrr
      cases hx : x.reqs with
      | nil =>
        rw [hx] at hrr
        simp at hrr
      | cons h t =>
        rw [hx] at hrr hhead
        have hqt : q ∈ t := by
          rw [List.filter_cons] at hrr
          split at hrr
          · have h2 := (List.cons.inj hrr).2
            have : q ∈ t.filter (fun r => r.id != id) := by rw [h2]; exact hqm
            exact List.mem_of_mem_filter this
          · have : q ∈ t.filter (fun r => r.id != id) := by
              rw [hrr]
              exact List.mem_cons_of_mem _ hqm
            exact List.mem_of_mem_filter this
        exact hhead.2 q hqt

/-- C18 on a queue of three requests with request 0 in flight: the abort of the waiting
request 1 writes no `IDLE`; the abort of request 0 writes `IDLE` and then starts request 1. -/
theorem abortReq_removes_witness :
    (abortReq 1 ⟨[⟨0, 4, 1, false⟩, ⟨1, 5, 1, true⟩, ⟨2, 6, 2, true⟩],
        CoreMsg.FOREIGN_REQ 4 1, [], 0⟩).reqs.map ident = [(0, 4, 1), (2, 6, 2)] ∧
      (abortReq 0 ⟨[⟨0, 4, 1, false⟩, ⟨1, 5, 1, true⟩, ⟨2, 6, 2, true⟩],
        CoreMsg.FOREIGN_REQ 4 1, [], 0⟩).regWrites
        = [CoreMsg.IDLE, CoreMsg.FOREIGN_REQ 5 1] :=
  ⟨(abortReq_removes 1 ⟨[⟨0, 4, 1, false⟩, ⟨1, 5, 1, true⟩, ⟨2, 6, 2, true⟩],
      CoreMsg.FOREIGN_REQ 4 1, [], 0⟩ (by unfold Started; decide)).1,
    (abortReq_removes 0 ⟨[⟨0, 4, 1, false⟩, ⟨1, 5, 1, true⟩, ⟨2, 6, 2, true⟩],
      CoreMsg.FOREIGN_REQ 4 1, [], 0⟩ (by unfold Started; decide)).2.2.1⟩

/-! ## The ids of the core requests -/

theorem getById_isNone (x : CoreRequests) (id : Nat) :
    (x.getById id).isNone = true ↔ ∀ r ∈ x.reqs, r.id ≠ id := by
  unfold getById
  rw [Option.isNone_iff_eq_none, List.find?_eq_none]
  constructor
  · intro h r hr
    simpa using h r hr
  · intro h r hr
    simpa using h r hr

/-- What the loop of `nextId` returns is the first id at or after its start that no request in
the queue has. -/
theorem nextIdFrom_some (x : CoreRequests) (fuel id i : Nat)
    (h : nextIdFrom x fuel id = some i) :
    id ≤ i ∧ (∀ r ∈ x.reqs, r.id ≠ i) ∧ ∀ j, id ≤ j → j < i → ∃ r ∈ x.reqs, r.id = j := by
  induction fuel generalizing id with
  | zero => exact Option.noConfusion h
  | succ fuel ih =>
    unfold nextIdFrom at h
    by_cases hn : (x.getById id).isNone = true
    · rw [if_pos hn] at h
      have hi : id = i := Option.some.inj h
      subst hi
      refine ⟨Nat.le_refl _, (getById_isNone x id).mp hn, ?_⟩
      intro j h1 h2
      omega
    · rw [if_neg hn] at h
      obtain ⟨h1, h2, h3⟩ := ih (id + 1) h
      refine ⟨by omega, h2, ?_⟩
      intro j hj1 hj2
      rcases Nat.eq_or_lt_of_le hj1 with heq | hlt
      · subst heq
        by_contra hcon
        apply hn
        rw [getById_isNone]
        intro r hr hid
        exact hcon ⟨r, hr, hid⟩
      · exact h3 j hlt hj2

/-- A loop of `nextId` that is cut off has passed ids of queued requests only. -/
theorem nextIdFrom_none (x : CoreRequests) (fuel id : Nat) (h : nextIdFrom x fuel id = none) :
    ∀ j, id ≤ j → j < id + fuel → ∃ r ∈ x.reqs, r.id = j := by
  induction fuel generalizing id with
  | zero =>
    intro j h1 h2
    omega
  | succ fuel ih =>
    unfold nextIdFrom at h
    by_cases hn : (x.getById id).isNone = true
    · rw [if_pos hn] at h
      exact Option.noConfusion h
    · rw [if_neg hn] at h
      intro j hj1 hj2
      rcases Nat.eq_or_lt_of_le hj1 with heq | hlt
      · subst heq
        by_contra hcon
        apply hn
        rw [getById_isNone]
        intro r hr hid
        exact hcon ⟨r, hr, hid⟩
      · exact ih (id + 1) h j hlt (by omega)

/-- With more rounds than the queue has requests the loop of `nextId` returns. -/
theorem nextId_returns (x : CoreRequests) (fuel : Nat) (hf : x.reqs.length < fuel) :
    ∃ i, nextId fuel x = some i := by
  unfold nextId
  cases h : nextIdFrom x fuel 0 with
  | some i => exact ⟨i, rfl⟩
  | none =>
    exfalso
    have hall := nextIdFrom_none x fuel 0 h
    have hsub : Finset.range (x.reqs.length + 1) ⊆ (x.reqs.map Request.id).toFinset := by
      intro j hj
      rw [Finset.mem_range] at hj
      obtain ⟨r, hr, hid⟩ := hall j (Nat.zero_le _) (by omega)
      rw [List.mem_toFinset, List.mem_map]
      exact ⟨r, hr, hid⟩
    have h1 := Finset.card_le_card hsub
    have h2 := List.toFinset_card_le (x.reqs.map Request.id)
    rw [Finset.card_range] at h1
    rw [List.length_map] at h2
    omega

theorem startNextReq_ids (x : CoreRequests) :
    (startNextReq x).reqs.map Request.id = x.reqs.map Request.id := by
  have := congrArg (List.map (fun t : Nat × Nat × Nat => t.1)) (startNextReq_ident x)
  simpa [List.map_map, Function.comp_def, ident] using this

/-- The function `abortReq` keeps the state of the queue well-formed. -/
theorem abortReq_started (id : Nat) (x : CoreRequests) (hs : Started x) :
    Started (abortReq id x) := by
  obtain ⟨hn, hhead⟩ := hs
  obtain ⟨xr, he, hq, _, _, _⟩ := abortReq_eq id x hn
  rw [he]
  apply startNextReq_started
  · rw [hq]
    exact (List.filter_sublist _).map Request.id |>.nodup hn
  · intro r rest hrr q hqm
    rw [hq] at hrr
    cases hx : x.reqs with
    | nil =>
      rw [hx] at hrr
      simp at hrr
    | cons h t =>
      rw [hx] at hrr hhead
      have hqt : q ∈ t := by
        rw [List.filter_cons] at hrr
        split at hrr
        · have h2 := (List.cons.inj hrr).2
          have : q ∈ t.filter (fun r => r.id != id) := by rw [h2]; exact hqm
          exact List.mem_of_mem_filter this
        · have : q ∈ t.filter (fun r => r.id != id) := by
            rw [hrr]
            exact List.mem_cons_of_mem _ hqm
          exact List.mem_of_mem_filter this
      exact hhead.2 q hqt

/-- A new foreign receive gets an id that no queued request has, is appended to the queue,
and leaves the state of the queue well-formed. -/
theorem startForeignReceive_started (fuel epId actId : Nat) (x : CoreRequests) (id : Nat)
    (x1 : CoreRequests) (hs : Started x)
    (h : startForeignReceive fuel epId actId x = some (id, x1)) :
    nextId fuel x = some id ∧ (∀ r ∈ x.reqs, r.id ≠ id) ∧
      x1.reqs.map Request.id = x.reqs.map Request.id ++ [id] ∧ Started x1 := by
  obtain ⟨hn, hhead⟩ := hs
  unfold startForeignReceive at h
  cases hid : nextId fuel x with
  | none =>
    rw [hid] at h
    exact Option.noConfusion h
  | some i =>
    rw [hid] at h
    simp only at h
    obtain ⟨_, hfresh, _⟩ := nextIdFrom_some x fuel 0 i hid
    have hnd : ((x.reqs ++ [(⟨i, epId, actId, true⟩ : Request)]).map Request.id).Nodup := by
      rw [List.map_append, List.nodup_append]
      refine ⟨hn, List.nodup_singleton _, ?_⟩
      intro a ha hb
      rw [List.map_singleton, List.mem_singleton] at hb
      obtain ⟨r, hr, hra⟩ := List.mem_map.mp ha
      exact hfresh r hr (hra.trans hb)
    cases hx : x.reqs with
    | nil =>
      rw [hx] at h hnd
      simp only [List.nil_append, List.length_singleton, if_true, Option.some.injEq,
        Prod.mk.injEq] at h
      obtain ⟨h1, h2⟩ := h
      subst h1
      rw [← h2]
      refine ⟨rfl, ?_, ?_, ?_⟩
      · intro r hr
        cases hr
      · rw [startNextReq_ids]
        rfl
      · apply startNextReq_started
        · exact hnd
        · intro r rest hrr q hq
          have hrr : [(⟨i, epId, actId, true⟩ : Request)] = r :: rest := hrr
          have := (List.cons.inj hrr).2
          rw [← this] at hq
          cases hq
    | cons a t =>
      rw [hx] at h hnd hhead
      have hlen : ¬ ((a :: t) ++ [(⟨i, epId, actId, true⟩ : Request)]).length = 1 := by
        simp
      rw [if_neg hlen, Option.some.injEq, Prod.mk.injEq] at h
      obtain ⟨h1, h2⟩ := h
      subst h1
      rw [← h2]
      refine ⟨rfl, ?_, ?_, ?_⟩
      · rw [hx] at hfresh
        exact hfresh
      · simp
      · refine ⟨hnd, ?_⟩
        show a.waiting = false ∧ ∀ r ∈ t ++ [(⟨i, epId, actId, true⟩ : Request)],
          r.waiting = true
        refine ⟨hhead.1, ?_⟩
        intro r hr
        rcases List.mem_append.mp hr with hr | hr
        · exact hhead.2 r hr
        · rw [List.mem_singleton] at hr
          rw [hr]

theorem completeReqs_started (x x1 : CoreRequests) (hs : Started x)
    (h : completeReqs x = some x1) : Started x1 := by
  obtain ⟨hn, hhead⟩ := hs
  unfold completeReqs at h
  cases hc : x.coreReq with
  | IDLE =>
    rw [hc] at h
    exact Option.noConfusion h
  | FOREIGN_REQ e a =>
    rw [hc] at h
    exact Option.noConfusion h
  | RESP v =>
    rw [hc] at h
    simp only at h
    cases hx : x.reqs with
    | nil =>
      rw [hx] at h
      exact Option.noConfusion h
    | cons a t =>
      rw [hx] at h hn hhead
      simp only [Option.some.injEq] at h
      rw [← h]
      apply startNextReq_started
      · rw [List.map_cons, List.nodup_cons] at hn
        exact hn.2
      · intro r rest hrr q hq
        have hrr : t = r :: rest := hrr
        exact hhead.2 q (by rw [hrr]; exact List.mem_cons_of_mem _ hq)

/-- In every reachable state the ids are distinct, the head of the queue is started and no
other request is. -/
theorem queueReach_started (x : CoreRequests) (hr : QueueReach x) : Started x := by
  induction hr with
  | init x h =>
    unfold Started
    rw [h]
    exact ⟨List.nodup_nil, trivial⟩
  | received fuel epId actId x id x1 _ h ih =>
    exact (startForeignReceive_started fuel epId actId x id x1 ih h).2.2.2
  | completed x x1 _ h ih => exact completeReqs_started x x1 ih h
  | aborted id x _ ih => exact abortReq_started id x ih
  | responded x v _ ih => exact ih

/-- C30: `nextId`, run for more rounds than the queue has requests, returns, and what it
returns is the smallest number that is the id of no queued request.  Hence
`startForeignReceive` appends a request whose id differs from all ids in the queue, and in
every state reached from an empty queue by `startForeignReceive`, `completeReqs`, `abortReq`
and the responses of the core, the ids of the queued requests are pairwise distinct. -/
theorem nextId_smallest_fresh (x : CoreRequests) :
    (∀ fuel, x.reqs.length < fuel →
      ∃ i, nextId fuel x = some i ∧ (∀ r ∈ x.reqs, r.id ≠ i) ∧
        ∀ j, j < i → ∃ r ∈ x.reqs, r.id = j) ∧
    (QueueReach x → (x.reqs.map Request.id).Nodup ∧
      (∀ fuel epId actId, x.reqs.length < fuel →
        ∃ id x1, startForeignReceive fuel epId actId x = some (id, x1) ∧
          (∀ r ∈ x.reqs, r.id ≠ id) ∧
          x1.reqs.map Request.id = x.reqs.map Request.id ++ [id] ∧
          (x1.reqs.map Request.id).Nodup) ∧
      (∀ x1, completeReqs x = some x1 → (x1.reqs.map Request.id).Nodup) ∧
      ∀ id, ((abortReq id x).reqs.map Request.id).Nodup) := by
  constructor
  · intro fuel hf
    obtain ⟨i, hi⟩ := nextId_returns x fuel hf
    obtain ⟨_, h2, h3⟩ := nextIdFrom_some x fuel 0 i hi
    exact ⟨i, hi, h2, fun j hj => h3 j (Nat.zero_le _) hj⟩
  · intro hr
    have hs := queueReach_started x hr
    refine ⟨hs.1, ?_, ?_, ?_⟩
    · intro fuel epId actId hf
      obtain ⟨i, hi⟩ := nextId_returns x fuel hf
      have hsome : ∃ x1, startForeignReceive fuel epId actId x = some (i, x1) := by
        unfold startForeignReceive
        rw [hi]
        simp only
        split
        · exact ⟨_, rfl⟩
        · exact ⟨_, rfl⟩
      obtain ⟨x1, hx1⟩ := hsome
      obtain ⟨_, h2, h3, h4⟩ := startForeignReceive_started fuel epId actId x i x1 hs hx1
      exact ⟨i, x1, hx1, h2, h3, h4.1⟩
    · intro x1 h
      exact (completeReqs_started x x1 hs h).1
    · intro id
      exact (abortReq_started id x hs).1

/-- C30 on a queue with the requests 0 and 2: `nextId` returns 1. -/
theorem nextId_smallest_fresh_witness :
    nextId 3 ⟨[⟨0, 4, 1, false⟩, ⟨2, 6, 2, true⟩], CoreMsg.FOREIGN_REQ 4 1, [], 0⟩ = some 1 ∧
    ∃ i, nextId 3 ⟨[⟨0, 4, 1, false⟩, ⟨2, 6, 2, true⟩], CoreMsg.FOREIGN_REQ 4 1, [], 0⟩
        = some i ∧
      (∀ r ∈ [(⟨0, 4, 1, false⟩ : Request), ⟨2, 6, 2, true⟩], r.id ≠ i) ∧
      ∀ j, j < i → ∃ r ∈ [(⟨0, 4, 1, false⟩ : Request), ⟨2, 6, 2, true⟩], r.id = j :=
  ⟨by decide, (nextId_smallest_fresh
    (⟨[⟨0, 4, 1, false⟩, ⟨2, 6, 2, true⟩], CoreMsg.FOREIGN_REQ 4 1, [], 0⟩ : CoreRequests)).1 3
    (by decide)⟩

end CoreRequests

end Tcu
